import Mathlib

/-!
Verification of the ScsProductionData position-generation engine.

This file gives a shallow embedding of the core of the repository:

* `CoilMap` (source `CoilMap.cpp` / `CoilMap.hpp`): the in-memory coil map,
  a Boost ordered map keyed by coil angle, together with its query functions
  (`GetFhltar`, `GetAngleLb`, `GetJoggleLb`, `GetJoggleUb`, ...).  The Boost
  map is embedded as an association list sorted by key; the Boost iterator
  dance (`upper_bound`, compare with `begin()`, step back one) is embedded
  through the position returned by `ubIdx`.
* `AxisPositions` (source `AxisPositions.cpp` / `AxisPositions.hpp`): the
  joggle classifier (`CalculateJoggleAdjustmentType`), the transition
  adjuster (`CalculateTransitionAdjustment`), the record populator
  (`PopScsPosDetail`, `SetSelectedScsAxis`, `UnselectAllScsAxes`), the
  seeding helpers (`MapCoilStartScsPositions`, `MapPostLoadScsPositions`,
  `MapNewLayerScsPositions`) and the main pass (`CalculateAxisMoves`).

Doubles are embedded as an arbitrary `LinearOrderedField` with a floor
(instantiated at `ℝ` for the theorems about the program, and at `ℚ` where a
decidable evaluation is convenient); C++ `long` is embedded as `ℤ`.  The
transcendental kernels used by the transition adjuster (`sin`, `cos`,
`atan`, `sqrt` from `<cmath>`) are collected in a `TrigKernel` parameter so
that the single embedding can be instantiated both at the real transcendental
functions (the program) and at computable stand-ins.  Logic-trace strings are
embedded as lists of trace tokens, one constructor per append site, carrying
the numeric data the source formats into the string.
-/

namespace ScsData

/-- Feature codes of the coil map (source `gaScsDataConstants.hpp`:
`FC_TRANSITION = "T"`, `FC_OUTLET = "O"`, `FC_INLET = "I"`, `FC_JOGGLE = "J"`,
`FC_WINDING_LOCK = "W"`, `FC_LOCAL = "L"`), plus the sentinel string
`NO_FEATURE_STR = "none"` and a constructor for any other string value. -/
inductive Fc where
  | T | O | I | J | W | L
  | NF
  | X
  deriving DecidableEq, Repr

/-- One value row of the coil map: the `fhltar` tuple of `CoilMap.hpp`
(feature code, hex/quad pancake number, layer, turn, azimuth, nominal
radius). -/
structure CmRow (α : Type) where
  fc : Fc
  hqp : ℤ
  layer : ℤ
  turn : ℤ
  azimuth : α
  radius : α
  deriving DecidableEq, Repr

section Constants

variable (α : Type) [LinearOrderedField α]

/-- Source `RTN_NO_ERROR = 1`. -/
def RTN_NO_ERROR : ℤ := 1
/-- Source `RTN_ERROR = -1`. -/
def RTN_ERROR : ℤ := -1
/-- Source `RTN_NO_RESULTS = -2` (used both as a long status and, converted,
as a double angle sentinel). -/
def RTN_NO_RESULTS : ℤ := -2
/-- Source `RTN_NO_RESULTS` converted to double. -/
def RTN_NO_RESULTS_D : α := -2
/-- Source `NO_FEATURE = -1` (long sentinel). -/
def NO_FEATURE : ℤ := -1
/-- Source `NO_FEATURE` converted to double. -/
def NO_FEATURE_D : α := -1
/-- Source `INITIAL_NO_POSITION = -20000.0`. -/
def INITIAL_NO_POSITION : α := -20000
/-- Source `POSITION_NOT_CALCULATED = -10000.0`. -/
def POSITION_NOT_CALCULATED : α := -10000
/-- Source `PI = 3.14159` (the program's own rational constant, not the
mathematical pi). -/
def PI_C : α := 314159 / 100000
/-- Source `DEG_TO_RADIANS = PI/180.0`. -/
def DEG_TO_RADIANS : α := PI_C α / 180
/-- Source `RADIANS_TO_DEG = 180.0/PI`. -/
def RADIANS_TO_DEG : α := 180 / PI_C α
/-- Source `TURNS_PER_LAYER = 14`. -/
def TURNS_PER_LAYER : ℤ := 14
/-- Source `LAYERS_PER_COIL = 40`. -/
def LAYERS_PER_COIL : ℤ := 40
/-- Source `COIL_ANGLE_MAX = (40 * 14 * 360) - (360 * 6) = 199440`. -/
def COIL_ANGLE_MAX : ℤ := (LAYERS_PER_COIL * TURNS_PER_LAYER * 360) - (360 * 6)
/-- Source `COLUMN_INCREMENT = 60`. -/
def COLUMN_INCREMENT : ℤ := 60
/-- Source `INITIAL_COLUMN_ANGLE = 30`. -/
def INITIAL_COLUMN_ANGLE : ℤ := 30
/-- Source `TURN_INDEX_NOMINAL = 53` (mm). -/
def TURN_INDEX_NOMINAL : α := 53
/-- Source `INITIAL_FULL_RETRACT_POS = 735.0`. -/
def INITIAL_FULL_RETRACT_POS : α := 735
/-- Source `INITIAL_FULL_EXTEND_POS = -13.0`. -/
def INITIAL_FULL_EXTEND_POS : α := -13
/-- Source `RETREATING_FOOT_START_POS = -13.0`. -/
def RETREATING_FOOT_START_POS : α := -13
/-- Source `ADVANCING_FOOT_START_POS = 729.0`. -/
def ADVANCING_FOOT_START_POS : α := 729
/-- Source `NEW_LAYER_OFFSET = 5`. -/
def NEW_LAYER_OFFSET : α := 5
/-- Source `ADV_FOOT_RIA_OFFSET_ANGLE = 50.0`. -/
def ADV_FOOT_RIA_OFFSET_ANGLE : α := 50
/-- Source `RET_FOOT_RIA_OFFSET_ANGLE = 100.0`. -/
def RET_FOOT_RIA_OFFSET_ANGLE : α := 100
/-- Source `SOC_POST_LOAD_ANGLE = -140.0`. -/
def SOC_POST_LOAD_ANGLE : α := -140
/-- Source `SOC_INIT_RETR_ANGLE = -130.0`. -/
def SOC_INIT_RETR_ANGLE : α := -130
/-- Source `SOC_INIT_ADV_ANGLE = -80.0`. -/
def SOC_INIT_ADV_ANGLE : α := -80
/-- Source `JOGGLE_LENGTH_MIN = 16.18` (degrees, turn 1). -/
def JOGGLE_LENGTH_MIN : α := 1618 / 100
/-- Source `JOGGLE_LENGTH_MAX = 28.12` (degrees, turn 14). -/
def JOGGLE_LENGTH_MAX : α := 2812 / 100
/-- Source `JOGGLE_RETRACT_ADJ_THRESHOLD = 360.0`. -/
def JOGGLE_RETRACT_ADJ_THRESHOLD : α := 360
/-- Source `JOGGLE_FULL_RETRACT_THRESHOLD = 0.0`. -/
def JOGGLE_FULL_RETRACT_THRESHOLD : α := 0
/-- Source `JOGGLE_ADV_TO_FIRST_THRESHOLD = -360.0`. -/
def JOGGLE_ADV_TO_FIRST_THRESHOLD : α := -360
/-- Source `TRANS_STRAIGHT_LENGTH = 220.25` (mm). -/
def TRANS_STRAIGHT_LENGTH : α := 22025 / 100
/-- Source `TRANS_ARC_DEG = 27.06` (degrees). -/
def TRANS_ARC_DEG : α := 2706 / 100
/-- Source column azimuths `A_COLUMN_AZIMUTH = 30` ... `F_COLUMN_AZIMUTH = 330`. -/
def A_COLUMN_AZIMUTH : ℤ := 30
/-- Source `B_COLUMN_AZIMUTH = 90`. -/
def B_COLUMN_AZIMUTH : ℤ := 90
/-- Source `C_COLUMN_AZIMUTH = 150`. -/
def C_COLUMN_AZIMUTH : ℤ := 150
/-- Source `D_COLUMN_AZIMUTH = 210`. -/
def D_COLUMN_AZIMUTH : ℤ := 210
/-- Source `E_COLUMN_AZIMUTH = 270`. -/
def E_COLUMN_AZIMUTH : ℤ := 270
/-- Source `F_COLUMN_AZIMUTH = 330`. -/
def F_COLUMN_AZIMUTH : ℤ := 330
/-- Source `COLUMN_COUNT = 12`. -/
def COLUMN_COUNT : ℤ := 12

end Constants

/-- The sentinel `fhltar` tuple returned by `CoilMap::GetFhltar` when the
iterator is at `end()`: every long field is `NO_FEATURE = -1`, the feature
code is `NO_FEATURE_STR`, and the doubles are `NO_FEATURE`. -/
def sentinelRow (α : Type) [LinearOrderedField α] : CmRow α :=
  { fc := Fc.NF, hqp := NO_FEATURE, layer := NO_FEATURE, turn := NO_FEATURE,
    azimuth := NO_FEATURE_D α, radius := NO_FEATURE_D α }

/-- The coil map: the Boost ordered map `mapCoil_` embedded as an association
list sorted strictly by angle, and the Boost flat set `setJoggleAngles_`
embedded as a sorted list of angles.  (`CoilMap.hpp`.) -/
structure CoilMap (α : Type) where
  rows : List (α × CmRow α)
  joggles : List α

namespace CoilMap

variable {α : Type} [LinearOrderedField α]

/-- Position of `mapCoil_.upper_bound(q)` in the sorted association list:
the number of leading entries whose key is not greater than `q` (on a sorted
list this is the index of the first entry with key `> q`, or the length of
the list when there is none, i.e. `end()`). -/
def ubIdx : List (α × CmRow α) → α → ℕ
  | [], _ => 0
  | p :: t, q => if p.1 ≤ q then ubIdx t q + 1 else 0

/-- Position of `setJoggleAngles_.upper_bound(q)` in the sorted angle list. -/
def ubIdxA : List α → α → ℕ
  | [], _ => 0
  | a :: t, q => if a ≤ q then ubIdxA t q + 1 else 0

/-- The iterator produced by the source pattern
`cit = mapCoil_.upper_bound(angle); if (cit != mapCoil_.begin()) --cit;`
as an optional entry: when the adjusted position is `end()` (only possible
for the empty map) the result is `none`. -/
def lbCit (cm : CoilMap α) (q : α) : Option (α × CmRow α) :=
  let i := ubIdx cm.rows q
  if i = 0 then cm.rows.get? 0 else cm.rows.get? (i - 1)

/-- Source `CoilMap::GetFhltar(double)`: `mapCoil_.find(angle)` followed by
the iterator overload (sentinel tuple when not found). -/
def GetFhltar (cm : CoilMap α) (angle : α) : CmRow α :=
  match cm.rows.find? (fun p => p.1 = angle) with
  | some p => p.2
  | none => sentinelRow α

/-- Source `CoilMap::GetAngle(double)`: sentinel `NO_FEATURE` when the angle
is not a key of the map. -/
def GetAngle (cm : CoilMap α) (angle : α) : α :=
  match cm.rows.find? (fun p => p.1 = angle) with
  | some p => p.1
  | none => NO_FEATURE_D α

/-- Source `CoilMap::GetFhltarLb(double)`: upper bound, step back one unless
at `begin()`, then read through the iterator overload. -/
def GetFhltarLb (cm : CoilMap α) (angle : α) : CmRow α :=
  match lbCit cm angle with
  | some p => p.2
  | none => sentinelRow α

/-- Source `CoilMap::GetAngleLb(double)`. -/
def GetAngleLb (cm : CoilMap α) (angle : α) : α :=
  match lbCit cm angle with
  | some p => p.1
  | none => NO_FEATURE_D α

/-- Source `CoilMap::GetFcLb(double)`. -/
def GetFcLb (cm : CoilMap α) (angle : α) : Fc :=
  match lbCit cm angle with
  | some p => p.2.fc
  | none => Fc.NF

/-- Source `CoilMap::GetHexQuadNumberLb(double)`. -/
def GetHexQuadNumberLb (cm : CoilMap α) (angle : α) : ℤ :=
  match lbCit cm angle with
  | some p => p.2.hqp
  | none => NO_FEATURE

/-- Source `CoilMap::GetLayerLb(double)`. -/
def GetLayerLb (cm : CoilMap α) (angle : α) : ℤ :=
  match lbCit cm angle with
  | some p => p.2.layer
  | none => NO_FEATURE

/-- Source `CoilMap::GetTurnLb(double)`. -/
def GetTurnLb (cm : CoilMap α) (angle : α) : ℤ :=
  match lbCit cm angle with
  | some p => p.2.turn
  | none => NO_FEATURE

/-- Source `CoilMap::GetRadiusLb(double)`. -/
def GetRadiusLb (cm : CoilMap α) (angle : α) : α :=
  match lbCit cm angle with
  | some p => p.2.radius
  | none => NO_FEATURE_D α

/-- Source `CoilMap::GetJoggleLb(double)`: upper bound into the joggle-angle
set; if not at `begin()`, step back one and return that angle, otherwise
return `RTN_NO_RESULTS`. -/
def GetJoggleLb (cm : CoilMap α) (angle : α) : α :=
  let i := ubIdxA cm.joggles angle
  if i = 0 then RTN_NO_RESULTS_D α
  else ((cm.joggles.get? (i - 1)).getD (RTN_NO_RESULTS_D α))

/-- Source `CoilMap::GetJoggleUb(double)`: `lower_bound` into the joggle
angle set (the angle at or past the query), `RTN_NO_RESULTS` when there is
none. -/
def GetJoggleUb (cm : CoilMap α) (angle : α) : α :=
  match cm.joggles.dropWhile (fun a => a < angle) with
  | [] => RTN_NO_RESULTS_D α
  | a :: _ => a

/-- Source `CoilMap::GetJoggleLengthLb(double)`: minimum window length on
turn 1, maximum on turn 14, zero otherwise. -/
def GetJoggleLengthLb (cm : CoilMap α) (angle : α) : α :=
  let turn := GetTurnLb cm angle
  if turn = 1 then JOGGLE_LENGTH_MIN α
  else if turn = TURNS_PER_LAYER then JOGGLE_LENGTH_MAX α
  else 0

/-- Source `CoilMap::isEvenLayerLb(double, bool&)`: `none` models a failed
lookup (status `false`), `some b` a successful one with condition `b`. -/
def isEvenLayerLb (cm : CoilMap α) (angle : α) : Option Bool :=
  match lbCit cm angle with
  | some p => some (p.2.layer % 2 = 0)
  | none => none

/-- Source `CoilMap::isOddLayerLb(double, bool&)`. -/
def isOddLayerLb (cm : CoilMap α) (angle : α) : Option Bool :=
  match lbCit cm angle with
  | some p => some (p.2.layer % 2 = 1)
  | none => none

/-- Source `CoilMap::isLastTurnLb(long, bool)`: last turn iff even layer and
turn 1, or odd layer and turn 14. -/
def isLastTurnLb (turn : ℤ) (isEven : Bool) : Bool :=
  (isEven && turn = 1) || (!isEven && turn = TURNS_PER_LAYER)

/-- Source `CoilMap::isLastHqLayer(long)` (normal coil): layer 6, 12, 18,
22, 28, 34, or at least 40. -/
def isLastHqLayer (layer : ℤ) : Bool :=
  layer = 6 || layer = 12 || layer = 18 || layer = 22 ||
  layer = 28 || layer = 34 || 40 ≤ layer

/-- Source `CoilMap::isInTransitionLb(double, bool&, double&)`: `none`
models the error return (failed lookups, status `false`); on success the
pair is (condition, degrees past the previous transition). -/
def isInTransitionLb (cm : CoilMap α) (angle : α) : Option (Bool × α) :=
  let turn := GetTurnLb cm angle
  let fc := GetFcLb cm angle
  let anglePast := angle - GetAngleLb cm angle
  if turn ≠ NO_FEATURE ∧ fc ≠ Fc.NF then
    some (decide (fc = Fc.T) && decide (anglePast ≤ TRANS_ARC_DEG α), anglePast)
  else
    none

/-- Source `CoilMap::isLastMoveOfLayer(double, bool&, double&, bool&)`.
Returns (condition, joggle angle, isInJoggleWindow); when the condition is
false the last two components keep the caller's initialisation
(`RTN_NO_RESULTS` and `false` at the only call site in
`AxisPositions::CalculateAxisMoves`). -/
def isLastMoveOfLayer (cm : CoilMap α) (angle : α) : Bool × α × Bool :=
  let nextJoggleAngle := GetJoggleUb cm angle
  let nextJoggleLength := GetJoggleLengthLb cm nextJoggleAngle
  let prevJoggleAngle := GetJoggleLb cm angle
  let prevJoggleLength := GetJoggleLengthLb cm prevJoggleAngle
  if nextJoggleAngle ≠ RTN_NO_RESULTS_D α ∧
      nextJoggleAngle + nextJoggleLength < angle + (COLUMN_INCREMENT : ℤ) then
    (true, nextJoggleAngle, false)
  else if prevJoggleAngle ≠ RTN_NO_RESULTS_D α ∧
      angle ≤ prevJoggleAngle + prevJoggleLength then
    (true, prevJoggleAngle, true)
  else
    (false, RTN_NO_RESULTS_D α, false)

end CoilMap

/-- Source enum `AxisPositions::joggleAdjustmentType`. -/
inductive joggleAdjustmentType where
  | JA_RET_ADJ_ADV_NOM
  | JA_RET_FULL_ADV_NOP
  | JA_RET_NOP_ADV_NOM
  | JA_RET_NOM_ADV_NOM
  deriving DecidableEq, Repr

open joggleAdjustmentType

namespace AxisPositions

open CoilMap

variable {α : Type} [LinearOrderedField α]

/-- Source `AxisPositions::CalculateJoggleAdjustmentType(double, double&,
double&, double&)`.  Returns the adjustment type together with the values
passed back by reference: (type, degToNextJoggle, degToPrevJoggle, jAdj). -/
def CalculateJoggleAdjustmentType (cm : CoilMap α) (angle : α) :
    joggleAdjustmentType × α × α × α :=
  let nextJoggleAngle := GetJoggleUb cm angle
  let degToNextJoggle := nextJoggleAngle - angle
  let nextJoggleLength := GetJoggleLengthLb cm nextJoggleAngle
  let prevJoggleAngle := GetJoggleLb cm angle
  let degToPrevJoggle := prevJoggleAngle - angle
  let prevJoggleLength := GetJoggleLengthLb cm prevJoggleAngle
  if JOGGLE_RETRACT_ADJ_THRESHOLD α < degToNextJoggle ∧
      degToPrevJoggle < JOGGLE_ADV_TO_FIRST_THRESHOLD α - prevJoggleLength then
    (JA_RET_NOM_ADV_NOM, degToNextJoggle, degToPrevJoggle, 0)
  else if degToNextJoggle ≤ JOGGLE_RETRACT_ADJ_THRESHOLD α ∧
      JOGGLE_RETRACT_ADJ_THRESHOLD α - nextJoggleLength ≤ degToNextJoggle then
    (JA_RET_ADJ_ADV_NOM, degToNextJoggle, degToPrevJoggle,
      TURN_INDEX_NOMINAL α / 2)
  else if degToPrevJoggle ≤ JOGGLE_FULL_RETRACT_THRESHOLD α ∧
      JOGGLE_FULL_RETRACT_THRESHOLD α - prevJoggleLength ≤ degToPrevJoggle then
    (JA_RET_FULL_ADV_NOP, degToNextJoggle, degToPrevJoggle, 0)
  else if degToPrevJoggle ≤ JOGGLE_ADV_TO_FIRST_THRESHOLD α ∧
      JOGGLE_ADV_TO_FIRST_THRESHOLD α - prevJoggleLength ≤ degToPrevJoggle then
    -- Region 3: the source's current revision returns the nominal type
    -- (`return JA_RET_NOM_ADV_NOM; // now this`); the legacy
    -- `JA_RET_NOP_ADV_NOM` return is commented out.
    (JA_RET_NOM_ADV_NOM, degToNextJoggle, degToPrevJoggle, 0)
  else
    (JA_RET_NOM_ADV_NOM, degToNextJoggle, degToPrevJoggle, 0)

/-- Source enum `AxisPositions::insertMode`. -/
inductive insertMode where
  | IM_REL_SEL
  | IM_ABS_SEL
  | IM_ABS_UPDATE_SEL
  | IM_REL_ALL
  | IM_ABS_ALL
  deriving DecidableEq, Repr

/-- Source enum `AxisPositions::footRole`. -/
inductive footRole where
  | FOOT_ROLE_ADVANCING
  | FOOT_ROLE_RETREATING
  deriving DecidableEq, Repr

/-- The retreating-foot move selection of
`AxisPositions::CalculateAxisMoves` (the if-chain choosing `FootPosDist`
and `scsInsertMode` for the retreating foot).  Returns (distance/position,
insert mode, whether the unreachable error branch was taken, which appends
"Logic error determining retreating foot move" to the logic trace). -/
def retreatingFootMove (jAdjType : joggleAdjustmentType) (isLastTurn : Bool)
    (tThisAdj jAdj : α) : α × insertMode × Bool :=
  if jAdjType = JA_RET_ADJ_ADV_NOM then
    (TURN_INDEX_NOMINAL α + tThisAdj + jAdj, insertMode.IM_ABS_UPDATE_SEL, false)
  else if jAdjType = JA_RET_FULL_ADV_NOP then
    (INITIAL_FULL_RETRACT_POS α, insertMode.IM_ABS_SEL, false)
  else if jAdjType = JA_RET_NOP_ADV_NOM then
    -- Region 3 legacy branch: NOP the retreating foot
    (0, insertMode.IM_ABS_UPDATE_SEL, false)
  else if !isLastTurn ∧ jAdjType = JA_RET_NOM_ADV_NOM then
    (TURN_INDEX_NOMINAL α + tThisAdj, insertMode.IM_ABS_UPDATE_SEL, false)
  else if isLastTurn then
    (INITIAL_FULL_RETRACT_POS α, insertMode.IM_ABS_SEL, false)
  else
    (0, insertMode.IM_ABS_UPDATE_SEL, true)

/-- The same retreating-foot move selection with the Region-3 branch
deleted.  Modelled from the spec: the spec asserts the per-angle move
synthesis never produces the Region-3 retreating-foot no-move branch, so
this is the spec-side reference the source selection is compared with. -/
def retreatingFootMoveNoR3 (jAdjType : joggleAdjustmentType)
    (isLastTurn : Bool) (tThisAdj jAdj : α) : α × insertMode × Bool :=
  if jAdjType = JA_RET_ADJ_ADV_NOM then
    (TURN_INDEX_NOMINAL α + tThisAdj + jAdj, insertMode.IM_ABS_UPDATE_SEL, false)
  else if jAdjType = JA_RET_FULL_ADV_NOP then
    (INITIAL_FULL_RETRACT_POS α, insertMode.IM_ABS_SEL, false)
  else if !isLastTurn ∧ jAdjType = JA_RET_NOM_ADV_NOM then
    (TURN_INDEX_NOMINAL α + tThisAdj, insertMode.IM_ABS_UPDATE_SEL, false)
  else if isLastTurn then
    (INITIAL_FULL_RETRACT_POS α, insertMode.IM_ABS_SEL, false)
  else
    (0, insertMode.IM_ABS_UPDATE_SEL, true)

/-- The transcendental kernels the source takes from `<cmath>`: `sin`,
`cos`, `atan` and `sqrt`.  The program instantiates them at the real
transcendental functions; keeping them as a parameter lets the same
embedding also be run at computable stand-ins. -/
structure TrigKernel (α : Type) where
  sin : α → α
  cos : α → α
  atan : α → α
  sqrt : α → α

/-- The real-number kernel: the functions the compiled program computes
with. -/
noncomputable def realKernel : TrigKernel ℝ :=
  { sin := Real.sin, cos := Real.cos, atan := Real.arctan, sqrt := Real.sqrt }

/-- Source `TRANS_Ro = TRANS_STRAIGHT_LENGTH / sin(TRANS_ARC_DEG *
DEG_TO_RADIANS)` (`gaScsDataConstants.hpp`). -/
def TRANS_Ro (k : TrigKernel α) : α :=
  TRANS_STRAIGHT_LENGTH α / k.sin (TRANS_ARC_DEG α * DEG_TO_RADIANS α)

/-- Source `AxisPositions::CalculateTransitionAdjustment(double)`.  The
function reads layer parity, the nominal radius and the window start angle
from the coil map, then computes the magnitude of the radius change from
circle/chord geometry; the formula depends on whether the elapsed angle
falls in the arc or the straight sub-region, and an elapsed angle in neither
sub-region (or a failed parity lookup) returns 0. -/
def CalculateTransitionAdjustment (k : TrigKernel α) (cm : CoilMap α)
    (angle : α) : α :=
  match isOddLayerLb cm angle with
  | some true =>
    -- odd layer: arc region first, radius shrinking from r2 to r1
    let transR2 := GetRadiusLb cm angle
    let transR1 := transR2 - TURN_INDEX_NOMINAL α
    let transRArc := transR2 - TRANS_Ro k
    let transAngleFromStart := angle - GetAngleLb cm angle
    let transAngleChange :=
      TRANS_ARC_DEG α - k.atan (TRANS_STRAIGHT_LENGTH α / transR1) * RADIANS_TO_DEG α
    if 0 ≤ transAngleFromStart ∧ transAngleFromStart ≤ transAngleChange then
      let transR := TRANS_Ro k * k.cos (transAngleFromStart * DEG_TO_RADIANS α) +
        k.sqrt (transRArc ^ 2 -
          TRANS_Ro k ^ 2 * k.sin (transAngleFromStart * DEG_TO_RADIANS α) ^ 2)
      transR2 - transR
    else if transAngleChange < transAngleFromStart ∧
        transAngleFromStart ≤ TRANS_ARC_DEG α then
      let transR := transR1 / k.cos ((TRANS_ARC_DEG α - transAngleFromStart) * DEG_TO_RADIANS α)
      transR2 - transR
    else
      0
  | some false =>
    -- even layer: straight region first, radius growing from r1 to r2
    let transR1 := GetRadiusLb cm angle
    let transR2 := transR1 + TURN_INDEX_NOMINAL α
    let transRArc := transR2 - TRANS_Ro k
    let transAngleFromStart := angle - GetAngleLb cm angle
    let transAngleChange := k.atan (TRANS_STRAIGHT_LENGTH α / transR1) * RADIANS_TO_DEG α
    if 0 ≤ transAngleFromStart ∧ transAngleFromStart ≤ transAngleChange then
      let transR := transR1 / k.cos (transAngleFromStart * DEG_TO_RADIANS α)
      transR - transR1
    else if transAngleChange < transAngleFromStart ∧
        transAngleFromStart ≤ TRANS_ARC_DEG α then
      let transR := TRANS_Ro k * k.cos ((transAngleFromStart - TRANS_ARC_DEG α) * DEG_TO_RADIANS α) +
        k.sqrt (transRArc ^ 2 -
          TRANS_Ro k ^ 2 * k.sin ((transAngleFromStart - TRANS_ARC_DEG α) * DEG_TO_RADIANS α) ^ 2)
      transR - transR1
    else
      0
  | none => 0

/-- The joggle classifier can only return the region-1, region-2 or nominal
outcome: the legacy region-3 outcome `JA_RET_NOP_ADV_NOM` is dead (the
current revision returns the nominal type there). -/
theorem classify_ne_nop (cm : CoilMap α) (angle : α) :
    (CalculateJoggleAdjustmentType cm angle).1 ≠ JA_RET_NOP_ADV_NOM := by
  simp only [CalculateJoggleAdjustmentType]
  split_ifs <;> simp

/-- On any input other than the legacy region-3 outcome, the retreating-foot
move selection agrees with the selection that has no Region-3 branch. -/
theorem retreatingFootMove_eq_noR3 (r : joggleAdjustmentType)
    (hr : r ≠ JA_RET_NOP_ADV_NOM) (isLastTurn : Bool) (tThisAdj jAdj : α) :
    retreatingFootMove r isLastTurn tThisAdj jAdj =
      retreatingFootMoveNoR3 r isLastTurn tThisAdj jAdj := by
  cases r <;>
    simp [retreatingFootMove, retreatingFootMoveNoR3] at hr ⊢

/-- C3: an angle that satisfies the Region-3 window test and is in neither
Region 1 nor Region 2 classifies as the Nominal outcome (nominal moves for
both feet), not the legacy `JA_RET_NOP_ADV_NOM`; and the per-angle
retreating-foot move synthesis, fed from the classifier, coincides with the
synthesis that has no Region-3 branch at all. -/
theorem C3_region3_is_nominal (cm : CoilMap ℝ) (angle : ℝ)
    (hreg3 : GetJoggleLb cm angle - angle ≤ JOGGLE_ADV_TO_FIRST_THRESHOLD ℝ ∧
      JOGGLE_ADV_TO_FIRST_THRESHOLD ℝ -
          GetJoggleLengthLb cm (GetJoggleLb cm angle) ≤
        GetJoggleLb cm angle - angle)
    (hnot1 : ¬ (GetJoggleUb cm angle - angle ≤ JOGGLE_RETRACT_ADJ_THRESHOLD ℝ ∧
      JOGGLE_RETRACT_ADJ_THRESHOLD ℝ -
          GetJoggleLengthLb cm (GetJoggleUb cm angle) ≤
        GetJoggleUb cm angle - angle))
    (hnot2 : ¬ (GetJoggleLb cm angle - angle ≤ JOGGLE_FULL_RETRACT_THRESHOLD ℝ ∧
      JOGGLE_FULL_RETRACT_THRESHOLD ℝ -
          GetJoggleLengthLb cm (GetJoggleLb cm angle) ≤
        GetJoggleLb cm angle - angle)) :
    (CalculateJoggleAdjustmentType cm angle).1 = JA_RET_NOM_ADV_NOM ∧
    (∀ (cm' : CoilMap ℝ) (a : ℝ),
      (CalculateJoggleAdjustmentType cm' a).1 ≠ JA_RET_NOP_ADV_NOM) ∧
    (∀ (cm' : CoilMap ℝ) (a : ℝ) (isLastTurn : Bool) (tThisAdj jAdj : ℝ),
      retreatingFootMove (CalculateJoggleAdjustmentType cm' a).1
          isLastTurn tThisAdj jAdj =
        retreatingFootMoveNoR3 (CalculateJoggleAdjustmentType cm' a).1
          isLastTurn tThisAdj jAdj) := by
  refine ⟨?_, fun cm' a => classify_ne_nop cm' a,
    fun cm' a isLastTurn tThisAdj jAdj =>
      retreatingFootMove_eq_noR3 _ (classify_ne_nop cm' a) _ _ _⟩
  simp only [CalculateJoggleAdjustmentType]
  split_ifs <;> simp_all

/-- The transition arc angle in (program) radians:
`TRANS_ARC_DEG * DEG_TO_RADIANS`, the argument the source feeds to `sin`
when computing `TRANS_Ro`. -/
noncomputable def transArcRad : ℝ := TRANS_ARC_DEG ℝ * DEG_TO_RADIANS ℝ

theorem transArcRad_gt : (4722 / 10000 : ℝ) < transArcRad := by
  unfold transArcRad TRANS_ARC_DEG DEG_TO_RADIANS PI_C
  norm_num

theorem transArcRad_lt : transArcRad < (4723 / 10000 : ℝ) := by
  unfold transArcRad TRANS_ARC_DEG DEG_TO_RADIANS PI_C
  norm_num

theorem transArcRad_pos : (0 : ℝ) < transArcRad :=
  lt_trans (by norm_num) transArcRad_gt

theorem transArcRad_lt_pi_div_two : transArcRad < Real.pi / 2 := by
  have h := Real.pi_gt_3141592
  have h2 := transArcRad_lt
  linarith

theorem sin_transArcRad_gt : (4458 / 10000 : ℝ) < Real.sin transArcRad := by
  have h1 := transArcRad_gt
  have hcube := Real.sin_gt_sub_cube transArcRad_pos
    (le_of_lt (lt_trans transArcRad_lt (by norm_num)))
  have h3 : transArcRad ^ 3 < (4723 / 10000 : ℝ) ^ 3 :=
    pow_lt_pow_left transArcRad_lt (le_of_lt transArcRad_pos) (by norm_num)
  nlinarith

theorem sin_transArcRad_lt : Real.sin transArcRad < (4723 / 10000 : ℝ) :=
  lt_trans (Real.sin_lt transArcRad_pos) transArcRad_lt

theorem sin_transArcRad_pos : (0 : ℝ) < Real.sin transArcRad :=
  lt_trans (by norm_num) sin_transArcRad_gt

theorem TRANS_Ro_real_eq :
    TRANS_Ro realKernel = (22025 / 100 : ℝ) / Real.sin transArcRad := rfl

/-- Bounds on the constant `TRANS_Ro = TRANS_STRAIGHT_LENGTH /
sin(TRANS_ARC_DEG * DEG_TO_RADIANS)` when computed with the real `sin`. -/
theorem TRANS_Ro_bounds :
    (466 : ℝ) < TRANS_Ro realKernel ∧ TRANS_Ro realKernel < (4941 / 10 : ℝ) := by
  have hgt := sin_transArcRad_gt
  have hlt := sin_transArcRad_lt
  have hpos := sin_transArcRad_pos
  rw [TRANS_Ro_real_eq]
  constructor
  · rw [lt_div_iff hpos]
    nlinarith
  · rw [div_lt_iff hpos]
    nlinarith

theorem arctan_lt_transArcRad (x : ℝ) (hx : x ≤ 4458 / 10000) :
    Real.arctan x < transArcRad := by
  have htan : (4458 / 10000 : ℝ) < Real.tan transArcRad := by
    have hcos0 : 0 < Real.cos transArcRad := by
      apply Real.cos_pos_of_mem_Ioo
      simp only [Set.mem_Ioo]
      constructor
      · have h1 := transArcRad_pos
        have h2 := Real.pi_pos
        linarith
      · exact transArcRad_lt_pi_div_two
    have hcos1 : Real.cos transArcRad ≤ 1 := Real.cos_le_one _
    have hs := sin_transArcRad_gt
    rw [Real.tan_eq_sin_div_cos]
    calc (4458 / 10000 : ℝ) < Real.sin transArcRad := hs
      _ ≤ Real.sin transArcRad / Real.cos transArcRad := by
          rw [le_div_iff hcos0]
          nlinarith [sin_transArcRad_pos]
  calc Real.arctan x ≤ Real.arctan (4458 / 10000) :=
        Real.arctan_strictMono.monotone hx
    _ < Real.arctan (Real.tan transArcRad) := Real.arctan_strictMono htan
    _ = transArcRad := by
        apply Real.arctan_tan
        · have h1 := transArcRad_pos
          have h2 := Real.pi_pos
          linarith
        · exact transArcRad_lt_pi_div_two

theorem arctan_pos_of_pos (x : ℝ) (hx : 0 < x) : 0 < Real.arctan x := by
  have h := Real.arctan_strictMono hx
  rwa [Real.arctan_zero] at h

theorem change_le_iff (y : ℝ) :
    y * RADIANS_TO_DEG ℝ ≤ TRANS_ARC_DEG ℝ ↔ y ≤ transArcRad := by
  unfold RADIANS_TO_DEG transArcRad TRANS_ARC_DEG DEG_TO_RADIANS PI_C
  constructor <;> intro h <;> nlinarith

theorem change_lt_iff (y : ℝ) :
    y * RADIANS_TO_DEG ℝ < TRANS_ARC_DEG ℝ ↔ y < transArcRad := by
  unfold RADIANS_TO_DEG transArcRad TRANS_ARC_DEG DEG_TO_RADIANS PI_C
  constructor <;> intro h <;> nlinarith

theorem change_nonneg_iff (y : ℝ) :
    (0 : ℝ) ≤ y * RADIANS_TO_DEG ℝ ↔ 0 ≤ y := by
  unfold RADIANS_TO_DEG PI_C
  constructor <;> intro h <;> nlinarith

/-- The arc-region radius formula at zero elapsed angle collapses to the
outer radius. -/
theorem arcFormula_at_zero (R Ro : ℝ) (h : Ro ≤ R) :
    Ro * Real.cos 0 + Real.sqrt ((R - Ro) ^ 2 - Ro ^ 2 * Real.sin 0 ^ 2) = R := by
  rw [Real.cos_zero, Real.sin_zero]
  have h0 : (0 : ℝ) ≤ R - Ro := by linarith
  calc Ro * 1 + Real.sqrt ((R - Ro) ^ 2 - Ro ^ 2 * 0 ^ 2)
      = Ro + Real.sqrt ((R - Ro) ^ 2) := by ring_nf
    _ = Ro + (R - Ro) := by rw [Real.sqrt_sq h0]
    _ = R := by ring

/-- C4: for an angle inside a transition window whose start-of-window
nominal radius is at least 600 mm, the transition adjustment computed with
the real transcendental kernel is exactly 0 at 0 degrees elapsed from the
window start, and at the window's full extent (`TRANS_ARC_DEG` = 27.06
degrees elapsed) it equals the full nominal turn index (53 mm) — in
particular within 1e-6 mm — for both odd-layer (arc-to-straight, shrinking
radius) and even-layer (straight-to-arc, growing radius) parities. -/
theorem C4_transition_adjustment_endpoints (cm : CoilMap ℝ) (θ r : ℝ)
    (b : Bool) (hpar : isOddLayerLb cm θ = some b)
    (hrad : GetRadiusLb cm θ = r) (hr : (600 : ℝ) ≤ r) :
    (θ - GetAngleLb cm θ = 0 →
      CalculateTransitionAdjustment realKernel cm θ = 0) ∧
    (θ - GetAngleLb cm θ = TRANS_ARC_DEG ℝ →
      CalculateTransitionAdjustment realKernel cm θ = TURN_INDEX_NOMINAL ℝ ∧
      |CalculateTransitionAdjustment realKernel cm θ - TURN_INDEX_NOMINAL ℝ| ≤
        1 / 1000000) := by
  have hRo := TRANS_Ro_bounds
  have hturn : TURN_INDEX_NOMINAL ℝ = (53 : ℝ) := rfl
  have hkc : realKernel.cos = Real.cos := rfl
  have hks : realKernel.sin = Real.sin := rfl
  have hka : realKernel.atan = Real.arctan := rfl
  have hkq : realKernel.sqrt = Real.sqrt := rfl
  cases b
  · -- even layer: straight region first, r1 = r
    have hL : (0 : ℝ) < TRANS_STRAIGHT_LENGTH ℝ / r := by
      unfold TRANS_STRAIGHT_LENGTH
      positivity
    have hLle : TRANS_STRAIGHT_LENGTH ℝ / r ≤ 4458 / 10000 := by
      unfold TRANS_STRAIGHT_LENGTH
      rw [div_le_iff (by linarith)]
      nlinarith
    have hat_lt : Real.arctan (TRANS_STRAIGHT_LENGTH ℝ / r) < transArcRad :=
      arctan_lt_transArcRad _ hLle
    have hat_pos : 0 < Real.arctan (TRANS_STRAIGHT_LENGTH ℝ / r) :=
      arctan_pos_of_pos _ hL
    have hchange_lt : Real.arctan (TRANS_STRAIGHT_LENGTH ℝ / r) *
        RADIANS_TO_DEG ℝ < TRANS_ARC_DEG ℝ := (change_lt_iff _).mpr hat_lt
    have hchange_nonneg : (0 : ℝ) ≤ Real.arctan (TRANS_STRAIGHT_LENGTH ℝ / r) *
        RADIANS_TO_DEG ℝ := (change_nonneg_iff _).mpr (le_of_lt hat_pos)
    constructor
    · intro he
      simp only [CalculateTransitionAdjustment, hpar, hrad, he, hkc, hks, hka, hkq]
      rw [if_pos ⟨le_refl 0, hchange_nonneg⟩, zero_mul, Real.cos_zero, div_one,
        sub_self]
    · intro he
      simp only [CalculateTransitionAdjustment, hpar, hrad, he, hkc, hks, hka, hkq]
      rw [if_neg (fun hcon => absurd hcon.2 (not_le.mpr hchange_lt)),
        if_pos ⟨hchange_lt, le_refl _⟩, sub_self, zero_mul]
      rw [arcFormula_at_zero (r + TURN_INDEX_NOMINAL ℝ) (TRANS_Ro realKernel)
        (by rw [hturn]; linarith [hRo.2])]
      constructor
      · ring
      · rw [show r + TURN_INDEX_NOMINAL ℝ - r - TURN_INDEX_NOMINAL ℝ = 0 by ring]
        norm_num
  · -- odd layer: arc region first, r2 = r
    have hr1 : (547 : ℝ) ≤ r - TURN_INDEX_NOMINAL ℝ := by
      rw [hturn]; linarith
    have hr1pos : (0 : ℝ) < r - TURN_INDEX_NOMINAL ℝ := by linarith
    have hL : (0 : ℝ) < TRANS_STRAIGHT_LENGTH ℝ / (r - TURN_INDEX_NOMINAL ℝ) := by
      unfold TRANS_STRAIGHT_LENGTH
      positivity
    have hLle : TRANS_STRAIGHT_LENGTH ℝ / (r - TURN_INDEX_NOMINAL ℝ) ≤
        4458 / 10000 := by
      unfold TRANS_STRAIGHT_LENGTH
      rw [div_le_iff hr1pos]
      nlinarith
    have hat_lt : Real.arctan
        (TRANS_STRAIGHT_LENGTH ℝ / (r - TURN_INDEX_NOMINAL ℝ)) < transArcRad :=
      arctan_lt_transArcRad _ hLle
    have hat_pos : 0 < Real.arctan
        (TRANS_STRAIGHT_LENGTH ℝ / (r - TURN_INDEX_NOMINAL ℝ)) :=
      arctan_pos_of_pos _ hL
    have hchange_le : Real.arctan
        (TRANS_STRAIGHT_LENGTH ℝ / (r - TURN_INDEX_NOMINAL ℝ)) *
        RADIANS_TO_DEG ℝ ≤ TRANS_ARC_DEG ℝ := (change_le_iff _).mpr (le_of_lt hat_lt)
    have hchange_pos : (0 : ℝ) < Real.arctan
        (TRANS_STRAIGHT_LENGTH ℝ / (r - TURN_INDEX_NOMINAL ℝ)) *
        RADIANS_TO_DEG ℝ := by
      rcases lt_or_le 0 (Real.arctan
        (TRANS_STRAIGHT_LENGTH ℝ / (r - TURN_INDEX_NOMINAL ℝ)) *
        RADIANS_TO_DEG ℝ) with h | h
      · exact h
      · exfalso
        have := (change_nonneg_iff (Real.arctan
          (TRANS_STRAIGHT_LENGTH ℝ / (r - TURN_INDEX_NOMINAL ℝ)))).mpr
          (le_of_lt hat_pos)
        have h2 : Real.arctan
            (TRANS_STRAIGHT_LENGTH ℝ / (r - TURN_INDEX_NOMINAL ℝ)) *
            RADIANS_TO_DEG ℝ = 0 := le_antisymm h this
        have h3 : (0 : ℝ) < RADIANS_TO_DEG ℝ := by
          unfold RADIANS_TO_DEG PI_C; norm_num
        have := mul_pos hat_pos h3
        linarith
    constructor
    · intro he
      simp only [CalculateTransitionAdjustment, hpar, hrad, he, hkc, hks, hka, hkq]
      rw [if_pos ⟨le_refl 0, by linarith⟩, zero_mul]
      rw [arcFormula_at_zero r (TRANS_Ro realKernel) (by linarith [hRo.2]),
        sub_self]
    · intro he
      simp only [CalculateTransitionAdjustment, hpar, hrad, he, hkc, hks, hka, hkq]
      rw [if_neg (fun hcon => absurd hcon.2 (by linarith)),
        if_pos ⟨by linarith, le_refl _⟩, sub_self, zero_mul, Real.cos_zero,
        div_one]
      constructor
      · ring
      · rw [show r - (r - TURN_INDEX_NOMINAL ℝ) - TURN_INDEX_NOMINAL ℝ = 0 by ring]
        norm_num


/-- A transition row starting an even-layer window at angle 10 with nominal
radius 1000 mm. -/
def evenTransRow : CmRow ℝ :=
  { fc := Fc.T, hqp := 1, layer := 2, turn := 2, azimuth := 10, radius := 1000 }

/-- A coil map holding the even-layer transition row. -/
def evenTransMap : CoilMap ℝ :=
  { rows := [((10 : ℝ), evenTransRow)], joggles := [] }

/-- A transition row starting an odd-layer window at angle 10 with nominal
radius 1000 mm. -/
def oddTransRow : CmRow ℝ :=
  { fc := Fc.T, hqp := 1, layer := 1, turn := 2, azimuth := 10, radius := 1000 }

/-- A coil map holding the odd-layer transition row. -/
def oddTransMap : CoilMap ℝ :=
  { rows := [((10 : ℝ), oddTransRow)], joggles := [] }

/-- Witness for C4 at the two concrete single-transition maps. -/
theorem C4_transition_adjustment_endpoints_witness :
    CalculateTransitionAdjustment realKernel evenTransMap 10 = 0 ∧
    CalculateTransitionAdjustment realKernel evenTransMap
        (10 + TRANS_ARC_DEG ℝ) = TURN_INDEX_NOMINAL ℝ ∧
    CalculateTransitionAdjustment realKernel oddTransMap 10 = 0 ∧
    CalculateTransitionAdjustment realKernel oddTransMap
        (10 + TRANS_ARC_DEG ℝ) = TURN_INDEX_NOMINAL ℝ := by
  have heT : TRANS_ARC_DEG ℝ = (2706 / 100 : ℝ) := rfl
  have hcite0 : lbCit evenTransMap 10 = some ((10 : ℝ), evenTransRow) := by
    norm_num [lbCit, ubIdx, evenTransMap]
  have hcite1 : lbCit evenTransMap (10 + TRANS_ARC_DEG ℝ) =
      some ((10 : ℝ), evenTransRow) := by
    norm_num [lbCit, ubIdx, evenTransMap, heT]
  have hcito0 : lbCit oddTransMap 10 = some ((10 : ℝ), oddTransRow) := by
    norm_num [lbCit, ubIdx, oddTransMap]
  have hcito1 : lbCit oddTransMap (10 + TRANS_ARC_DEG ℝ) =
      some ((10 : ℝ), oddTransRow) := by
    norm_num [lbCit, ubIdx, oddTransMap, heT]
  refine ⟨?_, ?_, ?_, ?_⟩
  · exact (C4_transition_adjustment_endpoints evenTransMap 10 1000 false
      (by simp [isOddLayerLb, hcite0, evenTransRow])
      (by simp [GetRadiusLb, hcite0, evenTransRow]) (by norm_num)).1
      (by simp [GetAngleLb, hcite0])
  · exact ((C4_transition_adjustment_endpoints evenTransMap
      (10 + TRANS_ARC_DEG ℝ) 1000 false
      (by simp [isOddLayerLb, hcite1, evenTransRow])
      (by simp [GetRadiusLb, hcite1, evenTransRow]) (by norm_num)).2
      (by simp [GetAngleLb, hcite1])).1
  · exact (C4_transition_adjustment_endpoints oddTransMap 10 1000 true
      (by simp [isOddLayerLb, hcito0, oddTransRow])
      (by simp [GetRadiusLb, hcito0, oddTransRow]) (by norm_num)).1
      (by simp [GetAngleLb, hcito0])
  · exact ((C4_transition_adjustment_endpoints oddTransMap
      (10 + TRANS_ARC_DEG ℝ) 1000 true
      (by simp [isOddLayerLb, hcito1, oddTransRow])
      (by simp [GetRadiusLb, hcito1, oddTransRow]) (by norm_num)).2
      (by simp [GetAngleLb, hcito1])).1

/-- The single row of the synthetic joggle coil map: a joggle feature at
angle 1000 on turn 1 (so its window length is `JOGGLE_LENGTH_MIN` =
16.18 degrees). -/
def jogRow : CmRow ℝ :=
  { fc := Fc.J, hqp := 1, layer := 1, turn := 1, azimuth := 280, radius := 900 }

/-- The synthetic coil map with one joggle at angle 1000 (turn 1). -/
def jogMap : CoilMap ℝ :=
  { rows := [((1000 : ℝ), jogRow)], joggles := [1000] }

/-- On the single-row map `jogMap`, every at-or-before turn lookup lands on
the turn-1 row, so the applicable joggle window length is always the
minimum, 16.18 degrees. -/
theorem jogMap_len_any (x : ℝ) :
    GetJoggleLengthLb jogMap x = JOGGLE_LENGTH_MIN ℝ := by
  have hcit : lbCit jogMap x = some ((1000 : ℝ), jogRow) := by
    unfold lbCit jogMap ubIdx
    by_cases h : (1000 : ℝ) ≤ x <;> simp [h, ubIdx]
  simp [GetJoggleLengthLb, GetTurnLb, hcit, jogRow]

/-- C2: against the synthetic joggle at angle 1000 with window length
16.18 degrees, angle 640 (exactly 360 degrees before the joggle) classifies
as `JA_RET_ADJ_ADV_NOM` with adjustment half a nominal turn index; angle 1002
(2 degrees past the joggle) classifies as `JA_RET_FULL_ADV_NOP`; and angle
2500 (1500 degrees past the joggle, no joggle ahead) classifies as
`JA_RET_NOM_ADV_NOM`. -/
theorem C2_joggle_classification :
    (CalculateJoggleAdjustmentType jogMap 640).1 = JA_RET_ADJ_ADV_NOM ∧
    (CalculateJoggleAdjustmentType jogMap 640).2.2.2 = TURN_INDEX_NOMINAL ℝ / 2 ∧
    (CalculateJoggleAdjustmentType jogMap 1002).1 = JA_RET_FULL_ADV_NOP ∧
    (CalculateJoggleAdjustmentType jogMap 2500).1 = JA_RET_NOM_ADV_NOM := by
  have hub640 : GetJoggleUb jogMap 640 = 1000 := by
    unfold GetJoggleUb jogMap
    norm_num [List.dropWhile]
  have hub1002 : GetJoggleUb jogMap 1002 = RTN_NO_RESULTS_D ℝ := by
    unfold GetJoggleUb jogMap
    norm_num [List.dropWhile]
  have hub2500 : GetJoggleUb jogMap 2500 = RTN_NO_RESULTS_D ℝ := by
    unfold GetJoggleUb jogMap
    norm_num [List.dropWhile]
  have hlb640 : GetJoggleLb jogMap 640 = RTN_NO_RESULTS_D ℝ := by
    unfold GetJoggleLb jogMap ubIdxA
    norm_num [ubIdxA]
  have hlb1002 : GetJoggleLb jogMap 1002 = 1000 := by
    unfold GetJoggleLb jogMap ubIdxA
    norm_num [ubIdxA]
  have hlb2500 : GetJoggleLb jogMap 2500 = 1000 := by
    unfold GetJoggleLb jogMap ubIdxA
    norm_num [ubIdxA]
  refine ⟨?_, ?_, ?_, ?_⟩ <;>
  · simp only [CalculateJoggleAdjustmentType, hub640, hub1002, hub2500,
      hlb640, hlb1002, hlb2500, jogMap_len_any]
    norm_num [JOGGLE_RETRACT_ADJ_THRESHOLD, JOGGLE_FULL_RETRACT_THRESHOLD,
      JOGGLE_ADV_TO_FIRST_THRESHOLD, JOGGLE_LENGTH_MIN, RTN_NO_RESULTS_D]

/-- Witness for C3 at the synthetic joggle map: angle 1370 is 370 degrees
past the joggle at 1000 (inside Region 3 for the 16.18-degree window) and in
neither Region 1 nor Region 2, and classifies as the nominal outcome. -/
theorem C3_region3_is_nominal_witness :
    (CalculateJoggleAdjustmentType jogMap 1370).1 = JA_RET_NOM_ADV_NOM ∧
    (∀ (cm' : CoilMap ℝ) (a : ℝ),
      (CalculateJoggleAdjustmentType cm' a).1 ≠ JA_RET_NOP_ADV_NOM) ∧
    (∀ (cm' : CoilMap ℝ) (a : ℝ) (isLastTurn : Bool) (tThisAdj jAdj : ℝ),
      retreatingFootMove (CalculateJoggleAdjustmentType cm' a).1
          isLastTurn tThisAdj jAdj =
        retreatingFootMoveNoR3 (CalculateJoggleAdjustmentType cm' a).1
          isLastTurn tThisAdj jAdj) := by
  have hub : GetJoggleUb jogMap 1370 = RTN_NO_RESULTS_D ℝ := by
    unfold GetJoggleUb jogMap
    norm_num [List.dropWhile]
  have hlb : GetJoggleLb jogMap 1370 = 1000 := by
    unfold GetJoggleLb jogMap ubIdxA
    norm_num [ubIdxA]
  exact C3_region3_is_nominal jogMap 1370
    (by rw [hlb, jogMap_len_any]
        norm_num [JOGGLE_ADV_TO_FIRST_THRESHOLD, JOGGLE_LENGTH_MIN])
    (by rw [hub, jogMap_len_any]
        norm_num [JOGGLE_RETRACT_ADJ_THRESHOLD, JOGGLE_LENGTH_MIN,
          RTN_NO_RESULTS_D])
    (by rw [hlb, jogMap_len_any]
        norm_num [JOGGLE_FULL_RETRACT_THRESHOLD, JOGGLE_LENGTH_MIN])

end AxisPositions

/-- Logic-trace tokens: one constructor per append site of the source's
`logicTrace` / trace strings, carrying the numeric data the source formats
into the string (`std::to_string` casts are kept as the unformatted
values). -/
inductive TraceTok (α : Type) where
  | columnAng (a : ℤ)
  | errNewLayerHqp (a : ℤ)
  | joggleIn (deg adj : α)
  | pastJoggleFull (deg : α)
  | pastJoggleNop (deg : α)
  | pastTrans (deg adj : α)
  | nowOffTrans (adj : α)
  | noTransAdj
  | errInTransLookup (a : ℤ)
  | errLayerLookup (a : ℤ)
  | oddLayerTok (l : ℤ)
  | evenLayerTok (l : ℤ)
  | lastTurnTok
  | notLastTurnTok
  | lastLayerTok
  | notLastLayerTok
  | advLogicError
  | retLogicError
  | msAdvAbs (turn index : ℤ) (dist : α)
  | msAdvRel (turn index : ℤ) (dist : α)
  | msRetAbs (turn index : ℤ) (dist : α)
  | msRetRel (turn index : ℤ) (dist : α)
  | postLoadTrace (a : α)
  | postLoadWindowTrace (a : α)
  | postLoadErrTrace (a : α)
  | socTrace
  | releaseLead (deg adj : α)
  | leadReleased (deg adj : α)
  | newEvenLayerTrace (a : α)
  | newEvenLayerWindowTrace (a : α)
  | newOddLayerTrace (a : α)
  | newOddLayerWindowTrace (a : α)
  | colOutOfRange (c : ℤ)
  | roleError
  deriving DecidableEq

/-- Source `SelectedDetail` tuple: (distance, selected axis index, adjust
absolute flag).  The axis index enumeration is stored as its integer
value. -/
structure SelectedDetail (α : Type) where
  dist : α
  index : ℤ
  absAdj : Bool
  deriving DecidableEq

/-- Source `PosAttributes` tuple: logic trace, isAbsolute, isInTransition,
isInJoggle, isNewHqp, isNewLayer, isLastTurn, isLastLayer flags and the coil
angle. -/
structure PosAttributes (α : Type) where
  trace : List (TraceTok α)
  isAbsolute : Bool
  isInTransition : Bool
  isInJoggle : Bool
  isNewHqp : Bool
  isNewLayer : Bool
  isLastTurn : Bool
  isLastLayer : Bool
  coilAngle : α
  deriving DecidableEq

/-- Source `SPosDetail` tuple: foot position vector (12 doubles), column
position vector (12 doubles), selected-axes vector (25 bools: flag at 0 and
one bit per axis 1..24), selected detail, attributes and the hqp/layer
adjustments.  The fixed-size vectors are embedded as functions from the
index. -/
structure SPosDetail (α : Type) where
  footPos : ℕ → α
  colPos : ℕ → α
  selAxes : ℕ → Bool
  selDetail : SelectedDetail α
  attrs : PosAttributes α
  hqpAdj : ℤ
  layerAdj : ℤ

namespace AxisPositions

open CoilMap

variable {α : Type} [LinearOrderedField α] [FloorRing α]

/-- A default-constructed `PosAttributes` (empty trace, all flags false,
angle 0), as produced by the C++ default constructors. -/
def initAttrs : PosAttributes α :=
  { trace := [], isAbsolute := false, isInTransition := false,
    isInJoggle := false, isNewHqp := false, isNewLayer := false,
    isLastTurn := false, isLastLayer := false, coilAngle := 0 }

/-- The position detail as initialised in the `AxisPositions` constructor
(and in the seeding helpers for their local details): both position vectors
filled with `INITIAL_NO_POSITION`, the 25 selection entries false, and the
remaining tuple members default-constructed. -/
def initPosDetail : SPosDetail α :=
  { footPos := fun _ => INITIAL_NO_POSITION α,
    colPos := fun _ => INITIAL_NO_POSITION α,
    selAxes := fun _ => false,
    selDetail := { dist := 0, index := 0, absAdj := false },
    attrs := initAttrs,
    hqpAdj := 0, layerAdj := 0 }

/-- C++ truncation toward zero (`static_cast<long>` on a double). -/
def truncInt (x : α) : ℤ := if 0 ≤ x then ⌊x⌋ else ⌈x⌉

/-- C `fmod(x, 360.0)`: remainder with the sign of `x`. -/
def fmod360 (x : α) : α := x - 360 * ((truncInt (x / 360) : ℤ) : α)

/-- Azimuth computation of `AxisPositions::PopScsPosDetail`:
`static_cast<long>(fmod(coilAngle, 360.0))`, then add 360 if negative. -/
def aziOfCoilAngle (x : α) : ℤ :=
  let azi := truncInt (fmod360 x)
  if azi < 0 then azi + 360 else azi

/-- Column resolution from an integer azimuth (shared shape of
`PopScsPosDetail`, `SetTransAdjust` and `isTransAdjustSet`): 0..5 for the
six column azimuths, -1 otherwise. -/
def columnOfAzi (azi : ℤ) : ℤ :=
  if azi = A_COLUMN_AZIMUTH then 0
  else if azi = B_COLUMN_AZIMUTH then 1
  else if azi = C_COLUMN_AZIMUTH then 2
  else if azi = D_COLUMN_AZIMUTH then 3
  else if azi = E_COLUMN_AZIMUTH then 4
  else if azi = F_COLUMN_AZIMUTH then 5
  else -1

/-- Source `AxisPositions::SetTransAdjust(double)`: compute the column from
the truncated `fmod` (no negative fixup here) and mark it; returns the
updated mark array and the success flag. -/
def SetTransAdjust (marks : ℕ → Bool) (angle : α) : (ℕ → Bool) × Bool :=
  let column := columnOfAzi (truncInt (fmod360 angle))
  if 0 ≤ column ∧ column ≤ 5 then
    (fun j => if (j : ℤ) = column then true else marks j, true)
  else
    (marks, false)

/-- Source `AxisPositions::ClearAllTransAdjust()`. -/
def ClearAllTransAdjust : ℕ → Bool := fun _ => false

/-- Source `AxisPositions::isTransAdjustSet(double)`. -/
def isTransAdjustSet (marks : ℕ → Bool) (angle : α) : Bool :=
  let column := columnOfAzi (truncInt (fmod360 angle))
  if 0 ≤ column ∧ column ≤ 5 then
    marks (column.toNat)
  else
    false

/-- Source `AxisPositions::SetSelectedScsAxis(AxisIndexes, double,
SPosDetail&, insertMode)`: store the distance, axis index and
absolute-adjust flag in the selected detail, then iterate `axi` from 1 to
`vAxisIndexes_.size() - 2 = 23` setting the selection bit of the matching
axis and clearing the others (`vAxisIndexes_[axi] = axi`). -/
def SetSelectedScsAxis (index : ℤ) (distPos : α) (pd : SPosDetail α)
    (mode : insertMode) : SPosDetail α :=
  { pd with
    selDetail :=
      { dist := distPos, index := index,
        absAdj := mode = insertMode.IM_ABS_UPDATE_SEL },
    selAxes := fun j =>
      if 1 ≤ j ∧ j ≤ 23 then decide ((j : ℤ) = index) else pd.selAxes j }

/-- Source `AxisPositions::SetSelectedScsAxis(long, ...)`: range check
1..24, otherwise do nothing. -/
def SetSelectedScsAxisL (index : ℤ) (distPos : α) (pd : SPosDetail α)
    (mode : insertMode) : SPosDetail α :=
  if 1 ≤ index ∧ index ≤ COLUMN_COUNT * 2 then
    SetSelectedScsAxis index distPos pd mode
  else pd

/-- Source `AxisPositions::UnselectAllScsAxes`: zero the selected-detail
distance, reset its index to `AXIDX_UNKNOWN`, and clear selection bits 1..23
(the loop again runs `axi` from 1 to `size - 2 = 23`; the absolute-adjust
flag and entry 0 are not touched). -/
def UnselectAllScsAxes (pd : SPosDetail α) : SPosDetail α :=
  { pd with
    selDetail := { dist := 0, index := 0, absAdj := pd.selDetail.absAdj },
    selAxes := fun j => if 1 ≤ j ∧ j ≤ 23 then false else pd.selAxes j }

/-- The error record produced on the bad-column / role-error paths of the
selected-mode branch of `PopScsPosDetail`: all flags forced false, zero
adjustments, the error message appended to the trace. -/
def popSelErrorDetail (coilAngle : α) (trace : List (TraceTok α))
    (tok : TraceTok α) (pd : SPosDetail α) : SPosDetail α :=
  let pd1 := UnselectAllScsAxes pd
  { pd1 with
    attrs :=
      { trace := trace ++ [tok], isAbsolute := false, isInTransition := false,
        isInJoggle := false, isNewHqp := false, isNewLayer := false,
        isLastTurn := false, isLastLayer := false, coilAngle := coilAngle },
    hqpAdj := 0, layerAdj := 0 }

/-- Source `AxisPositions::PopScsPosDetail`.  Populates the position detail
and returns the status (`RTN_NO_ERROR` or `RTN_ERROR`) together with the
(possibly modified) detail. -/
def PopScsPosDetail (coilAngle : α) (isEven : Bool) (role : footRole)
    (mode : insertMode) (fDistPos1 fDistPos2 : α)
    (trace : List (TraceTok α))
    (isInTransition isInJoggle isNewHqp isNewLayer : Bool)
    (isLastTurn isLastLayer : Bool) (hqpAdj layerAdj : ℤ)
    (pd : SPosDetail α) : ℤ × SPosDetail α :=
  let column := columnOfAzi (aziOfCoilAngle coilAngle)
  if column = -1 then (RTN_ERROR, pd)
  else if mode = insertMode.IM_ABS_ALL ∨ mode = insertMode.IM_REL_ALL then
    -- insert-all modes: write all twelve foot positions, sentinel columns
    let bump : ℤ → α := fun c =>
      if mode = insertMode.IM_ABS_ALL ∧ c = column then TURN_INDEX_NOMINAL α
      else 0
    let inner : ℤ → α := fun c =>
      if !isEven then
        if !isInJoggle then fDistPos1
        else fDistPos1 + bump c
      else
        if !isInJoggle then fDistPos1
        else if !isLastLayer then fDistPos1 - bump c
        else fDistPos1
    let outer : ℤ → α := fun c =>
      if !isEven then
        if !isInJoggle then fDistPos2
        else if !isLastLayer then fDistPos2 - bump c
        else fDistPos2
      else
        if !isInJoggle then fDistPos2
        else fDistPos2 + bump c
    (RTN_NO_ERROR,
      { pd with
        footPos := fun i =>
          if i < 12 then (if i % 2 = 0 then inner (i / 2) else outer (i / 2))
          else pd.footPos i,
        colPos := fun i =>
          if i < 12 then POSITION_NOT_CALCULATED α else pd.colPos i,
        selAxes := fun j => if j = 0 then false else pd.selAxes j,
        selDetail := { dist := 0, index := 0, absAdj := false },
        attrs :=
          { trace := trace, isAbsolute := mode = insertMode.IM_ABS_ALL,
            isInTransition := isInTransition, isInJoggle := isInJoggle,
            isNewHqp := isNewHqp, isNewLayer := isNewLayer,
            isLastTurn := isLastTurn, isLastLayer := isLastLayer,
            coilAngle := coilAngle },
        hqpAdj := hqpAdj, layerAdj := layerAdj })
  else if mode = insertMode.IM_REL_SEL ∨ mode = insertMode.IM_ABS_SEL ∨
      mode = insertMode.IM_ABS_UPDATE_SEL then
    -- selected modes: set one column axis (inner or outer)
    let finish : SPosDetail α → ℤ × SPosDetail α := fun pd1 =>
      (RTN_NO_ERROR,
        { pd1 with
          selAxes := fun j => if j = 0 then true else pd1.selAxes j,
          attrs :=
            { trace := trace,
              isAbsolute := mode = insertMode.IM_ABS_SEL ∨
                mode = insertMode.IM_ABS_UPDATE_SEL,
              isInTransition := isInTransition, isInJoggle := isInJoggle,
              isNewHqp := isNewHqp, isNewLayer := isNewLayer,
              isLastTurn := isLastTurn, isLastLayer := isLastLayer,
              coilAngle := coilAngle },
          hqpAdj := hqpAdj, layerAdj := layerAdj })
    if (isEven ∧ role = footRole.FOOT_ROLE_ADVANCING) ∨
        (!isEven ∧ role = footRole.FOOT_ROLE_RETREATING) then
      if 0 ≤ column ∧ column ≤ 5 then
        finish (SetSelectedScsAxisL (column * 2 + 1) fDistPos1 pd mode)
      else
        (RTN_ERROR,
          popSelErrorDetail coilAngle trace (TraceTok.colOutOfRange column) pd)
    else if (isEven ∧ role = footRole.FOOT_ROLE_RETREATING) ∨
        (!isEven ∧ role = footRole.FOOT_ROLE_ADVANCING) then
      if 0 ≤ column ∧ column ≤ 5 then
        finish (SetSelectedScsAxisL (column * 2 + 2) fDistPos1 pd mode)
      else
        (RTN_ERROR,
          popSelErrorDetail coilAngle trace (TraceTok.colOutOfRange column) pd)
    else
      (RTN_ERROR, popSelErrorDetail coilAngle trace TraceTok.roleError pd)
  else
    (RTN_ERROR, pd)


/-- C9: `SetSelectedScsAxis` (for any axis index, distance, detail and
mode) and `UnselectAllScsAxes` leave element 24 of the 25-element selection
vector (the F Column Outer bit) unchanged, because their loops run only over
elements 1..23; in particular a call selecting axis index 24 stores the
distance and the axis index in the selected-detail tuple but never sets
selection bit 24. -/
theorem C9_selection_bit24_untouched :
    (∀ (index : ℤ) (distPos : ℝ) (pd : SPosDetail ℝ) (mode : insertMode),
      (SetSelectedScsAxis index distPos pd mode).selAxes 24 = pd.selAxes 24) ∧
    (∀ (index : ℤ) (distPos : ℝ) (pd : SPosDetail ℝ) (mode : insertMode),
      (SetSelectedScsAxisL index distPos pd mode).selAxes 24 = pd.selAxes 24) ∧
    (∀ pd : SPosDetail ℝ,
      (UnselectAllScsAxes pd).selAxes 24 = pd.selAxes 24) ∧
    (∀ (distPos : ℝ) (pd : SPosDetail ℝ) (mode : insertMode),
      (SetSelectedScsAxisL 24 distPos pd mode).selDetail.dist = distPos ∧
      (SetSelectedScsAxisL 24 distPos pd mode).selDetail.index = 24 ∧
      (SetSelectedScsAxisL 24 distPos pd mode).selAxes 24 = pd.selAxes 24) := by
  refine ⟨?_, ?_, ?_, ?_⟩
  · intro index distPos pd mode
    simp [SetSelectedScsAxis]
  · intro index distPos pd mode
    unfold SetSelectedScsAxisL
    split_ifs
    · simp [SetSelectedScsAxis]
    · rfl
  · intro pd
    simp [UnselectAllScsAxes]
  · intro distPos pd mode
    unfold SetSelectedScsAxisL
    rw [if_pos (by unfold COLUMN_COUNT; omega)]
    refine ⟨rfl, rfl, by simp [SetSelectedScsAxis]⟩

/-- The set of valid column azimuths: the record-population step accepts
exactly the six azimuths 30, 90, 150, 210, 270, 330. -/
def validAzi (azi : ℤ) : Prop :=
  azi = 30 ∨ azi = 90 ∨ azi = 150 ∨ azi = 210 ∨ azi = 270 ∨ azi = 330

instance (azi : ℤ) : Decidable (validAzi azi) := by
  unfold validAzi
  infer_instance

theorem columnOfAzi_eq_neg_one_iff (azi : ℤ) :
    columnOfAzi azi = -1 ↔ ¬ validAzi azi := by
  unfold columnOfAzi validAzi A_COLUMN_AZIMUTH B_COLUMN_AZIMUTH
    C_COLUMN_AZIMUTH D_COLUMN_AZIMUTH E_COLUMN_AZIMUTH F_COLUMN_AZIMUTH
  split_ifs <;> simp_all

theorem columnOfAzi_range (azi : ℤ) (h : columnOfAzi azi ≠ -1) :
    0 ≤ columnOfAzi azi ∧ columnOfAzi azi ≤ 5 := by
  unfold columnOfAzi at *
  split_ifs <;> simp_all

/-- C7 (population step): `PopScsPosDetail` returns an error exactly when
the coil angle's azimuth (truncated `fmod` by 360, normalised positive) is
not one of the six column azimuths; every interior error branch of the
selected modes (bad column after the sign fixup, unmatched role) is
unreachable. -/
theorem pop_error_iff_bad_azimuth (coilAngle : ℝ) (isEven : Bool)
    (role : footRole) (mode : insertMode) (fDistPos1 fDistPos2 : ℝ)
    (trace : List (TraceTok ℝ))
    (isInTransition isInJoggle isNewHqp isNewLayer : Bool)
    (isLastTurn isLastLayer : Bool) (hqpAdj layerAdj : ℤ)
    (pd : SPosDetail ℝ) :
    (PopScsPosDetail coilAngle isEven role mode fDistPos1 fDistPos2 trace
        isInTransition isInJoggle isNewHqp isNewLayer isLastTurn isLastLayer
        hqpAdj layerAdj pd).1 = RTN_ERROR ↔
      ¬ validAzi (aziOfCoilAngle coilAngle) := by
  rw [← columnOfAzi_eq_neg_one_iff]
  unfold PopScsPosDetail
  by_cases hcol : columnOfAzi (aziOfCoilAngle coilAngle) = -1
  · simp only [hcol, if_pos rfl]
    simp [RTN_ERROR]
  · have hrange := columnOfAzi_range _ hcol
    rw [if_neg hcol]
    constructor
    · intro herr
      exfalso
      rcases mode with _ | _ | _ | _ | _ <;>
        simp only [] at herr <;>
        rcases role with _ | _ <;>
        rcases isEven with _ | _ <;>
        simp_all [RTN_ERROR, RTN_NO_ERROR]
    · intro hcon
      exact absurd hcon hcol



/-- Function-local and member state of `AxisPositions::CalculateAxisMoves`
threaded through the per-angle loop: the previous hex/quad and layer
numbers, the `inTransition` flag (only reassigned on non-joggle angles), the
accumulated transition adjustment, the member per-column adjustment marks
(`arrAdjMark_`) and the reused member position-detail scratch
(`scsPosDetail_`). -/
structure PassVars (α : Type) where
  hqpNumberPrev : ℤ
  layerNumberPrev : ℤ
  inTransition : Bool
  tAccumAdj : α
  arrAdjMark : ℕ → Bool
  scsPosDetail : SPosDetail α

/-- The state of the builder object relevant to position generation: the
loop state plus the member map `scsAxisPositionMap_`.  The Boost map is
embedded as the insertion transcript; `mapLookup` (last-value-wins) gives
the map it denotes, reflecting that a later insert at an already-used angle
silently overwrites. -/
structure PassState (α : Type) where
  vars : PassVars α
  scsAxisPositionMap : List (ℤ × SPosDetail α)

/-- The member map denoted by the insertion transcript: a later insert at
the same key overwrites an earlier one. -/
def mapLookup (m : List (ℤ × SPosDetail α)) (key : ℤ) :
    Option (SPosDetail α) :=
  (m.reverse.find? (fun p => p.1 = key)).map (fun p => p.2)

/-- The builder object as constructed (`AxisPositions::AxisPositions`):
clear marks, initialised scratch detail, empty position map; the loop
locals are given their declaration initialisers. -/
def initPassState : PassState α :=
  { vars :=
    { hqpNumberPrev := 0, layerNumberPrev := 0, inTransition := false,
      tAccumAdj := 0, arrAdjMark := fun _ => false,
      scsPosDetail := initPosDetail },
    scsAxisPositionMap := [] }

/-- Source `AxisPositions::CalculateNewLayerRiaAngle`: the RIA angle of a
new-layer row and whether the new layer is even, looked up at the joggle
angle.  (The source leaves `isEven` uninitialised when the lookup fails;
the embedding defaults that unreachable case to `false`.) -/
def CalculateNewLayerRiaAngle (cm : CoilMap α) (coilAngle joggleAngle : α) :
    α × Bool :=
  (coilAngle - ADV_FOOT_RIA_OFFSET_ANGLE α + NEW_LAYER_OFFSET α,
    (isEvenLayerLb cm joggleAngle).getD false)

/-- Source `AxisPositions::MapPostLoadScsPositions`: seed a new-HQP row.
Returns the rows to insert into the position map (empty when populating the
detail failed).  Works on a local position detail, so the builder state is
untouched apart from the map. -/
def MapPostLoadScsPositions (cm : CoilMap α) (angle : α)
    (isInJoggleWindow : Bool) : List (ℤ × SPosDetail α) :=
  let pick :=
    if !isInJoggleWindow then
      (((GetJoggleUb cm angle + JOGGLE_LENGTH_MIN α) -
          RET_FOOT_RIA_OFFSET_ANGLE α, (1 : ℤ), (1 : ℤ),
        [TraceTok.postLoadTrace angle]))
    else
      (((GetJoggleLb cm angle + JOGGLE_LENGTH_MIN α) -
          RET_FOOT_RIA_OFFSET_ANGLE α, (0 : ℤ), (0 : ℤ),
        [TraceTok.postLoadWindowTrace angle]))
  let pr := PopScsPosDetail angle false footRole.FOOT_ROLE_ADVANCING
    insertMode.IM_ABS_ALL (RETREATING_FOOT_START_POS α)
    (ADVANCING_FOOT_START_POS α) pick.2.2.2 false isInJoggleWindow true false
    false false pick.2.1 pick.2.2.1 initPosDetail
  if pr.1 = RTN_NO_ERROR then [(round pick.1, pr.2)] else []

/-- Source `AxisPositions::MapNewLayerScsPositions`: seed a new-layer row.
Returns the rows to insert into the position map. -/
def MapNewLayerScsPositions (riaAngle coilAngle : α)
    (isEven isLastLayer isInJoggleWindow isNewHqp : Bool) :
    List (ℤ × SPosDetail α) :=
  let pick :=
    if isEven ∧ !isInJoggleWindow then
      ((ADVANCING_FOOT_START_POS α, RETREATING_FOOT_START_POS α,
        [TraceTok.newEvenLayerTrace coilAngle], (0 : ℤ), (1 : ℤ)))
    else if isEven ∧ isInJoggleWindow then
      ((ADVANCING_FOOT_START_POS α, RETREATING_FOOT_START_POS α,
        [TraceTok.newEvenLayerWindowTrace coilAngle], 0, 0))
    else if !isEven ∧ !isInJoggleWindow then
      ((RETREATING_FOOT_START_POS α, ADVANCING_FOOT_START_POS α,
        [TraceTok.newOddLayerTrace coilAngle], 0, 1))
    else
      ((RETREATING_FOOT_START_POS α, ADVANCING_FOOT_START_POS α,
        [TraceTok.newOddLayerWindowTrace coilAngle], 0, 0))
  let pr := PopScsPosDetail coilAngle isEven footRole.FOOT_ROLE_ADVANCING
    insertMode.IM_ABS_ALL pick.1 pick.2.1 pick.2.2.1 false isInJoggleWindow
    isNewHqp true false isLastLayer pick.2.2.2.1 pick.2.2.2.2 initPosDetail
  if pr.1 = RTN_NO_ERROR then [(round riaAngle, pr.2)] else []

/-- Source `AxisPositions::MapCoilStartScsPositions`: the start-of-coil
post-load seeding plus the two F-pair release-lead moves.  Returns the
updated loop state (marks and accumulated adjustment may change) and the
rows to insert.  All three records are built in a local position detail
reused across the three populate calls. -/
def MapCoilStartScsPositions (cm : CoilMap α) (k : TrigKernel α)
    (socPostLoadAngle socInitRetrAngle socInitAdvAngle : α)
    (v : PassVars α) : PassVars α × List (ℤ × SPosDetail α) :=
  let pr1 := PopScsPosDetail (((E_COLUMN_AZIMUTH : ℤ) : α) - 360) false
    footRole.FOOT_ROLE_ADVANCING insertMode.IM_ABS_ALL
    (RETREATING_FOOT_START_POS α) (ADVANCING_FOOT_START_POS α)
    [TraceTok.socTrace] false false true false false false 0 0 initPosDetail
  let e1 := if pr1.1 = RTN_NO_ERROR then [(round socPostLoadAngle, pr1.2)]
    else []
  match isInTransitionLb cm ((F_COLUMN_AZIMUTH : ℤ) : α) with
  | some (true, degToPrevTrans) =>
    let marks1 := (SetTransAdjust v.arrAdjMark ((F_COLUMN_AZIMUTH : ℤ) : α)).1
    let tAdj := CalculateTransitionAdjustment k cm ((F_COLUMN_AZIMUTH : ℤ) : α)
    let pr2 := PopScsPosDetail (((F_COLUMN_AZIMUTH : ℤ) : α) - 360) false
      footRole.FOOT_ROLE_RETREATING insertMode.IM_ABS_UPDATE_SEL |tAdj| 0
      [TraceTok.releaseLead degToPrevTrans tAdj] true false false false
      false false 0 0 pr1.2
    let e2 := if pr2.1 = RTN_NO_ERROR then [(round socInitRetrAngle, pr2.2)]
      else []
    let pr3 := PopScsPosDetail (((F_COLUMN_AZIMUTH : ℤ) : α) - 360) false
      footRole.FOOT_ROLE_ADVANCING insertMode.IM_ABS_UPDATE_SEL
      (-1 * |tAdj|) 0 [TraceTok.leadReleased degToPrevTrans tAdj] true false
      false false false false 0 0 pr2.2
    let e3 := if pr3.1 = RTN_NO_ERROR then [(round socInitAdvAngle, pr3.2)]
      else []
    ({ v with arrAdjMark := marks1, tAccumAdj := tAdj }, e1 ++ e2 ++ e3)
  | _ => (v, e1)

/-- The advancing-foot move selection of `CalculateAxisMoves` (the if-chain
choosing `FootPosDist` and `scsInsertMode` for the advancing foot).  Returns
(distance/position, insert mode, whether the transition accumulator and
marks are cleared in this branch, whether the unreachable error branch was
taken). -/
def advancingFootMove (jAdjType : joggleAdjustmentType) (isLastTurn : Bool)
    (tThisAdj : α) : α × insertMode × Bool × Bool :=
  if (!isLastTurn ∧ jAdjType = JA_RET_NOM_ADV_NOM) ∨
      jAdjType = JA_RET_ADJ_ADV_NOM ∨ jAdjType = JA_RET_NOP_ADV_NOM then
    (-1 * (TURN_INDEX_NOMINAL α + tThisAdj), insertMode.IM_ABS_UPDATE_SEL,
      false, false)
  else if jAdjType = JA_RET_FULL_ADV_NOP then
    (0, insertMode.IM_ABS_UPDATE_SEL, false, false)
  else if isLastTurn then
    (INITIAL_FULL_EXTEND_POS α, insertMode.IM_ABS_SEL, true, false)
  else
    (0, insertMode.IM_ABS_UPDATE_SEL, false, true)

/-- The advancing-record part of the per-angle loop body: the advancing
foot-move selection, its populate call and emission, plus the
transition-accumulator / mark clearing of the parked-foot branch.  Returns
(trace, accumulated adjustment, marks, scratch detail, emission). -/
def passAdv (a : ℤ) (isEvenLayer : Bool) (jAdjType : joggleAdjustmentType)
    (isLastTurn isLastLayer isJoggleAdj : Bool) (tThisAdj : α)
    (inTransition2 : Bool) (advancingColumnTurn : ℤ)
    (trace6 : List (TraceTok α)) (tAccum2 : α) (marks2 : ℕ → Bool)
    (scratch : SPosDetail α) :
    List (TraceTok α) × α × (ℕ → Bool) × SPosDetail α ×
      List (ℤ × SPosDetail α) :=
  let layerAdj : ℤ := if isLastTurn && isJoggleAdj then -1 else 0
  let hqpAdj : ℤ := if isLastTurn && isLastLayer && isJoggleAdj then -1 else 0
  if !isLastLayer then
    let am := advancingFootMove jAdjType isLastTurn tThisAdj
    let trace7 := if am.2.2.2 then trace6 ++ [TraceTok.advLogicError]
      else trace6
    let tAccum3 := if am.2.2.1 then 0 else tAccum2
    let marks3 := if am.2.2.1 then ClearAllTransAdjust else marks2
    let pr := PopScsPosDetail (a : α) isEvenLayer
      footRole.FOOT_ROLE_ADVANCING am.2.1 am.1 0 trace7 inTransition2
      isJoggleAdj false false isLastTurn isLastLayer hqpAdj layerAdj scratch
    let det :=
      { pr.2 with attrs :=
        { pr.2.attrs with trace := pr.2.attrs.trace ++
          [if am.2.1 = insertMode.IM_ABS_SEL then
            TraceTok.msAdvAbs advancingColumnTurn pr.2.selDetail.index
              (-1 * pr.2.selDetail.dist)
          else
            TraceTok.msAdvRel advancingColumnTurn pr.2.selDetail.index
              (-1 * pr.2.selDetail.dist)] } }
    (trace7, tAccum3, marks3, det,
      if pr.1 = RTN_NO_ERROR then [(a - 50, det)] else [])
  else
    if isLastTurn then
      (trace6, 0, ClearAllTransAdjust, scratch, [])
    else
      (trace6, tAccum2, marks2, scratch, [])

/-- The retreating-record part of the per-angle loop body: the retreating
foot-move selection, its populate call and emission.  Returns (new scratch
detail, emission). -/
def passRet (a : ℤ) (isEvenLayer : Bool) (jAdjType : joggleAdjustmentType)
    (isLastTurn isLastLayer isJoggleAdj : Bool) (tThisAdj jAdj : α)
    (inTransition2 : Bool) (retreatingColumnTurn : ℤ)
    (trace8 : List (TraceTok α)) (scratch3 : SPosDetail α) :
    SPosDetail α × List (ℤ × SPosDetail α) :=
  let layerAdj : ℤ := if isLastTurn && isJoggleAdj then -1 else 0
  let hqpAdj : ℤ := if isLastTurn && isLastLayer && isJoggleAdj then -1 else 0
  let rm := retreatingFootMove jAdjType isLastTurn tThisAdj jAdj
  let trace9 := if rm.2.2 then trace8 ++ [TraceTok.retLogicError] else trace8
  let prR := PopScsPosDetail (a : α) isEvenLayer
    footRole.FOOT_ROLE_RETREATING rm.2.1 rm.1 0 trace9 inTransition2
    isJoggleAdj false false isLastTurn isLastLayer hqpAdj layerAdj scratch3
  let detR :=
    { prR.2 with attrs :=
      { prR.2.attrs with trace := prR.2.attrs.trace ++
        [if rm.2.1 = insertMode.IM_ABS_SEL then
          TraceTok.msRetAbs retreatingColumnTurn prR.2.selDetail.index
            prR.2.selDetail.dist
        else
          TraceTok.msRetRel retreatingColumnTurn prR.2.selDetail.index
            prR.2.selDetail.dist] } }
  (detR, if prR.1 = RTN_NO_ERROR then [(a - 100, detR)] else [])

/-- The start-of-coil / layer-boundary seeding block at the head of the
per-angle loop body: the start-of-coil special case at the initial column
angle, and the look-ahead that seeds post-load or new-layer rows.  Returns
(updated loop state, emitted rows, logic trace so far). -/
def passSeed (cm : CoilMap α) (k : TrigKernel α) (a : ℤ) (v : PassVars α) :
    PassVars α × List (ℤ × SPosDetail α) × List (TraceTok α) :=
  let trace0 : List (TraceTok α) := [TraceTok.columnAng a]
  if a = INITIAL_COLUMN_ANGLE then
    let pr := MapCoilStartScsPositions cm k (SOC_POST_LOAD_ANGLE α)
      (SOC_INIT_RETR_ANGLE α) (SOC_INIT_ADV_ANGLE α)
      { v with hqpNumberPrev := 1, layerNumberPrev := 1 }
    (pr.1, pr.2, trace0)
  else
    match isLastMoveOfLayer cm (a : α) with
    | (true, joggleAngle, isInJoggleWindow) =>
      let hqpNumber := GetHexQuadNumberLb cm joggleAngle
      let layerNumber := GetLayerLb cm joggleAngle
      if hqpNumber ≠ v.hqpNumberPrev then
        ({ v with hqpNumberPrev := hqpNumber },
          MapPostLoadScsPositions cm (a : α) isInJoggleWindow, trace0)
      else if layerNumber ≠ v.layerNumberPrev then
        let prAie := CalculateNewLayerRiaAngle cm (a : α) joggleAngle
        ({ v with layerNumberPrev := layerNumber },
          MapNewLayerScsPositions prAie.1 (a : α) prAie.2
            (isLastHqLayer layerNumber) isInJoggleWindow false, trace0)
      else
        (v, [], trace0 ++ [TraceTok.errNewLayerHqp a])
    | (false, _, _) => (v, [], trace0)

/-- One iteration of the per-angle loop of
`AxisPositions::CalculateAxisMoves`, at column angle `a`: the lookahead /
start-of-coil seeding, the joggle classification, the transition-adjustment
bookkeeping, the layer/turn/last-turn/last-layer lookups, the hqp/layer
adjustment selection, and the advancing and retreating record emissions.
Returns the updated loop state and the rows inserted into the position
map. -/
def passStep (cm : CoilMap α) (k : TrigKernel α) (a : ℤ) (v : PassVars α) :
    PassVars α × List (ℤ × SPosDetail α) :=
  -- start-of-coil special case / boundary lookahead
  let seeded := passSeed cm k a v
  let v1 := seeded.1
  let e1 := seeded.2.1
  let trace1 := seeded.2.2
  -- joggle classification; a non-nominal region skips the transition path
  let jt := CalculateJoggleAdjustmentType cm (a : α)
  let jAdjType := jt.1
  let degToNextJoggle := jt.2.1
  let degToPrevJoggle := jt.2.2.1
  let jAdj := jt.2.2.2
  let adj : Bool × α × Bool × (ℕ → Bool) × α × List (TraceTok α) :=
    if jAdjType = JA_RET_ADJ_ADV_NOM then
      (true, 0, v1.inTransition, v1.arrAdjMark, v1.tAccumAdj,
        trace1 ++ [TraceTok.joggleIn degToNextJoggle jAdj])
    else if jAdjType = JA_RET_FULL_ADV_NOP then
      (true, 0, v1.inTransition, v1.arrAdjMark, v1.tAccumAdj,
        trace1 ++ [TraceTok.pastJoggleFull (-1 * degToPrevJoggle)])
    else if jAdjType = JA_RET_NOP_ADV_NOM then
      (true, 0, v1.inTransition, v1.arrAdjMark, v1.tAccumAdj,
        trace1 ++ [TraceTok.pastJoggleNop (-1 * degToPrevJoggle)])
    else
      match isInTransitionLb cm (a : α) with
      | some (result, degToPrevTrans) =>
        if result then
          let tThis := CalculateTransitionAdjustment k cm (a : α) -
            v1.tAccumAdj
          (false, tThis, true, (SetTransAdjust v1.arrAdjMark (a : α)).1,
            v1.tAccumAdj + tThis,
            trace1 ++ [TraceTok.pastTrans degToPrevTrans tThis])
        else if isTransAdjustSet v1.arrAdjMark (a : α) then
          let tThis := TURN_INDEX_NOMINAL α - v1.tAccumAdj
          (false, tThis, true, ClearAllTransAdjust, 0,
            trace1 ++ [TraceTok.nowOffTrans tThis])
        else
          (false, 0, false, v1.arrAdjMark, v1.tAccumAdj,
            trace1 ++ [TraceTok.noTransAdj])
      | none =>
        (false, 0, false, v1.arrAdjMark, 0,
          trace1 ++ [TraceTok.errInTransLookup a])
  let isJoggleAdj := adj.1
  let tThisAdj := adj.2.1
  let inTransition2 := adj.2.2.1
  let marks2 := adj.2.2.2.1
  let tAccum2 := adj.2.2.2.2.1
  let trace2 := adj.2.2.2.2.2
  -- layer number (with the region-2 compensation), parity, turns
  let layerNumber0 := GetLayerLb cm (a : α)
  let layered : ℤ × List (TraceTok α) :=
    if layerNumber0 ≠ NO_FEATURE ∧ jAdjType = JA_RET_FULL_ADV_NOP then
      (layerNumber0 - 1, trace2)
    else if layerNumber0 ≠ NO_FEATURE then
      (layerNumber0, trace2)
    else
      (layerNumber0, trace2 ++ [TraceTok.errLayerLookup a])
  let layerNumber := layered.1
  let isEvenLayer : Bool := decide (layerNumber % 2 = 0)
  let advancingColumnTurn := GetTurnLb cm (a : α)
  let parity : ℤ × List (TraceTok α) :=
    if !isEvenLayer then
      (advancingColumnTurn + 1, layered.2 ++ [TraceTok.oddLayerTok layerNumber])
    else
      (advancingColumnTurn - 1, layered.2 ++ [TraceTok.evenLayerTok layerNumber])
  let retreatingColumnTurn := parity.1
  let isLastTurn := isLastTurnLb advancingColumnTurn isEvenLayer
  let trace5 := parity.2 ++
    (if isLastTurn then [TraceTok.lastTurnTok] else [TraceTok.notLastTurnTok])
  let isLastLayer := isLastHqLayer layerNumber
  let trace6 := trace5 ++
    (if isLastLayer then [TraceTok.lastLayerTok] else [TraceTok.notLastLayerTok])
  -- advancing record (skipped on the last layer, which parks the foot)
  let advPart := passAdv a isEvenLayer jAdjType isLastTurn isLastLayer
    isJoggleAdj tThisAdj inTransition2 advancingColumnTurn trace6 tAccum2
    marks2 v1.scsPosDetail
  let trace8 := advPart.1
  let tAccum4 := advPart.2.1
  let marks4 := advPart.2.2.1
  let scratch3 := advPart.2.2.2.1
  let e2 := advPart.2.2.2.2
  -- retreating record (always attempted)
  let rp := passRet a isEvenLayer jAdjType isLastTurn isLastLayer isJoggleAdj
    tThisAdj jAdj inTransition2 retreatingColumnTurn trace8 scratch3
  let detR := rp.1
  let e3 := rp.2
  ({ v1 with
      inTransition := inTransition2,
      tAccumAdj := tAccum4,
      arrAdjMark := marks4,
      scsPosDetail := detR },
    e1 ++ e2 ++ e3)

/-- One loop iteration applied to the builder state: the step's emitted
rows are appended to the member position map (`MapScsAxisMoves`). -/
def runStep (cm : CoilMap α) (k : TrigKernel α) (st : PassState α)
    (a : ℤ) : PassState α :=
  let pr := passStep cm k a st.vars
  { vars := pr.1, scsAxisPositionMap := st.scsAxisPositionMap ++ pr.2 }

/-- The column angles visited by the loop
`for (long currentAngle= INITIAL_COLUMN_ANGLE; currentAngle <= COIL_ANGLE_MAX;
currentAngle += COLUMN_INCREMENT)`: 30, 90, ..., 199410 (the 3324 values
30 + 60k with 30 + 60k ≤ 199440, i.e. k ≤ 3323). -/
def angleList : List ℤ :=
  (List.range 3324).map (fun (i : ℕ) => INITIAL_COLUMN_ANGLE + COLUMN_INCREMENT * (i : ℤ))

/-- Source `AxisPositions::CalculateAxisMoves()`: reset the loop locals to
their declaration initialisers, then run the per-angle loop over the whole
coil, keeping the member marks, scratch detail and position map from the
builder object. -/
def CalculateAxisMoves (cm : CoilMap α) (k : TrigKernel α)
    (st : PassState α) : PassState α :=
  angleList.foldl (runStep cm k)
    { st with vars :=
      { st.vars with
          hqpNumberPrev := 0,
          layerNumberPrev := 0,
          inTransition := false,
          tAccumAdj := 0 } }



theorem mapLookup_mem (m : List (ℤ × SPosDetail α)) (key : ℤ)
    (r : SPosDetail α) (h : mapLookup m key = some r) : (key, r) ∈ m := by
  unfold mapLookup at h
  rcases hfind : m.reverse.find? (fun p => p.1 = key) with _ | p
  · rw [hfind] at h
    cases h
  · rw [hfind] at h
    simp only [Option.map_some', Option.some.injEq] at h
    have hmem := List.mem_of_find?_eq_some hfind
    have hkey := List.find?_some hfind
    simp only [decide_eq_true_eq] at hkey
    rw [List.mem_reverse] at hmem
    have hp : p = (key, r) := by
      rcases p with ⟨pk, pr⟩
      simp only [Prod.mk.injEq]
      exact ⟨hkey, h⟩
    rwa [hp] at hmem

theorem mapLookup_append_right (m₁ m₂ : List (ℤ × SPosDetail α)) (key : ℤ)
    (h : mapLookup m₂ key ≠ none) :
    mapLookup (m₁ ++ m₂) key = mapLookup m₂ key := by
  unfold mapLookup at *
  rw [List.reverse_append, List.find?_append]
  rcases hfind : m₂.reverse.find? (fun p => p.1 = key) with _ | p
  · rw [hfind] at h
    simp at h
  · rw [hfind]
    rfl

/-- Every record of the position map produced by the pass either was
already in the incoming map or is an emission of some loop step. -/
theorem calculateAxisMoves_emission_invariant (cm : CoilMap α)
    (k : TrigKernel α) (st : PassState α) (P : ℤ × SPosDetail α → Prop)
    (hstep : ∀ (a : ℤ) (v : PassVars α) (p : ℤ × SPosDetail α),
      p ∈ (passStep cm k a v).2 → P p)
    (hst : ∀ p ∈ st.scsAxisPositionMap, P p) :
    ∀ p ∈ (CalculateAxisMoves cm k st).scsAxisPositionMap, P p := by
  have key : ∀ (l : List ℤ) (st0 : PassState α),
      (∀ p ∈ st0.scsAxisPositionMap, P p) →
      ∀ p ∈ (l.foldl (runStep cm k) st0).scsAxisPositionMap, P p := by
    intro l
    induction l with
    | nil => intro st0 h0; exact h0
    | cons a t ih =>
      intro st0 h0 p hp
      refine ih (runStep cm k st0 a) ?_ p hp
      intro q hq
      unfold runStep at hq
      simp only [List.mem_append] at hq
      rcases hq with hq | hq
      · exact h0 q hq
      · exact hstep a st0.vars q hq
  unfold CalculateAxisMoves
  exact key angleList _ hst

/-- On a successful populate (`RTN_NO_ERROR`), the coil angle's azimuth is
one of the six column azimuths and the record's attribute flags, coil angle
and hqp/layer adjustments are exactly the passed arguments. -/
theorem popOk_fields (coilAngle : α) (isEven : Bool) (role : footRole)
    (mode : insertMode) (fDistPos1 fDistPos2 : α)
    (trace : List (TraceTok α))
    (isInTransition isInJoggle isNewHqp isNewLayer : Bool)
    (isLastTurn isLastLayer : Bool) (hqpAdj layerAdj : ℤ)
    (pd : SPosDetail α)
    (h : (PopScsPosDetail coilAngle isEven role mode fDistPos1 fDistPos2
        trace isInTransition isInJoggle isNewHqp isNewLayer isLastTurn
        isLastLayer hqpAdj layerAdj pd).1 = RTN_NO_ERROR) :
    validAzi (aziOfCoilAngle coilAngle) ∧
    (PopScsPosDetail coilAngle isEven role mode fDistPos1 fDistPos2 trace
        isInTransition isInJoggle isNewHqp isNewLayer isLastTurn isLastLayer
        hqpAdj layerAdj pd).2.attrs.coilAngle = coilAngle ∧
    (PopScsPosDetail coilAngle isEven role mode fDistPos1 fDistPos2 trace
        isInTransition isInJoggle isNewHqp isNewLayer isLastTurn isLastLayer
        hqpAdj layerAdj pd).2.attrs.isInJoggle = isInJoggle ∧
    (PopScsPosDetail coilAngle isEven role mode fDistPos1 fDistPos2 trace
        isInTransition isInJoggle isNewHqp isNewLayer isLastTurn isLastLayer
        hqpAdj layerAdj pd).2.attrs.isNewHqp = isNewHqp ∧
    (PopScsPosDetail coilAngle isEven role mode fDistPos1 fDistPos2 trace
        isInTransition isInJoggle isNewHqp isNewLayer isLastTurn isLastLayer
        hqpAdj layerAdj pd).2.attrs.isNewLayer = isNewLayer ∧
    (PopScsPosDetail coilAngle isEven role mode fDistPos1 fDistPos2 trace
        isInTransition isInJoggle isNewHqp isNewLayer isLastTurn isLastLayer
        hqpAdj layerAdj pd).2.attrs.isLastTurn = isLastTurn ∧
    (PopScsPosDetail coilAngle isEven role mode fDistPos1 fDistPos2 trace
        isInTransition isInJoggle isNewHqp isNewLayer isLastTurn isLastLayer
        hqpAdj layerAdj pd).2.attrs.isLastLayer = isLastLayer ∧
    (PopScsPosDetail coilAngle isEven role mode fDistPos1 fDistPos2 trace
        isInTransition isInJoggle isNewHqp isNewLayer isLastTurn isLastLayer
        hqpAdj layerAdj pd).2.hqpAdj = hqpAdj ∧
    (PopScsPosDetail coilAngle isEven role mode fDistPos1 fDistPos2 trace
        isInTransition isInJoggle isNewHqp isNewLayer isLastTurn isLastLayer
        hqpAdj layerAdj pd).2.layerAdj = layerAdj := by
  by_cases hcol : columnOfAzi (aziOfCoilAngle coilAngle) = -1
  · exfalso
    unfold PopScsPosDetail at h
    rw [if_pos hcol] at h
    simp [RTN_ERROR, RTN_NO_ERROR] at h
  · have hvalid : validAzi (aziOfCoilAngle coilAngle) := by
      by_contra hv
      exact hcol ((columnOfAzi_eq_neg_one_iff _).mpr hv)
    refine ⟨hvalid, ?_⟩
    have hrange := columnOfAzi_range _ hcol
    unfold PopScsPosDetail at h ⊢
    rw [if_neg hcol] at h ⊢
    rcases mode with _ | _ | _ | _ | _ <;>
      simp only [] at h ⊢ <;>
      rcases role with _ | _ <;>
      rcases isEven with _ | _ <;>
      simp_all [RTN_ERROR, RTN_NO_ERROR]

/-- The hqp/layer adjustment table as actually implemented by the source
(the table in the `AxisPositions.hpp` header comment): for the non-seed
rows the layer adjustment is -1 exactly on a last turn inside a joggle and
the hqp adjustment is -1 exactly on a last turn of a last layer inside a
joggle; a new-HQP row gets (+1, +1) outside a joggle and (0, 0) inside; a
new-layer row gets (0, +1) outside a joggle and (0, 0) inside. -/
def correctedAdjTable (r : SPosDetail α) : Prop :=
  (r.attrs.isNewHqp = false ∧ r.attrs.isNewLayer = false ∧
    r.layerAdj = (if r.attrs.isLastTurn && r.attrs.isInJoggle then -1 else 0) ∧
    r.hqpAdj = (if r.attrs.isLastTurn && r.attrs.isLastLayer &&
      r.attrs.isInJoggle then -1 else 0)) ∨
  (r.attrs.isNewHqp = true ∧ r.attrs.isNewLayer = false ∧
    r.hqpAdj = (if r.attrs.isInJoggle then 0 else 1) ∧
    r.layerAdj = (if r.attrs.isInJoggle then 0 else 1)) ∨
  (r.attrs.isNewHqp = false ∧ r.attrs.isNewLayer = true ∧
    r.hqpAdj = 0 ∧ r.layerAdj = (if r.attrs.isInJoggle then 0 else 1))

/-- The claimed invariant table, modelled from the spec's words: `(no,no,no)`
gives (0,0); `(no,no,yes)` gives (-1,-1) on the last turn and (0,0)
otherwise; `(yes,no,no)` gives (+1,+1); `(yes,no,yes)` gives (0,0);
`(no,yes,no)` gives (0,+1); `(no,yes,yes)` gives (0,0). -/
def claimedAdjTable (r : SPosDetail α) : Prop :=
  (r.attrs.isNewHqp = false → r.attrs.isNewLayer = false →
    r.attrs.isInJoggle = false → r.hqpAdj = 0 ∧ r.layerAdj = 0) ∧
  (r.attrs.isNewHqp = false → r.attrs.isNewLayer = false →
    r.attrs.isInJoggle = true →
    (if r.attrs.isLastTurn then r.hqpAdj = -1 ∧ r.layerAdj = -1
     else r.hqpAdj = 0 ∧ r.layerAdj = 0)) ∧
  (r.attrs.isNewHqp = true → r.attrs.isNewLayer = false →
    r.attrs.isInJoggle = false → r.hqpAdj = 1 ∧ r.layerAdj = 1) ∧
  (r.attrs.isNewHqp = true → r.attrs.isNewLayer = false →
    r.attrs.isInJoggle = true → r.hqpAdj = 0 ∧ r.layerAdj = 0) ∧
  (r.attrs.isNewHqp = false → r.attrs.isNewLayer = true →
    r.attrs.isInJoggle = false → r.hqpAdj = 0 ∧ r.layerAdj = 1) ∧
  (r.attrs.isNewHqp = false → r.attrs.isNewLayer = true →
    r.attrs.isInJoggle = true → r.hqpAdj = 0 ∧ r.layerAdj = 0)



theorem mem_ite_cond {γ : Type} {c : Prop} [Decidable c] {l₁ l₂ : List γ}
    {p : γ} (h : p ∈ if c then l₁ else l₂) :
    (c ∧ p ∈ l₁) ∨ (¬c ∧ p ∈ l₂) := by
  by_cases hc : c
  · rw [if_pos hc] at h
    exact Or.inl ⟨hc, h⟩
  · rw [if_neg hc] at h
    exact Or.inr ⟨hc, h⟩

theorem mem_seed_ite {β₁ β₃ : Type} {γ : Type} {c : Prop} [Decidable c]
    {X Y : β₁ × List γ × β₃} {p : γ} (h : p ∈ (if c then X else Y).2.1) :
    p ∈ X.2.1 ∨ p ∈ Y.2.1 := by
  by_cases hc : c
  · rw [if_pos hc] at h
    exact Or.inl h
  · rw [if_neg hc] at h
    exact Or.inr h

theorem mem_adv_ite {β₁ β₂ β₃ β₄ : Type} {γ : Type} {c : Prop} [Decidable c]
    {X Y : β₁ × β₂ × β₃ × β₄ × List γ} {p : γ}
    (h : p ∈ (if c then X else Y).2.2.2.2) :
    p ∈ X.2.2.2.2 ∨ p ∈ Y.2.2.2.2 := by
  by_cases hc : c
  · rw [if_pos hc] at h
    exact Or.inl h
  · rw [if_neg hc] at h
    exact Or.inr h

theorem mapPostLoad_emission_ok (cm : CoilMap α) (x : α) (w : Bool) :
    ∀ p ∈ MapPostLoadScsPositions cm x w,
      validAzi (aziOfCoilAngle p.2.attrs.coilAngle) ∧ correctedAdjTable p.2 := by
  intro p hp
  cases w
  case false =>
    simp only [MapPostLoadScsPositions, Bool.not_false, ite_true] at hp
    rcases mem_ite_cond hp with ⟨hok, hp⟩ | ⟨_, hp⟩
    · simp only [List.mem_singleton] at hp
      subst hp
      obtain ⟨hv, hca, hij, hnh, hnl, hlt, hll, hh, hl⟩ :=
        popOk_fields _ _ _ _ _ _ _ _ _ _ _ _ _ _ _ _ hok
      refine ⟨by rw [hca]; exact hv, Or.inr (Or.inl ⟨hnh, hnl, ?_, ?_⟩)⟩
      · rw [hh, hij]
        norm_num
      · rw [hl, hij]
        norm_num
    · exact absurd hp (List.not_mem_nil p)
  case true =>
    simp only [MapPostLoadScsPositions, Bool.not_true, ite_false] at hp
    rcases mem_ite_cond hp with ⟨hok, hp⟩ | ⟨_, hp⟩
    · simp only [List.mem_singleton] at hp
      subst hp
      obtain ⟨hv, hca, hij, hnh, hnl, hlt, hll, hh, hl⟩ :=
        popOk_fields _ _ _ _ _ _ _ _ _ _ _ _ _ _ _ _ hok
      refine ⟨by rw [hca]; exact hv, Or.inr (Or.inl ⟨hnh, hnl, ?_, ?_⟩)⟩
      · rw [hh, hij]
        norm_num
      · rw [hl, hij]
        norm_num
    · exact absurd hp (List.not_mem_nil p)


theorem mapNewLayer_emission_ok (ria x : α) (isEven isLastLayer w : Bool) :
    ∀ p ∈ MapNewLayerScsPositions ria x isEven isLastLayer w false,
      validAzi (aziOfCoilAngle p.2.attrs.coilAngle) ∧ correctedAdjTable p.2 := by
  intro p hp
  cases isEven <;> cases w <;>
    simp only [MapNewLayerScsPositions, Bool.not_false, Bool.not_true,
      true_and, false_and, and_true, and_false, and_self, ite_true,
      ite_false] at hp <;>
    (rcases mem_ite_cond hp with ⟨hok, hp⟩ | ⟨_, hp⟩
     · simp only [List.mem_singleton] at hp
       subst hp
       obtain ⟨hv, hca, hij, hnh, hnl, hlt, hll, hh, hl⟩ :=
         popOk_fields _ _ _ _ _ _ _ _ _ _ _ _ _ _ _ _ hok
       refine ⟨by rw [hca]; exact hv,
         Or.inr (Or.inr ⟨hnh, hnl, hh, ?_⟩)⟩
       rw [hl, hij]
       norm_num
     · exact absurd hp (List.not_mem_nil p))

theorem mapCoilStart_emission_ok (cm : CoilMap α) (k : TrigKernel α)
    (s1 s2 s3 : α) (v : PassVars α) :
    ∀ p ∈ (MapCoilStartScsPositions cm k s1 s2 s3 v).2,
      validAzi (aziOfCoilAngle p.2.attrs.coilAngle) ∧
      (p.1 = round s1 ∨ correctedAdjTable p.2) := by
  intro p hp
  simp only [MapCoilStartScsPositions] at hp
  rcases htr : isInTransitionLb cm (((F_COLUMN_AZIMUTH : ℤ) : α)) with _ | ⟨b, d⟩
  · rw [htr] at hp
    simp only [] at hp
    rcases mem_ite_cond hp with ⟨hok, hp⟩ | ⟨_, hp⟩
    · simp only [List.mem_singleton] at hp
      subst hp
      obtain ⟨hv, hca, hij, hnh, hnl, hlt, hll, hh, hl⟩ :=
        popOk_fields _ _ _ _ _ _ _ _ _ _ _ _ _ _ _ _ hok
      exact ⟨by rw [hca]; exact hv, Or.inl rfl⟩
    · exact absurd hp (List.not_mem_nil p)
  · rw [htr] at hp
    cases b
    case false =>
      simp only [] at hp
      rcases mem_ite_cond hp with ⟨hok, hp⟩ | ⟨_, hp⟩
      · simp only [List.mem_singleton] at hp
        subst hp
        obtain ⟨hv, hca, hij, hnh, hnl, hlt, hll, hh, hl⟩ :=
          popOk_fields _ _ _ _ _ _ _ _ _ _ _ _ _ _ _ _ hok
        exact ⟨by rw [hca]; exact hv, Or.inl rfl⟩
      · exact absurd hp (List.not_mem_nil p)
    case true =>
      simp only [List.mem_append] at hp
      rcases hp with (hp | hp) | hp
      · rcases mem_ite_cond hp with ⟨hok, hp⟩ | ⟨_, hp⟩
        · simp only [List.mem_singleton] at hp
          subst hp
          obtain ⟨hv, hca, hij, hnh, hnl, hlt, hll, hh, hl⟩ :=
            popOk_fields _ _ _ _ _ _ _ _ _ _ _ _ _ _ _ _ hok
          exact ⟨by rw [hca]; exact hv, Or.inl rfl⟩
        · exact absurd hp (List.not_mem_nil p)
      · rcases mem_ite_cond hp with ⟨hok, hp⟩ | ⟨_, hp⟩
        · simp only [List.mem_singleton] at hp
          subst hp
          obtain ⟨hv, hca, hij, hnh, hnl, hlt, hll, hh, hl⟩ :=
            popOk_fields _ _ _ _ _ _ _ _ _ _ _ _ _ _ _ _ hok
          refine ⟨by rw [hca]; exact hv,
            Or.inr (Or.inl ⟨hnh, hnl, ?_, ?_⟩)⟩
          · rw [hl, hlt, hij]
            norm_num
          · rw [hh, hlt, hll, hij]
            norm_num
        · exact absurd hp (List.not_mem_nil p)
      · rcases mem_ite_cond hp with ⟨hok, hp⟩ | ⟨_, hp⟩
        · simp only [List.mem_singleton] at hp
          subst hp
          obtain ⟨hv, hca, hij, hnh, hnl, hlt, hll, hh, hl⟩ :=
            popOk_fields _ _ _ _ _ _ _ _ _ _ _ _ _ _ _ _ hok
          refine ⟨by rw [hca]; exact hv,
            Or.inr (Or.inl ⟨hnh, hnl, ?_, ?_⟩)⟩
          · rw [hl, hlt, hij]
            norm_num
          · rw [hh, hlt, hll, hij]
            norm_num
        · exact absurd hp (List.not_mem_nil p)


theorem passAdv_emission_ok (a : ℤ) (isEvenLayer : Bool)
    (jAdjType : joggleAdjustmentType)
    (isLastTurn isLastLayer isJoggleAdj : Bool) (tThisAdj : α)
    (inTransition2 : Bool) (advancingColumnTurn : ℤ)
    (trace6 : List (TraceTok α)) (tAccum2 : α) (marks2 : ℕ → Bool)
    (scratch : SPosDetail α) :
    ∀ p ∈ (passAdv a isEvenLayer jAdjType isLastTurn isLastLayer isJoggleAdj
        tThisAdj inTransition2 advancingColumnTurn trace6 tAccum2 marks2
        scratch).2.2.2.2,
      validAzi (aziOfCoilAngle p.2.attrs.coilAngle) ∧ correctedAdjTable p.2 := by
  intro p hp
  simp only [passAdv] at hp
  rcases mem_adv_ite hp with hp | hp
  · simp only [] at hp
    rcases mem_ite_cond hp with ⟨hok, hp⟩ | ⟨_, hp⟩
    · simp only [List.mem_singleton] at hp
      subst hp
      obtain ⟨hv, hca, hij, hnh, hnl, hlt, hll, hh, hl⟩ :=
        popOk_fields _ _ _ _ _ _ _ _ _ _ _ _ _ _ _ _ hok
      constructor
      · simp only []
        rw [hca]
        exact hv
      · left
        refine ⟨?_, ?_, ?_, ?_⟩
        · simp only []
          exact hnh
        · simp only []
          exact hnl
        · simp only []
          rw [hl, hlt, hij]
        · simp only []
          rw [hh, hlt, hll, hij]
    · exact absurd hp (List.not_mem_nil p)
  · rcases mem_adv_ite hp with hp | hp <;>
      (simp only [] at hp; exact absurd hp (List.not_mem_nil p))

theorem passRet_emission_ok (a : ℤ) (isEvenLayer : Bool)
    (jAdjType : joggleAdjustmentType)
    (isLastTurn isLastLayer isJoggleAdj : Bool) (tThisAdj jAdj : α)
    (inTransition2 : Bool) (retreatingColumnTurn : ℤ)
    (trace8 : List (TraceTok α)) (scratch3 : SPosDetail α) :
    ∀ p ∈ (passRet a isEvenLayer jAdjType isLastTurn isLastLayer isJoggleAdj
        tThisAdj jAdj inTransition2 retreatingColumnTurn trace8 scratch3).2,
      validAzi (aziOfCoilAngle p.2.attrs.coilAngle) ∧ correctedAdjTable p.2 := by
  intro p hp
  simp only [passRet] at hp
  rcases mem_ite_cond hp with ⟨hok, hp⟩ | ⟨_, hp⟩
  · simp only [List.mem_singleton] at hp
    subst hp
    obtain ⟨hv, hca, hij, hnh, hnl, hlt, hll, hh, hl⟩ :=
      popOk_fields _ _ _ _ _ _ _ _ _ _ _ _ _ _ _ _ hok
    constructor
    · simp only []
      rw [hca]
      exact hv
    · left
      refine ⟨?_, ?_, ?_, ?_⟩
      · simp only []
        exact hnh
      · simp only []
        exact hnl
      · simp only []
        rw [hl, hlt, hij]
      · simp only []
        rw [hh, hlt, hll, hij]
  · exact absurd hp (List.not_mem_nil p)

set_option maxHeartbeats 1600000 in
theorem passStep_emission_ok (cm : CoilMap α) (k : TrigKernel α) (a : ℤ)
    (v : PassVars α) :
    ∀ p ∈ (passStep cm k a v).2,
      validAzi (aziOfCoilAngle p.2.attrs.coilAngle) ∧
      (p.1 = round (SOC_POST_LOAD_ANGLE α) ∨ correctedAdjTable p.2) := by
  intro p hp
  simp only [passStep, passSeed, List.mem_append] at hp
  rcases hp with (hp | hp) | hp
  · -- seed emissions
    rcases mem_seed_ite hp with hp | hp
    · simp only [] at hp
      exact mapCoilStart_emission_ok cm k _ _ _ _ p hp
    · rcases hlm : isLastMoveOfLayer cm ((a : ℤ) : α) with ⟨c, ja, w⟩
      rw [hlm] at hp
      cases c
      case false =>
        simp only [] at hp
        exact absurd hp (List.not_mem_nil p)
      case true =>
        simp only [] at hp
        rcases mem_seed_ite hp with hp | hp
        · simp only [] at hp
          have h1 := mapPostLoad_emission_ok cm ((a : ℤ) : α) w p hp
          exact ⟨h1.1, Or.inr h1.2⟩
        · rcases mem_seed_ite hp with hp | hp
          · simp only [] at hp
            have h1 := mapNewLayer_emission_ok _ _ _ _ _ p hp
            exact ⟨h1.1, Or.inr h1.2⟩
          · simp only [] at hp
            exact absurd hp (List.not_mem_nil p)
  · -- advancing record
    have h1 := passAdv_emission_ok _ _ _ _ _ _ _ _ _ _ _ _ _ p hp
    exact ⟨h1.1, Or.inr h1.2⟩
  · -- retreating record
    have h1 := passRet_emission_ok _ _ _ _ _ _ _ _ _ _ _ _ p hp
    exact ⟨h1.1, Or.inr h1.2⟩


/-- The empty coil map: no feature rows, no joggle angles. -/
def cmEmpty : CoilMap α := { rows := [], joggles := [] }

/-- C1 (amended): in every full pass, every record inserted into the
position map either is the start-of-coil post-load seed row (at the rounded
`SOC_POST_LOAD_ANGLE`, whose adjustment pair is (0,0) despite `isNewHqp`),
or obeys the table the source implements: a non-seed row has
`layerAdjust = -1` exactly on a last turn inside a joggle and
`hqpAdjust = -1` exactly on a last turn of a last layer inside a joggle (and
0 otherwise); a new-HQP row has (+1,+1) outside a joggle window and (0,0)
inside; a new-layer row has (0,+1) outside a joggle window and (0,0)
inside. -/
theorem C1_adjust_table_amended :
    ∀ (cm : CoilMap ℝ) (k : TrigKernel ℝ),
      (CalculateAxisMoves cm k initPassState).scsAxisPositionMap.Forall
        (fun p => p.1 = round (SOC_POST_LOAD_ANGLE ℝ) ∨
          correctedAdjTable p.2) := by
  intro cm k
  rw [List.forall_iff_forall_mem]
  intro p hp
  exact calculateAxisMoves_emission_invariant cm k initPassState _
    (fun a v q hq => (passStep_emission_ok cm k a v q hq).2)
    (by intro q hq; simp [initPassState] at hq) p hp

/-- C7: (1) the record-population step returns an error exactly when the
passed coil angle's azimuth is not one of the six column azimuths (all
interior error branches being unreachable); (2) consequently no record with
an invalid azimuth is ever inserted into the position map by the full pass
(errored populations are not inserted); (3) a failed layer-parity lookup in
the transition adjuster degrades to a zero adjustment instead of aborting
the pass. -/
theorem C7_error_handling :
    (∀ (coilAngle : ℝ) (isEven : Bool) (role : footRole) (mode : insertMode)
      (fDistPos1 fDistPos2 : ℝ) (trace : List (TraceTok ℝ))
      (isInTransition isInJoggle isNewHqp isNewLayer : Bool)
      (isLastTurn isLastLayer : Bool) (hqpAdj layerAdj : ℤ)
      (pd : SPosDetail ℝ),
      (PopScsPosDetail coilAngle isEven role mode fDistPos1 fDistPos2 trace
          isInTransition isInJoggle isNewHqp isNewLayer isLastTurn isLastLayer
          hqpAdj layerAdj pd).1 = RTN_ERROR ↔
        ¬ validAzi (aziOfCoilAngle coilAngle)) ∧
    (∀ (cm : CoilMap ℝ) (k : TrigKernel ℝ),
      (CalculateAxisMoves cm k initPassState).scsAxisPositionMap.Forall
        (fun p => validAzi (aziOfCoilAngle p.2.attrs.coilAngle))) ∧
    (∀ (cm : CoilMap ℝ) (k : TrigKernel ℝ) (x : ℝ),
      isOddLayerLb cm x = none →
        CalculateTransitionAdjustment k cm x = 0) := by
  refine ⟨pop_error_iff_bad_azimuth, ?_, ?_⟩
  · intro cm k
    rw [List.forall_iff_forall_mem]
    intro p hp
    exact calculateAxisMoves_emission_invariant cm k initPassState _
      (fun a v q hq => (passStep_emission_ok cm k a v q hq).1)
      (by intro q hq; simp [initPassState] at hq) p hp
  · intro cm k x h
    simp only [CalculateTransitionAdjustment, h]

/-- Witness for C7: on the empty coil map the layer-parity lookup fails at
angle 0, and the transition adjuster indeed returns 0 there. -/
theorem C7_error_handling_witness :
    isOddLayerLb (cmEmpty : CoilMap ℝ) 0 = none ∧
    CalculateTransitionAdjustment realKernel (cmEmpty : CoilMap ℝ) 0 = 0 :=
  ⟨rfl, C7_error_handling.2.2 cmEmpty realKernel 0 rfl⟩


theorem mem_seed_ite_cond {β₁ β₃ : Type} {γ : Type} {c : Prop} [Decidable c]
    {X Y : β₁ × List γ × β₃} {p : γ} (h : p ∈ (if c then X else Y).2.1) :
    (c ∧ p ∈ X.2.1) ∨ (¬c ∧ p ∈ Y.2.1) := by
  by_cases hc : c
  · rw [if_pos hc] at h
    exact Or.inl ⟨hc, h⟩
  · rw [if_neg hc] at h
    exact Or.inr ⟨hc, h⟩

/-- Every advancing-part emission is keyed `a - 50`. -/
theorem passAdv_keys (a : ℤ) (isEvenLayer : Bool)
    (jAdjType : joggleAdjustmentType)
    (isLastTurn isLastLayer isJoggleAdj : Bool) (tThisAdj : α)
    (inTransition2 : Bool) (advancingColumnTurn : ℤ)
    (trace6 : List (TraceTok α)) (tAccum2 : α) (marks2 : ℕ → Bool)
    (scratch : SPosDetail α) :
    ∀ p ∈ (passAdv a isEvenLayer jAdjType isLastTurn isLastLayer isJoggleAdj
        tThisAdj inTransition2 advancingColumnTurn trace6 tAccum2 marks2
        scratch).2.2.2.2, p.1 = a - 50 := by
  intro p hp
  simp only [passAdv] at hp
  rcases mem_adv_ite hp with hp | hp
  · simp only [] at hp
    rcases mem_ite_cond hp with ⟨_, hp⟩ | ⟨_, hp⟩
    · simp only [List.mem_singleton] at hp
      rw [hp]
    · exact absurd hp (List.not_mem_nil p)
  · rcases mem_adv_ite hp with hp | hp <;>
      (simp only [] at hp; exact absurd hp (List.not_mem_nil p))

/-- Every retreating-part emission is keyed `a - 100`. -/
theorem passRet_keys (a : ℤ) (isEvenLayer : Bool)
    (jAdjType : joggleAdjustmentType)
    (isLastTurn isLastLayer isJoggleAdj : Bool) (tThisAdj jAdj : α)
    (inTransition2 : Bool) (retreatingColumnTurn : ℤ)
    (trace8 : List (TraceTok α)) (scratch3 : SPosDetail α) :
    ∀ p ∈ (passRet a isEvenLayer jAdjType isLastTurn isLastLayer isJoggleAdj
        tThisAdj jAdj inTransition2 retreatingColumnTurn trace8 scratch3).2,
      p.1 = a - 100 := by
  intro p hp
  simp only [passRet] at hp
  rcases mem_ite_cond hp with ⟨_, hp⟩ | ⟨_, hp⟩
  · simp only [List.mem_singleton] at hp
    rw [hp]
  · exact absurd hp (List.not_mem_nil p)

/-- The loop only appends to the position map: the final map is the starting
map followed by a tail of per-step emissions, every one of which satisfies
any property the steps guarantee. -/
theorem foldl_map_decomp (cm : CoilMap α) (k : TrigKernel α)
    (Q : ℤ × SPosDetail α → Prop) :
    ∀ (l : List ℤ) (st : PassState α),
      (∀ a ∈ l, ∀ (v : PassVars α), ∀ p ∈ (passStep cm k a v).2, Q p) →
      ∃ tail, (l.foldl (runStep cm k) st).scsAxisPositionMap =
        st.scsAxisPositionMap ++ tail ∧ ∀ p ∈ tail, Q p := by
  intro l
  induction l with
  | nil =>
    intro st _
    exact ⟨[], by simp, by intro p hp; exact absurd hp (List.not_mem_nil p)⟩
  | cons a t ih =>
    intro st hstep
    obtain ⟨tail, heq, hQ⟩ := ih (runStep cm k st a)
      (fun b hb v p hp => hstep b (List.mem_cons_of_mem a hb) v p hp)
    refine ⟨(passStep cm k a st.vars).2 ++ tail, ?_, ?_⟩
    · rw [List.foldl_cons, heq]
      unfold runStep
      rw [List.append_assoc]
    · intro p hp
      rcases List.mem_append.mp hp with hp | hp
      · exact hstep a (List.mem_cons_self a t) st.vars p hp
      · exact hQ p hp

/-- An emission produced by some listed step regardless of the loop state is
in the final map. -/
theorem foldl_mem_of_step (cm : CoilMap α) (k : TrigKernel α)
    (q : ℤ × SPosDetail α) :
    ∀ (l : List ℤ) (st : PassState α) (a₀ : ℤ), a₀ ∈ l →
      (∀ v : PassVars α, q ∈ (passStep cm k a₀ v).2) →
      q ∈ (l.foldl (runStep cm k) st).scsAxisPositionMap := by
  intro l
  induction l with
  | nil =>
    intro st a₀ h
    exact absurd h (List.not_mem_nil a₀)
  | cons a t ih =>
    intro st a₀ hmem hq
    rcases List.mem_cons.mp hmem with heq0 | hmem
    · subst heq0
      obtain ⟨tail, heq, _⟩ := foldl_map_decomp cm k (fun _ => True) t
        (runStep cm k st a₀) (fun _ _ _ _ _ => trivial)
      rw [List.foldl_cons, heq]
      refine List.mem_append.mpr (Or.inl ?_)
      unfold runStep
      exact List.mem_append.mpr (Or.inr (hq st.vars))
    · exact ih (runStep cm k st a) a₀ hmem hq

theorem mapLookup_eq_of_mem_of_unique (m : List (ℤ × SPosDetail α))
    (key : ℤ) (r : SPosDetail α)
    (hex : ∃ q ∈ m, q.1 = key)
    (huniq : ∀ q ∈ m, q.1 = key → q.2 = r) :
    mapLookup m key = some r := by
  obtain ⟨q, hq, hqk⟩ := hex
  have hsome : (m.reverse.find? (fun p => p.1 = key)).isSome := by
    rw [List.find?_isSome]
    exact ⟨q, List.mem_reverse.mpr hq, by simp [hqk]⟩
  rcases hfind : m.reverse.find? (fun p => p.1 = key) with _ | p
  · rw [hfind] at hsome
    simp at hsome
  · have hkey := List.find?_some hfind
    simp only [decide_eq_true_eq] at hkey
    have hmem := List.mem_reverse.mp (List.mem_of_find?_eq_some hfind)
    unfold mapLookup
    rw [hfind]
    simp only [Option.map_some', Option.some.injEq]
    exact huniq p hmem hkey


theorem cmEmpty_isLastMoveOfLayer (x : α) :
    isLastMoveOfLayer (cmEmpty : CoilMap α) x =
      (false, RTN_NO_RESULTS_D α, false) := by
  simp [isLastMoveOfLayer, GetJoggleUb, GetJoggleLb, cmEmpty, ubIdxA]

theorem cmEmpty_isInTransitionLb (x : α) :
    isInTransitionLb (cmEmpty : CoilMap α) x = none := by
  simp [isInTransitionLb, GetTurnLb, GetFcLb, GetAngleLb, lbCit, cmEmpty,
    ubIdx, NO_FEATURE]

/-- The record built by the start-of-coil post-load populate call (the
`pr1` of `MapCoilStartScsPositions`): populated at coil angle 270 - 360 in
insert-all mode with `isNewHqp` set, no joggle, and both adjustments 0. -/
def socSeedRecord : SPosDetail α :=
  (PopScsPosDetail (((E_COLUMN_AZIMUTH : ℤ) : α) - 360) false
    footRole.FOOT_ROLE_ADVANCING insertMode.IM_ABS_ALL
    (RETREATING_FOOT_START_POS α) (ADVANCING_FOOT_START_POS α)
    [TraceTok.socTrace] false false true false false false 0 0
    initPosDetail).2

theorem aziOfCoilAngle_neg90 : aziOfCoilAngle ((-90 : α)) = 270 := by
  have hq : ((-90 : α)) / 360 = -(1 / 4) := by norm_num
  have hc4 : (⌈(-(1 / 4) : α)⌉ : ℤ) = 0 := by
    rw [Int.ceil_eq_iff]
    constructor <;> norm_num
  have hfm : fmod360 ((-90 : α)) = -90 := by
    simp only [fmod360, truncInt, hq]
    rw [if_neg (by norm_num), hc4]
    norm_num
  have hc90 : (⌈(-90 : α)⌉ : ℤ) = -90 := by
    rw [Int.ceil_eq_iff]
    constructor <;> norm_num
  have ht90 : truncInt ((-90 : α)) = -90 := by
    simp only [truncInt]
    rw [if_neg (by norm_num : ¬ (0 : α) ≤ -90)]
    exact hc90
  simp only [aziOfCoilAngle, hfm, ht90]
  norm_num

theorem socSeedRecord_status :
    (PopScsPosDetail (((E_COLUMN_AZIMUTH : ℤ) : α) - 360) false
      footRole.FOOT_ROLE_ADVANCING insertMode.IM_ABS_ALL
      (RETREATING_FOOT_START_POS α) (ADVANCING_FOOT_START_POS α)
      [TraceTok.socTrace] false false true false false false 0 0
      (initPosDetail : SPosDetail α)).1 = RTN_NO_ERROR := by
  norm_num [PopScsPosDetail, aziOfCoilAngle_neg90, columnOfAzi,
    A_COLUMN_AZIMUTH, B_COLUMN_AZIMUTH, C_COLUMN_AZIMUTH, D_COLUMN_AZIMUTH,
    E_COLUMN_AZIMUTH, F_COLUMN_AZIMUTH]

theorem mapCoilStart_cmEmpty (k : TrigKernel α) (v : PassVars α) :
    (MapCoilStartScsPositions (cmEmpty : CoilMap α) k (SOC_POST_LOAD_ANGLE α)
      (SOC_INIT_RETR_ANGLE α) (SOC_INIT_ADV_ANGLE α) v).2 =
      [(-140, socSeedRecord)] := by
  simp only [MapCoilStartScsPositions, cmEmpty_isInTransitionLb]
  rw [if_pos socSeedRecord_status]
  have hround : round (SOC_POST_LOAD_ANGLE α) = -140 := by
    norm_num [SOC_POST_LOAD_ANGLE, round_eq]
  rw [hround]
  rfl

theorem passStep_cmEmpty_at30_mem (k : TrigKernel α) (v : PassVars α) :
    ((-140 : ℤ), socSeedRecord) ∈
      (passStep (cmEmpty : CoilMap α) k 30 v).2 := by
  simp only [passStep, passSeed, List.mem_append]
  left
  left
  rw [if_pos (by norm_num [INITIAL_COLUMN_ANGLE] :
    (30 : ℤ) = INITIAL_COLUMN_ANGLE)]
  simp only []
  rw [mapCoilStart_cmEmpty]
  exact List.mem_singleton.mpr rfl

theorem passStep_cmEmpty_at140 (k : TrigKernel α) (a : ℤ) (ha : 30 ≤ a)
    (v : PassVars α) :
    ∀ p ∈ (passStep (cmEmpty : CoilMap α) k a v).2,
      p.1 = -140 → p = (-140, socSeedRecord) := by
  intro p hp hk
  simp only [passStep, passSeed, List.mem_append] at hp
  rcases hp with (hp | hp) | hp
  · rcases mem_seed_ite_cond hp with ⟨_, hp⟩ | ⟨_, hp⟩
    · simp only [] at hp
      rw [mapCoilStart_cmEmpty] at hp
      simpa using hp
    · rw [cmEmpty_isLastMoveOfLayer] at hp
      simp only [] at hp
      exact absurd hp (List.not_mem_nil p)
  · have hkey := passAdv_keys _ _ _ _ _ _ _ _ _ _ _ _ _ p hp
    omega
  · have hkey := passRet_keys _ _ _ _ _ _ _ _ _ _ _ _ p hp
    omega

/-- C1 as claimed is violated by the program: already on the empty coil map
the full pass inserts the start-of-coil post-load seed record at key -140
(rounded `SOC_POST_LOAD_ANGLE`) with `isNewHqp` true, `isNewLayer` false and
`isInJoggle` false but adjustment pair (0, 0), whereas the spec's invariant
table demands (+1, +1) for that flag combination. -/
theorem C1_counterexample :
    mapLookup (CalculateAxisMoves (cmEmpty : CoilMap ℝ) realKernel
        initPassState).scsAxisPositionMap (-140) = some ((socSeedRecord : SPosDetail ℝ)) ∧
    ((socSeedRecord : SPosDetail ℝ)).attrs.isNewHqp = true ∧
    ((socSeedRecord : SPosDetail ℝ)).attrs.isNewLayer = false ∧
    ((socSeedRecord : SPosDetail ℝ)).attrs.isInJoggle = false ∧
    ((socSeedRecord : SPosDetail ℝ)).hqpAdj = 0 ∧
    ((socSeedRecord : SPosDetail ℝ)).layerAdj = 0 ∧
    ¬ claimedAdjTable ((socSeedRecord : SPosDetail ℝ)) := by
  obtain ⟨hv0, hca, hij, hnh, hnl, hlt, hll, hh, hl⟩ :=
    popOk_fields _ _ _ _ _ _ _ _ _ _ _ _ _ _ _ (initPosDetail : SPosDetail ℝ) socSeedRecord_status
  have hstep : ∀ a ∈ angleList, ∀ (v : PassVars ℝ),
      ∀ p ∈ (passStep (cmEmpty : CoilMap ℝ) realKernel a v).2,
        p.1 = -140 → p = (-140, (socSeedRecord : SPosDetail ℝ)) := by
    intro a hal v p hp hk
    have ha : (30 : ℤ) ≤ a := by
      simp only [angleList, List.mem_map, List.mem_range,
        INITIAL_COLUMN_ANGLE, COLUMN_INCREMENT] at hal
      obtain ⟨i, _, rfl⟩ := hal
      omega
    
    exact passStep_cmEmpty_at140 realKernel a ha v p hp hk
  have hmem30 : (30 : ℤ) ∈ angleList := by
    simp only [angleList, List.mem_map, List.mem_range]
    exact ⟨0, by norm_num, by norm_num [INITIAL_COLUMN_ANGLE, COLUMN_INCREMENT]⟩
  have hlook : mapLookup (CalculateAxisMoves (cmEmpty : CoilMap ℝ) realKernel
      initPassState).scsAxisPositionMap (-140) = some ((socSeedRecord : SPosDetail ℝ)) := by
    unfold CalculateAxisMoves
    apply mapLookup_eq_of_mem_of_unique
    · exact ⟨((-140 : ℤ), (socSeedRecord : SPosDetail ℝ)),
        foldl_mem_of_step _ _ _ angleList _ 30 hmem30
          (fun v => passStep_cmEmpty_at30_mem realKernel v), rfl⟩
    · intro q hq hqk
      obtain ⟨tail, heq, hQ⟩ := foldl_map_decomp (cmEmpty : CoilMap ℝ)
        realKernel (fun p => p.1 = -140 → p = (-140, (socSeedRecord : SPosDetail ℝ)))
        angleList _ hstep
      rw [heq] at hq
      rcases List.mem_append.mp hq with hq | hq
      · simp [initPassState] at hq
      · rw [hQ q hq hqk]
  refine ⟨hlook, hnh, hnl, hij, hh, hl, ?_⟩
  intro hct
  have h1 := (hct.2.2.1 hnh hnl hij).1
  simp only [socSeedRecord] at h1
  rw [hh] at h1
  norm_num at h1


/-- The coil map of the repeated-run analysis: a non-transition feature row
at -1000 and a transition-start (`fc = "T"`) row at 199400, no joggles.  The
last loop angle 199410 falls 10 degrees into the transition window, so the
pass ends with the F column's adjustment mark still set. -/
def nRow8 (β : Type) [LinearOrderedField β] : CmRow β :=
  ⟨Fc.X, 1, 1, 2, 30, 1000⟩

def tRow8 (β : Type) [LinearOrderedField β] : CmRow β :=
  ⟨Fc.T, 1, 1, 2, 330, 1000⟩

def cm8 (β : Type) [LinearOrderedField β] : CoilMap β :=
  ⟨[((-1000 : β), nRow8 β), ((199400 : β), tRow8 β)], []⟩

theorem cm8_lbCit_low (x : α) (h1 : (-1000 : α) ≤ x) (h2 : x < 199400) :
    lbCit (cm8 α) x = some ((-1000 : α), nRow8 α) := by
  simp only [lbCit, cm8, ubIdx]
  rw [if_pos h1, if_neg (not_le.mpr h2)]
  norm_num

theorem cm8_lbCit_high (x : α) (h1 : (199400 : α) ≤ x) :
    lbCit (cm8 α) x = some ((199400 : α), tRow8 α) := by
  simp only [lbCit, cm8, ubIdx]
  rw [if_pos (le_trans (by norm_num) h1), if_pos h1]
  norm_num

theorem cm8_turn (x : α) (hx : (-1000 : α) ≤ x) : GetTurnLb (cm8 α) x = 2 := by
  rcases lt_or_le x 199400 with h | h
  · simp [GetTurnLb, cm8_lbCit_low x hx h, nRow8]
  · simp [GetTurnLb, cm8_lbCit_high x h, tRow8]

theorem cm8_layer (x : α) (hx : (-1000 : α) ≤ x) :
    GetLayerLb (cm8 α) x = 1 := by
  rcases lt_or_le x 199400 with h | h
  · simp [GetLayerLb, cm8_lbCit_low x hx h, nRow8]
  · simp [GetLayerLb, cm8_lbCit_high x h, tRow8]

theorem cm8_inTrans_low (x : α) (h1 : (-1000 : α) ≤ x) (h2 : x < 199400) :
    isInTransitionLb (cm8 α) x = some (false, x + 1000) := by
  simp only [isInTransitionLb, GetTurnLb, GetFcLb, GetAngleLb,
    cm8_lbCit_low x h1 h2]
  norm_num [NO_FEATURE, nRow8]
  exact ⟨by decide, fun h => absurd h (by decide)⟩

theorem cm8_inTrans_high (x : α) (h1 : (199400 : α) ≤ x)
    (h2 : x ≤ 199400 + TRANS_ARC_DEG α) :
    isInTransitionLb (cm8 α) x = some (true, x - 199400) := by
  have hle : x - 199400 ≤ TRANS_ARC_DEG α := by linarith
  simp only [isInTransitionLb, GetTurnLb, GetFcLb, GetAngleLb,
    cm8_lbCit_high x h1]
  norm_num [NO_FEATURE, tRow8, hle]
  exact fun h => absurd h (by decide)

theorem joggles_nil_isLastMove (cm : CoilMap α) (hj : cm.joggles = [])
    (x : α) : isLastMoveOfLayer cm x = (false, RTN_NO_RESULTS_D α, false) := by
  simp [isLastMoveOfLayer, GetJoggleUb, GetJoggleLb, hj, ubIdxA]

theorem cm8_classifier (x : α) (hx : 0 ≤ x) :
    CalculateJoggleAdjustmentType (cm8 α) x =
      (JA_RET_NOM_ADV_NOM, RTN_NO_RESULTS_D α - x, RTN_NO_RESULTS_D α - x,
        0) := by
  have hub : GetJoggleUb (cm8 α) x = RTN_NO_RESULTS_D α := by
    simp [GetJoggleUb, cm8]
  have hlb : GetJoggleLb (cm8 α) x = RTN_NO_RESULTS_D α := by
    simp [GetJoggleLb, cm8, ubIdxA]
  have hlen : GetJoggleLengthLb (cm8 α) (RTN_NO_RESULTS_D α) = 0 := by
    have ht : GetTurnLb (cm8 α) (RTN_NO_RESULTS_D α) = 2 :=
      cm8_turn _ (by norm_num [RTN_NO_RESULTS_D])
    simp [GetJoggleLengthLb, ht, TURNS_PER_LAYER]
  simp only [CalculateJoggleAdjustmentType, hub, hlb, hlen]
  rw [if_neg, if_neg, if_neg]
  · split_ifs <;> rfl
  · rintro ⟨ha, hb⟩
    rw [JOGGLE_FULL_RETRACT_THRESHOLD, RTN_NO_RESULTS_D] at hb
    linarith
  · rintro ⟨ha, hb⟩
    rw [JOGGLE_RETRACT_ADJ_THRESHOLD, RTN_NO_RESULTS_D] at hb
    linarith
  · rintro ⟨ha, hb⟩
    rw [JOGGLE_RETRACT_ADJ_THRESHOLD, RTN_NO_RESULTS_D] at ha
    linarith


theorem fmod360_small (x : α) (h0 : 0 ≤ x) (h1 : x < 360) :
    fmod360 x = x := by
  have hfl : ⌊x / 360⌋ = 0 := by
    rw [Int.floor_eq_iff]
    constructor
    · simpa using div_nonneg h0 (by norm_num : (0 : α) ≤ 360)
    · have := (div_lt_one (by norm_num : (0 : α) < 360)).mpr h1
      simpa using this
  simp only [fmod360, truncInt]
  rw [if_pos (div_nonneg h0 (by norm_num : (0 : α) ≤ 360)), hfl]
  norm_num

theorem truncInt_intCast (n : ℤ) : truncInt ((n : ℤ) : α) = n := by
  simp [truncInt, Int.floor_intCast, Int.ceil_intCast]

theorem aziSmall (n : ℤ) (h0 : 0 ≤ n) (h1 : n < 360) :
    truncInt (fmod360 ((n : ℤ) : α)) = n := by
  rw [fmod360_small ((n : ℤ) : α) (by exact_mod_cast h0) (by exact_mod_cast h1),
    truncInt_intCast]

theorem isTransAdjustSet_cast (marks : ℕ → Bool) (n : ℤ) (h0 : 0 ≤ n)
    (h1 : n < 360) :
    isTransAdjustSet marks (((n : ℤ) : α)) =
      (if 0 ≤ columnOfAzi n ∧ columnOfAzi n ≤ 5 then
        marks (columnOfAzi n).toNat else false) := by
  simp only [isTransAdjustSet, aziSmall n h0 h1]

theorem isTransAdjustSet_clear (x : α) :
    isTransAdjustSet ClearAllTransAdjust x = false := by
  simp only [isTransAdjustSet, ClearAllTransAdjust]
  split_ifs <;> rfl

/-- The mark array with only the F column (index 5) set, as left behind by
a pass that ends inside a transition window at azimuth 330. -/
def mark5 : ℕ → Bool := fun j => decide ((j : ℤ) = 5)

theorem fmod360_199410 : fmod360 (((199410 : ℤ) : α)) = 330 := by
  have hfl : ⌊((199410 : ℤ) : α) / 360⌋ = 553 := by
    rw [Int.floor_eq_iff]
    push_cast
    constructor
    · rw [le_div_iff (by norm_num : (0 : α) < 360)]
      norm_num
    · rw [div_lt_iff (by norm_num : (0 : α) < 360)]
      norm_num
  simp only [fmod360, truncInt]
  rw [if_pos (by positivity), hfl]
  push_cast
  ring

theorem setTrans_199410 :
    SetTransAdjust ClearAllTransAdjust (((199410 : ℤ) : α)) =
      (mark5, true) := by
  have ht : truncInt (fmod360 (((199410 : ℤ) : α))) = 330 := by
    rw [fmod360_199410]
    have : ((330 : α)) = (((330 : ℤ)) : α) := by push_cast; ring
    rw [this, truncInt_intCast]
  simp only [SetTransAdjust, ht]
  rw [if_pos (by norm_num [columnOfAzi, A_COLUMN_AZIMUTH, B_COLUMN_AZIMUTH,
    C_COLUMN_AZIMUTH, D_COLUMN_AZIMUTH, E_COLUMN_AZIMUTH, F_COLUMN_AZIMUTH])]
  have hcol : columnOfAzi 330 = 5 := by
    norm_num [columnOfAzi, A_COLUMN_AZIMUTH, B_COLUMN_AZIMUTH,
      C_COLUMN_AZIMUTH, D_COLUMN_AZIMUTH, E_COLUMN_AZIMUTH, F_COLUMN_AZIMUTH]
  rw [hcol]
  refine Prod.ext ?_ rfl
  funext j
  by_cases h : (j : ℤ) = 5 <;> simp [h, mark5, ClearAllTransAdjust]


theorem pop_status_cases (coilAngle : α) (isEven : Bool) (role : footRole)
    (mode : insertMode) (fDistPos1 fDistPos2 : α) (trace : List (TraceTok α))
    (isInTransition isInJoggle isNewHqp isNewLayer : Bool)
    (isLastTurn isLastLayer : Bool) (hqpAdj layerAdj : ℤ)
    (pd : SPosDetail α) :
    (PopScsPosDetail coilAngle isEven role mode fDistPos1 fDistPos2 trace
        isInTransition isInJoggle isNewHqp isNewLayer isLastTurn isLastLayer
        hqpAdj layerAdj pd).1 = RTN_ERROR ∨
    (PopScsPosDetail coilAngle isEven role mode fDistPos1 fDistPos2 trace
        isInTransition isInJoggle isNewHqp isNewLayer isLastTurn isLastLayer
        hqpAdj layerAdj pd).1 = RTN_NO_ERROR := by
  unfold PopScsPosDetail
  by_cases hcol : columnOfAzi (aziOfCoilAngle coilAngle) = -1
  · rw [if_pos hcol]
    simp
  · rw [if_neg hcol]
    split_ifs <;> simp

/-- On a valid azimuth every populate call succeeds. -/
theorem pop_ok_of_valid (coilAngle : ℝ) (isEven : Bool) (role : footRole)
    (mode : insertMode) (fDistPos1 fDistPos2 : ℝ) (trace : List (TraceTok ℝ))
    (isInTransition isInJoggle isNewHqp isNewLayer : Bool)
    (isLastTurn isLastLayer : Bool) (hqpAdj layerAdj : ℤ)
    (pd : SPosDetail ℝ) (hv : validAzi (aziOfCoilAngle coilAngle)) :
    (PopScsPosDetail coilAngle isEven role mode fDistPos1 fDistPos2 trace
        isInTransition isInJoggle isNewHqp isNewLayer isLastTurn isLastLayer
        hqpAdj layerAdj pd).1 = RTN_NO_ERROR := by
  rcases pop_status_cases coilAngle isEven role mode fDistPos1 fDistPos2
    trace isInTransition isInJoggle isNewHqp isNewLayer isLastTurn
    isLastLayer hqpAdj layerAdj pd with h | h
  · exact absurd hv ((pop_error_iff_bad_azimuth coilAngle isEven role mode
      fDistPos1 fDistPos2 trace isInTransition isInJoggle isNewHqp isNewLayer
      isLastTurn isLastLayer hqpAdj layerAdj pd).mp h)
  · exact h

/-- On a successful populate the record's in-transition flag is the passed
argument. -/
theorem popOk_inTransition (coilAngle : α) (isEven : Bool) (role : footRole)
    (mode : insertMode) (fDistPos1 fDistPos2 : α) (trace : List (TraceTok α))
    (isInTransition isInJoggle isNewHqp isNewLayer : Bool)
    (isLastTurn isLastLayer : Bool) (hqpAdj layerAdj : ℤ)
    (pd : SPosDetail α)
    (h : (PopScsPosDetail coilAngle isEven role mode fDistPos1 fDistPos2
        trace isInTransition isInJoggle isNewHqp isNewLayer isLastTurn
        isLastLayer hqpAdj layerAdj pd).1 = RTN_NO_ERROR) :
    (PopScsPosDetail coilAngle isEven role mode fDistPos1 fDistPos2 trace
        isInTransition isInJoggle isNewHqp isNewLayer isLastTurn isLastLayer
        hqpAdj layerAdj pd).2.attrs.isInTransition = isInTransition := by
  by_cases hcol : columnOfAzi (aziOfCoilAngle coilAngle) = -1
  · exfalso
    unfold PopScsPosDetail at h
    rw [if_pos hcol] at h
    simp [RTN_ERROR, RTN_NO_ERROR] at h
  · have hrange := columnOfAzi_range _ hcol
    unfold PopScsPosDetail at h ⊢
    rw [if_neg hcol] at h ⊢
    rcases mode with _ | _ | _ | _ | _ <;>
      simp only [] at h ⊢ <;>
      rcases role with _ | _ <;>
      rcases isEven with _ | _ <;>
      simp_all [RTN_ERROR, RTN_NO_ERROR]

/-- Every retreating-part emission carries the in-transition flag it was
passed. -/
theorem passRet_iT (a : ℤ) (isEvenLayer : Bool)
    (jAdjType : joggleAdjustmentType)
    (isLastTurn isLastLayer isJoggleAdj : Bool) (tThisAdj jAdj : α)
    (inTransition2 : Bool) (retreatingColumnTurn : ℤ)
    (trace8 : List (TraceTok α)) (scratch3 : SPosDetail α) :
    ∀ p ∈ (passRet a isEvenLayer jAdjType isLastTurn isLastLayer isJoggleAdj
        tThisAdj jAdj inTransition2 retreatingColumnTurn trace8 scratch3).2,
      p.2.attrs.isInTransition = inTransition2 := by
  intro p hp
  simp only [passRet] at hp
  rcases mem_ite_cond hp with ⟨hok, hp⟩ | ⟨_, hp⟩
  · simp only [List.mem_singleton] at hp
    subst hp
    have := popOk_inTransition _ _ _ _ _ _ _ _ _ _ _ _ _ _ _ _ hok
    simp only []
    exact this
  · exact absurd hp (List.not_mem_nil p)

/-- Every advancing-part emission carries the in-transition flag it was
passed. -/
theorem passAdv_iT (a : ℤ) (isEvenLayer : Bool)
    (jAdjType : joggleAdjustmentType)
    (isLastTurn isLastLayer isJoggleAdj : Bool) (tThisAdj : α)
    (inTransition2 : Bool) (advancingColumnTurn : ℤ)
    (trace6 : List (TraceTok α)) (tAccum2 : α) (marks2 : ℕ → Bool)
    (scratch : SPosDetail α) :
    ∀ p ∈ (passAdv a isEvenLayer jAdjType isLastTurn isLastLayer isJoggleAdj
        tThisAdj inTransition2 advancingColumnTurn trace6 tAccum2 marks2
        scratch).2.2.2.2,
      p.2.attrs.isInTransition = inTransition2 := by
  intro p hp
  simp only [passAdv] at hp
  rcases mem_adv_ite hp with hp | hp
  · simp only [] at hp
    rcases mem_ite_cond hp with ⟨hok, hp⟩ | ⟨_, hp⟩
    · simp only [List.mem_singleton] at hp
      subst hp
      have := popOk_inTransition _ _ _ _ _ _ _ _ _ _ _ _ _ _ _ _ hok
      simp only []
      exact this
    · exact absurd hp (List.not_mem_nil p)
  · rcases mem_adv_ite hp with hp | hp <;>
      (simp only [] at hp; exact absurd hp (List.not_mem_nil p))

/-- On a valid azimuth the retreating part emits exactly one row, keyed
`a - 100`, and the emitted record is the returned scratch detail. -/
theorem passRet_emis_eq (a : ℤ) (isEvenLayer : Bool)
    (jAdjType : joggleAdjustmentType)
    (isLastTurn isLastLayer isJoggleAdj : Bool) (tThisAdj jAdj : ℝ)
    (inTransition2 : Bool) (retreatingColumnTurn : ℤ)
    (trace8 : List (TraceTok ℝ)) (scratch3 : SPosDetail ℝ)
    (hv : validAzi (aziOfCoilAngle ((a : ℤ) : ℝ))) :
    (passRet a isEvenLayer jAdjType isLastTurn isLastLayer isJoggleAdj
        tThisAdj jAdj inTransition2 retreatingColumnTurn trace8 scratch3).2 =
      [(a - 100,
        (passRet a isEvenLayer jAdjType isLastTurn isLastLayer isJoggleAdj
          tThisAdj jAdj inTransition2 retreatingColumnTurn trace8
          scratch3).1)] := by
  simp only [passRet]
  rw [if_pos (pop_ok_of_valid _ _ _ _ _ _ _ _ _ _ _ _ _ _ _ _ hv)]


theorem aziOfCoilAngle_cast (n : ℤ) (h0 : 0 ≤ n) (h1 : n < 360) :
    aziOfCoilAngle ((n : ℤ) : α) = n := by
  simp only [aziOfCoilAngle, aziSmall n h0 h1]
  rw [if_neg (not_lt.mpr h0)]

theorem mapCoilStart_cm8 (k : TrigKernel α) (v : PassVars α) :
    (MapCoilStartScsPositions (cm8 α) k (SOC_POST_LOAD_ANGLE α)
      (SOC_INIT_RETR_ANGLE α) (SOC_INIT_ADV_ANGLE α) v).2 =
      [(-140, socSeedRecord)] := by
  have htrF : isInTransitionLb (cm8 α) (((F_COLUMN_AZIMUTH : ℤ)) : α) =
      some (false, ((F_COLUMN_AZIMUTH : ℤ) : α) + 1000) :=
    cm8_inTrans_low _ (by norm_num [F_COLUMN_AZIMUTH])
      (by norm_num [F_COLUMN_AZIMUTH])
  simp only [MapCoilStartScsPositions, htrF]
  rw [if_pos socSeedRecord_status]
  have hround : round (SOC_POST_LOAD_ANGLE α) = -140 := by
    norm_num [SOC_POST_LOAD_ANGLE, round_eq]
  rw [hround]
  rfl

theorem socSeedRecord_iT :
    (socSeedRecord : SPosDetail ℝ).attrs.isInTransition = false :=
  popOk_inTransition _ _ _ _ _ _ _ _ _ _ _ _ _ _ _ _ socSeedRecord_status

/-- Away from the start-of-coil angle, a coil map whose joggle set is empty
emits only the advancing and retreating rows, keyed `a - 50` and
`a - 100`. -/
theorem passStep_keys_noseed (cm : CoilMap α) (k : TrigKernel α) (a : ℤ)
    (v : PassVars α) (ha : a ≠ INITIAL_COLUMN_ANGLE)
    (hj : cm.joggles = []) :
    ∀ p ∈ (passStep cm k a v).2, p.1 = a - 50 ∨ p.1 = a - 100 := by
  intro p hp
  simp only [passStep, passSeed, List.mem_append] at hp
  rcases hp with (hp | hp) | hp
  · rcases mem_seed_ite_cond hp with ⟨hc, _⟩ | ⟨_, hp⟩
    · exact absurd hc ha
    · rw [joggles_nil_isLastMove cm hj] at hp
      simp only [] at hp
      exact absurd hp (List.not_mem_nil p)
  · exact Or.inl (passAdv_keys _ _ _ _ _ _ _ _ _ _ _ _ _ p hp)
  · exact Or.inr (passRet_keys _ _ _ _ _ _ _ _ _ _ _ _ p hp)

theorem passStep_cm8_keys30 (k : TrigKernel α) (v : PassVars α) :
    ∀ p ∈ (passStep (cm8 α) k 30 v).2,
      p.1 = -140 ∨ p.1 = -20 ∨ p.1 = -70 := by
  intro p hp
  simp only [passStep, passSeed, List.mem_append] at hp
  rcases hp with (hp | hp) | hp
  · rcases mem_seed_ite_cond hp with ⟨_, hp⟩ | ⟨hc, _⟩
    · simp only [] at hp
      rw [mapCoilStart_cm8] at hp
      simp only [List.mem_singleton] at hp
      rw [hp]
      norm_num
    · exact absurd (by norm_num [INITIAL_COLUMN_ANGLE] :
        (30 : ℤ) = INITIAL_COLUMN_ANGLE) hc
  · have h1 := passAdv_keys _ _ _ _ _ _ _ _ _ _ _ _ _ p hp
    norm_num [h1]
  · have h1 := passRet_keys _ _ _ _ _ _ _ _ _ _ _ _ p hp
    norm_num [h1]

theorem valid330 : validAzi (aziOfCoilAngle (((330 : ℤ)) : ℝ)) := by
  rw [aziOfCoilAngle_cast 330 (by norm_num) (by norm_num)]
  norm_num [validAzi]

/-- The step at column angle 330 always emits a row keyed 230 (the
retreating record). -/
theorem passStep_cm8_emits230 (k : TrigKernel ℝ) (v : PassVars ℝ) :
    ∃ p ∈ (passStep (cm8 ℝ) k 330 v).2, p.1 = 230 := by
  simp only [passStep, passSeed, List.mem_append]
  rw [passRet_emis_eq _ _ _ _ _ _ _ _ _ _ _ _ valid330]
  refine ⟨_, Or.inr (List.mem_singleton.mpr rfl), ?_⟩
  norm_num


theorem isLastTurnLb_two (b : Bool) : isLastTurnLb 2 b = false := by
  cases b <;> rfl

theorem mapCoilStart_cm8_fst (k : TrigKernel α) (s1 s2 s3 : α)
    (v : PassVars α) :
    (MapCoilStartScsPositions (cm8 α) k s1 s2 s3 v).1 = v := by
  have htrF : isInTransitionLb (cm8 α) (((F_COLUMN_AZIMUTH : ℤ)) : α) =
      some (false, ((F_COLUMN_AZIMUTH : ℤ) : α) + 1000) :=
    cm8_inTrans_low _ (by norm_num [F_COLUMN_AZIMUTH])
      (by norm_num [F_COLUMN_AZIMUTH])
  simp only [MapCoilStartScsPositions, htrF]

theorem advancingFootMove_noclear (jt : joggleAdjustmentType) (t : α) :
    (advancingFootMove jt false t).2.2.1 = false := by
  unfold advancingFootMove
  split_ifs <;> simp_all

theorem passAdv_marks_notLastTurn (a : ℤ) (isEvenLayer : Bool)
    (jAdjType : joggleAdjustmentType) (isLastLayer isJoggleAdj : Bool)
    (tThisAdj : α) (inTransition2 : Bool) (advancingColumnTurn : ℤ)
    (trace6 : List (TraceTok α)) (tAccum2 : α) (marks2 : ℕ → Bool)
    (scratch : SPosDetail α) :
    (passAdv a isEvenLayer jAdjType false isLastLayer isJoggleAdj tThisAdj
        inTransition2 advancingColumnTurn trace6 tAccum2 marks2
        scratch).2.2.1 = marks2 := by
  rcases ham : advancingFootMove jAdjType false tThisAdj with ⟨d, m, c, e⟩
  have hc : c = false := by
    have h1 := advancingFootMove_noclear jAdjType tThisAdj
    rw [ham] at h1
    exact h1
  subst hc
  simp only [passAdv, ham]
  split_ifs <;> simp_all

theorem passStep_cm8_iT_false (k : TrigKernel ℝ) (a : ℤ) (v : PassVars ℝ)
    (h0 : 0 ≤ a) (hlow : ((a : ℤ) : ℝ) < 199400)
    (hset : isTransAdjustSet v.arrAdjMark ((a : ℤ) : ℝ) = false) :
    ∀ p ∈ (passStep (cm8 ℝ) k a v).2,
      p.2.attrs.isInTransition = false := by
  have h1000 : (-1000 : ℝ) ≤ ((a : ℤ) : ℝ) :=
    le_trans (by norm_num : (-1000 : ℝ) ≤ 0) (by exact_mod_cast h0)
  have hjt := cm8_classifier ((a : ℤ) : ℝ) (by exact_mod_cast h0)
  have htrA := cm8_inTrans_low ((a : ℤ) : ℝ) h1000 hlow
  intro p hp
  simp only [passStep, passSeed, List.mem_append] at hp
  rcases hp with (hp | hp) | hp
  · rcases mem_seed_ite_cond hp with ⟨hc, hp⟩ | ⟨hc, hp⟩
    · simp only [] at hp
      rw [mapCoilStart_cm8] at hp
      simp only [List.mem_singleton] at hp
      rw [hp]
      exact socSeedRecord_iT
    · rw [joggles_nil_isLastMove _ rfl] at hp
      simp only [] at hp
      exact absurd hp (List.not_mem_nil p)
  · rw [passAdv_iT _ _ _ _ _ _ _ _ _ _ _ _ _ p hp]
    by_cases ha : a = INITIAL_COLUMN_ANGLE
    · rw [if_pos ha, mapCoilStart_cm8_fst]
      simp only [hjt, htrA, hset]
      simp
    · rw [if_neg ha, joggles_nil_isLastMove _ rfl]
      simp only [hjt, htrA, hset]
      simp
  · rw [passRet_iT _ _ _ _ _ _ _ _ _ _ _ _ p hp]
    by_cases ha : a = INITIAL_COLUMN_ANGLE
    · rw [if_pos ha, mapCoilStart_cm8_fst]
      simp only [hjt, htrA, hset]
      simp
    · rw [if_neg ha, joggles_nil_isLastMove _ rfl]
      simp only [hjt, htrA, hset]
      simp

theorem passStep_cm8_iT_true (k : TrigKernel ℝ) (a : ℤ) (v : PassVars ℝ)
    (h0 : 0 ≤ a) (hlow : ((a : ℤ) : ℝ) < 199400)
    (ha : a ≠ INITIAL_COLUMN_ANGLE)
    (hset : isTransAdjustSet v.arrAdjMark ((a : ℤ) : ℝ) = true) :
    ∀ p ∈ (passStep (cm8 ℝ) k a v).2,
      p.2.attrs.isInTransition = true := by
  have h1000 : (-1000 : ℝ) ≤ ((a : ℤ) : ℝ) :=
    le_trans (by norm_num : (-1000 : ℝ) ≤ 0) (by exact_mod_cast h0)
  have hjt := cm8_classifier ((a : ℤ) : ℝ) (by exact_mod_cast h0)
  have htrA := cm8_inTrans_low ((a : ℤ) : ℝ) h1000 hlow
  intro p hp
  simp only [passStep, passSeed, List.mem_append] at hp
  rcases hp with (hp | hp) | hp
  · rcases mem_seed_ite_cond hp with ⟨hc, hp⟩ | ⟨hc, hp⟩
    · exact absurd hc ha
    · rw [joggles_nil_isLastMove _ rfl] at hp
      simp only [] at hp
      exact absurd hp (List.not_mem_nil p)
  · rw [passAdv_iT _ _ _ _ _ _ _ _ _ _ _ _ _ p hp]
    rw [if_neg ha, joggles_nil_isLastMove _ rfl]
    simp only [hjt, htrA, hset]
    simp
  · rw [passRet_iT _ _ _ _ _ _ _ _ _ _ _ _ p hp]
    rw [if_neg ha, joggles_nil_isLastMove _ rfl]
    simp only [hjt, htrA, hset]
    simp


theorem passStep_cm8_marks_pres (k : TrigKernel ℝ) (a : ℤ) (v : PassVars ℝ)
    (h0 : 0 ≤ a) (hlow : ((a : ℤ) : ℝ) < 199400)
    (hset : isTransAdjustSet v.arrAdjMark ((a : ℤ) : ℝ) = false) :
    (passStep (cm8 ℝ) k a v).1.arrAdjMark = v.arrAdjMark := by
  have h1000 : (-1000 : ℝ) ≤ ((a : ℤ) : ℝ) :=
    le_trans (by norm_num : (-1000 : ℝ) ≤ 0) (by exact_mod_cast h0)
  have hjt := cm8_classifier ((a : ℤ) : ℝ) (by exact_mod_cast h0)
  have htrA := cm8_inTrans_low ((a : ℤ) : ℝ) h1000 hlow
  have hturn := cm8_turn ((a : ℤ) : ℝ) h1000
  simp only [passStep, passSeed]
  by_cases ha : a = INITIAL_COLUMN_ANGLE
  · rw [if_pos ha, mapCoilStart_cm8_fst]
    simp only [hturn, isLastTurnLb_two, passAdv_marks_notLastTurn, hjt,
      htrA, hset]
    simp
  · rw [if_neg ha, joggles_nil_isLastMove _ rfl]
    simp only [hturn, isLastTurnLb_two, passAdv_marks_notLastTurn, hjt,
      htrA, hset]
    simp

theorem passStep_cm8_marks_199410 (k : TrigKernel ℝ) (v : PassVars ℝ)
    (hmk : v.arrAdjMark = ClearAllTransAdjust) :
    (passStep (cm8 ℝ) k 199410 v).1.arrAdjMark = mark5 := by
  have h1000 : (-1000 : ℝ) ≤ (((199410 : ℤ)) : ℝ) := by norm_num
  have hjt := cm8_classifier (((199410 : ℤ)) : ℝ) (by norm_num)
  have htrH := cm8_inTrans_high (((199410 : ℤ)) : ℝ) (by norm_num)
    (by norm_num [TRANS_ARC_DEG])
  have hturn := cm8_turn (((199410 : ℤ)) : ℝ) h1000
  simp only [passStep, passSeed]
  rw [if_neg (by norm_num [INITIAL_COLUMN_ANGLE] :
    ¬ (199410 : ℤ) = INITIAL_COLUMN_ANGLE), joggles_nil_isLastMove _ rfl]
  simp only [hturn, isLastTurnLb_two, passAdv_marks_notLastTurn, hjt, htrH,
    hmk, setTrans_199410]
  simp

theorem foldl_workhorse (cm : CoilMap α) (k : TrigKernel α)
    (P : PassVars α → Prop) (Q : ℤ × SPosDetail α → Prop) :
    ∀ (l : List ℤ) (st : PassState α), P st.vars →
      (∀ a ∈ l, ∀ v, P v → P (passStep cm k a v).1) →
      (∀ a ∈ l, ∀ v, P v → ∀ p ∈ (passStep cm k a v).2, Q p) →
      ∃ tail, (l.foldl (runStep cm k) st).scsAxisPositionMap =
          st.scsAxisPositionMap ++ tail ∧ (∀ p ∈ tail, Q p) ∧
          P (l.foldl (runStep cm k) st).vars := by
  intro l
  induction l with
  | nil =>
    intro st hP _ _
    exact ⟨[], by simp, by intro p hp; exact absurd hp (List.not_mem_nil p),
      hP⟩
  | cons a t ih =>
    intro st hP hpres hstep
    have hP' : P (runStep cm k st a).vars :=
      hpres a (List.mem_cons_self a t) st.vars hP
    obtain ⟨tail, heq, hQ, hPend⟩ := ih (runStep cm k st a) hP'
      (fun b hb v hv => hpres b (List.mem_cons_of_mem a hb) v hv)
      (fun b hb v hv => hstep b (List.mem_cons_of_mem a hb) v hv)
    refine ⟨(passStep cm k a st.vars).2 ++ tail, ?_, ?_, hPend⟩
    · rw [List.foldl_cons, heq]
      unfold runStep
      rw [List.append_assoc]
    · intro p hp
      rcases List.mem_append.mp hp with hp | hp
      · exact hstep a (List.mem_cons_self a t) st.vars hP p hp
      · exact hQ p hp

theorem foldl_exists_tail (cm : CoilMap α) (k : TrigKernel α) (key a₀ : ℤ) :
    ∀ (l : List ℤ) (st : PassState α), a₀ ∈ l →
      (∀ v, ∃ p ∈ (passStep cm k a₀ v).2, p.1 = key) →
      ∃ tail, (l.foldl (runStep cm k) st).scsAxisPositionMap =
          st.scsAxisPositionMap ++ tail ∧ ∃ q ∈ tail, q.1 = key := by
  intro l
  induction l with
  | nil =>
    intro st h
    exact absurd h (List.not_mem_nil a₀)
  | cons a t ih =>
    intro st hmem hemit
    rcases List.mem_cons.mp hmem with heq0 | hmem
    · subst heq0
      obtain ⟨tail, heq, _⟩ := foldl_map_decomp cm k (fun _ => True) t
        (runStep cm k st a₀) (fun _ _ _ _ _ => trivial)
      obtain ⟨q, hq, hqk⟩ := hemit st.vars
      refine ⟨(passStep cm k a₀ st.vars).2 ++ tail, ?_, q,
        List.mem_append.mpr (Or.inl hq), hqk⟩
      rw [List.foldl_cons, heq]
      unfold runStep
      rw [List.append_assoc]
    · obtain ⟨tail, heq, hex⟩ := ih (runStep cm k st a) hmem hemit
      refine ⟨(passStep cm k a st.vars).2 ++ tail, ?_, ?_⟩
      · rw [List.foldl_cons, heq]
        unfold runStep
        rw [List.append_assoc]
      · obtain ⟨q, hq, hqk⟩ := hex
        exact ⟨q, List.mem_append.mpr (Or.inr hq), hqk⟩

theorem mapLookup_prop_of (m : List (ℤ × SPosDetail α)) (key : ℤ)
    (φ : SPosDetail α → Prop) (hex : ∃ q ∈ m, q.1 = key)
    (hall : ∀ q ∈ m, q.1 = key → φ q.2) :
    ∃ r, mapLookup m key = some r ∧ φ r := by
  obtain ⟨q, hq, hqk⟩ := hex
  have hsome : (m.reverse.find? (fun p => p.1 = key)).isSome := by
    rw [List.find?_isSome]
    exact ⟨q, List.mem_reverse.mpr hq, by simp [hqk]⟩
  rcases hfind : m.reverse.find? (fun p => p.1 = key) with _ | p
  · rw [hfind] at hsome
    simp at hsome
  · have hkey := List.find?_some hfind
    simp only [decide_eq_true_eq] at hkey
    have hmem := List.mem_reverse.mp (List.mem_of_find?_eq_some hfind)
    refine ⟨p.2, ?_, hall p hmem hkey⟩
    unfold mapLookup
    rw [hfind]
    rfl

theorem mapLookup_ne_none_of_exists (m : List (ℤ × SPosDetail α)) (key : ℤ)
    (hex : ∃ q ∈ m, q.1 = key) : mapLookup m key ≠ none := by
  obtain ⟨r, hr, _⟩ := mapLookup_prop_of m key (fun _ => True) hex
    (fun _ _ _ => trivial)
  rw [hr]
  simp

theorem mapLookup_append_no_key (m₁ m₂ : List (ℤ × SPosDetail α)) (key : ℤ)
    (h : ∀ p ∈ m₂, p.1 ≠ key) :
    mapLookup (m₁ ++ m₂) key = mapLookup m₁ key := by
  unfold mapLookup
  rw [List.reverse_append, List.find?_append]
  have h2 : m₂.reverse.find? (fun p => p.1 = key) = none := by
    rw [List.find?_eq_none]
    intro p hp
    simp only [decide_eq_true_eq]
    exact h p (List.mem_reverse.mp hp)
  rw [h2]
  rfl


theorem angleList_decomp_last :
    angleList = ((List.range 3323).map
      (fun (i : ℕ) => INITIAL_COLUMN_ANGLE + COLUMN_INCREMENT * (i : ℤ))) ++
      [199410] := by
  unfold angleList
  rw [show (3324 : ℕ) = 3323 + 1 from rfl, List.range_succ, List.map_append]
  norm_num [INITIAL_COLUMN_ANGLE, COLUMN_INCREMENT]

set_option maxRecDepth 4000 in
theorem angleList_decomp6 :
    angleList = [30, 90, 150, 210, 270, 330] ++
      (List.range 3318).map (fun (i : ℕ) => 390 + 60 * (i : ℤ)) := by
  unfold angleList
  rw [show (3324 : ℕ) = 6 + 3318 from rfl, List.range_add, List.map_append,
    List.map_map]
  have h2 : (List.range 3318).map
      ((fun (i : ℕ) =>
        INITIAL_COLUMN_ANGLE + COLUMN_INCREMENT * (i : ℤ)) ∘
        (fun i => 6 + i)) =
      (List.range 3318).map (fun (i : ℕ) => 390 + 60 * (i : ℤ)) := by
    apply List.map_congr_left
    intro i _
    simp only [Function.comp, INITIAL_COLUMN_ANGLE, COLUMN_INCREMENT]
    push_cast
    ring
  rw [h2]
  have h1 : (List.range 6).map
      (fun (i : ℕ) => INITIAL_COLUMN_ANGLE + COLUMN_INCREMENT * (i : ℤ)) =
      [30, 90, 150, 210, 270, 330] := by
    rfl
  rw [h1]

theorem front_mem (a : ℤ)
    (h : a ∈ (List.range 3323).map
      (fun (i : ℕ) => INITIAL_COLUMN_ANGLE + COLUMN_INCREMENT * (i : ℤ))) :
    0 ≤ a ∧ a ≤ 199350 ∧ ∃ i : ℕ, a = 30 + 60 * (i : ℤ) := by
  simp only [List.mem_map, List.mem_range, INITIAL_COLUMN_ANGLE,
    COLUMN_INCREMENT] at h
  obtain ⟨i, hi, rfl⟩ := h
  refine ⟨by omega, by omega, i, rfl⟩

theorem bTail_mem (b : ℤ)
    (h : b ∈ (List.range 3318).map (fun (i : ℕ) => 390 + 60 * (i : ℤ))) :
    b ≠ 330 ∧ ∃ i : ℕ, b = 30 + 60 * (i : ℤ) := by
  simp only [List.mem_map, List.mem_range] at h
  obtain ⟨i, hi, rfl⟩ := h
  refine ⟨by omega, i + 6, by push_cast; ring⟩

theorem passStep_cm8_no230 (k : TrigKernel ℝ) (a : ℤ) (v : PassVars ℝ)
    (ha : a ≠ 330) (hform : ∃ i : ℕ, a = 30 + 60 * (i : ℤ)) :
    ∀ p ∈ (passStep (cm8 ℝ) k a v).2, p.1 ≠ 230 := by
  intro p hp
  obtain ⟨i, rfl⟩ := hform
  by_cases h30 : (30 + 60 * (i : ℤ)) = 30
  · rw [h30] at hp
    rcases passStep_cm8_keys30 k v p hp with hk | hk | hk <;> omega
  · have hne : (30 + 60 * (i : ℤ)) ≠ INITIAL_COLUMN_ANGLE := by
      rw [INITIAL_COLUMN_ANGLE]
      exact h30
    rcases passStep_keys_noseed (cm8 ℝ) k _ v hne rfl p hp with hk | hk <;>
      omega

theorem mark5_unset (n : ℤ)
    (hn : n = 30 ∨ n = 90 ∨ n = 150 ∨ n = 210 ∨ n = 270) :
    isTransAdjustSet mark5 (((n : ℤ)) : ℝ) = false := by
  rcases hn with rfl | rfl | rfl | rfl | rfl <;>
    (rw [isTransAdjustSet_cast mark5 _ (by norm_num) (by norm_num)]
     norm_num [columnOfAzi, A_COLUMN_AZIMUTH, B_COLUMN_AZIMUTH,
       C_COLUMN_AZIMUTH, D_COLUMN_AZIMUTH, E_COLUMN_AZIMUTH,
       F_COLUMN_AZIMUTH, mark5])

theorem mark5_set330 : isTransAdjustSet mark5 (((330 : ℤ)) : ℝ) = true := by
  rw [isTransAdjustSet_cast mark5 _ (by norm_num) (by norm_num)]
  norm_num [columnOfAzi, A_COLUMN_AZIMUTH, B_COLUMN_AZIMUTH,
    C_COLUMN_AZIMUTH, D_COLUMN_AZIMUTH, E_COLUMN_AZIMUTH, F_COLUMN_AZIMUTH,
    mark5]


/-- C8 as claimed is violated: on a coil whose final loop angle lies inside
a transition window (`cm8`), the F column's adjustment mark survives the end
of the first `CalculateAxisMoves` pass on the builder, so the second pass
takes the marked-but-off-window branch at column angle 330 and overwrites
the record at key 230 with one whose in-transition attribute (and
accumulated-adjustment arithmetic) differ from the first pass's record. -/
theorem C8_counterexample :
    ∃ r1 r2 : SPosDetail ℝ,
      mapLookup (CalculateAxisMoves (cm8 ℝ) realKernel
          initPassState).scsAxisPositionMap 230 = some r1 ∧
      mapLookup (CalculateAxisMoves (cm8 ℝ) realKernel
          (CalculateAxisMoves (cm8 ℝ) realKernel
            initPassState)).scsAxisPositionMap 230 = some r2 ∧
      r1.attrs.isInTransition = false ∧
      r2.attrs.isInTransition = true ∧
      mapLookup (CalculateAxisMoves (cm8 ℝ) realKernel
          (CalculateAxisMoves (cm8 ℝ) realKernel
            initPassState)).scsAxisPositionMap 230 ≠
        mapLookup (CalculateAxisMoves (cm8 ℝ) realKernel
          initPassState).scsAxisPositionMap 230 := by
  set front : List ℤ := (List.range 3323).map
    (fun (i : ℕ) => INITIAL_COLUMN_ANGLE + COLUMN_INCREMENT * (i : ℤ))
    with hfrontdef
  set st1 : PassState ℝ :=
    { initPassState with vars :=
      { (initPassState : PassState ℝ).vars with
          hqpNumberPrev := 0,
          layerNumberPrev := 0,
          inTransition := false,
          tAccumAdj := 0 } } with hst1def
  have hM1eq : CalculateAxisMoves (cm8 ℝ) realKernel initPassState =
      angleList.foldl (runStep (cm8 ℝ) realKernel) st1 := rfl
  -- run 1: marks stay clear over the front of the angle list, and every
  -- key-230 row emitted there has a false in-transition attribute
  obtain ⟨tail1, heq1, hQ1, hPend1⟩ := foldl_workhorse (cm8 ℝ) realKernel
    (fun v => v.arrAdjMark = ClearAllTransAdjust)
    (fun p => p.1 = 230 → p.2.attrs.isInTransition = false)
    front st1 rfl
    (by
      intro a ha v hv
      obtain ⟨h0, hle, hform⟩ := front_mem a ha
      have hlow : ((a : ℤ) : ℝ) < 199400 := by
        have h1 : ((a : ℤ) : ℝ) ≤ 199350 := by exact_mod_cast hle
        linarith
      rw [passStep_cm8_marks_pres realKernel a v h0 hlow
        (by rw [hv]; exact isTransAdjustSet_clear _)]
      exact hv)
    (by
      intro a ha v hv p hp hk
      obtain ⟨h0, hle, hform⟩ := front_mem a ha
      have hlow : ((a : ℤ) : ℝ) < 199400 := by
        have h1 : ((a : ℤ) : ℝ) ≤ 199350 := by exact_mod_cast hle
        linarith
      by_cases h330 : a = 330
      · subst h330
        exact passStep_cm8_iT_false realKernel 330 v h0 hlow
          (by rw [hv]; exact isTransAdjustSet_clear _) p hp
      · exact absurd hk (passStep_cm8_no230 realKernel a v h330 hform p hp))
  have hsplit1 : CalculateAxisMoves (cm8 ℝ) realKernel initPassState =
      runStep (cm8 ℝ) realKernel
        (front.foldl (runStep (cm8 ℝ) realKernel) st1) 199410 := by
    rw [hM1eq, angleList_decomp_last, List.foldl_append]
    rfl
  have hmap1 : (CalculateAxisMoves (cm8 ℝ) realKernel
      initPassState).scsAxisPositionMap =
      tail1 ++ (passStep (cm8 ℝ) realKernel 199410
        (front.foldl (runStep (cm8 ℝ) realKernel) st1).vars).2 := by
    rw [hsplit1]
    show (front.foldl (runStep (cm8 ℝ) realKernel)
        st1).scsAxisPositionMap ++
        (passStep (cm8 ℝ) realKernel 199410
          (front.foldl (runStep (cm8 ℝ) realKernel) st1).vars).2 =
      tail1 ++ (passStep (cm8 ℝ) realKernel 199410
        (front.foldl (runStep (cm8 ℝ) realKernel) st1).vars).2
    rw [heq1]
    rfl
  have hall1 : ∀ q ∈ (CalculateAxisMoves (cm8 ℝ) realKernel
      initPassState).scsAxisPositionMap,
      q.1 = 230 → q.2.attrs.isInTransition = false := by
    rw [hmap1]
    intro q hq hk
    rcases List.mem_append.mp hq with hq | hq
    · exact hQ1 q hq hk
    · exact absurd hk (passStep_cm8_no230 realKernel 199410 _
        (by norm_num) ⟨3323, by norm_num⟩ q hq)
  have hmem330 : (330 : ℤ) ∈ angleList := by
    rw [angleList_decomp6]
    simp
  have hex1 : ∃ q ∈ (CalculateAxisMoves (cm8 ℝ) realKernel
      initPassState).scsAxisPositionMap, q.1 = 230 := by
    obtain ⟨tailE, heqE, q, hq, hk⟩ := foldl_exists_tail (cm8 ℝ) realKernel
      230 330 angleList st1 hmem330 (passStep_cm8_emits230 realKernel)
    rw [hM1eq, heqE]
    exact ⟨q, List.mem_append.mpr (Or.inr hq), hk⟩
  obtain ⟨r1, hr1, hiT1⟩ := mapLookup_prop_of _ 230
    (fun r => r.attrs.isInTransition = false) hex1 hall1
  -- the first run ends with the F column's mark set
  have hvars1 : (CalculateAxisMoves (cm8 ℝ) realKernel
      initPassState).vars.arrAdjMark = mark5 := by
    rw [hsplit1]
    show (passStep (cm8 ℝ) realKernel 199410
      (front.foldl (runStep (cm8 ℝ) realKernel) st1).vars).1.arrAdjMark =
      mark5
    exact passStep_cm8_marks_199410 realKernel _ hPend1
  -- run 2
  set st2 : PassState ℝ :=
    (⟨⟨0, 0, false, 0, mark5,
      (CalculateAxisMoves (cm8 ℝ) realKernel
        initPassState).vars.scsPosDetail⟩,
      (CalculateAxisMoves (cm8 ℝ) realKernel
        initPassState).scsAxisPositionMap⟩ : PassState ℝ) with hst2def
  have hM2eq : CalculateAxisMoves (cm8 ℝ) realKernel
      (CalculateAxisMoves (cm8 ℝ) realKernel initPassState) =
      angleList.foldl (runStep (cm8 ℝ) realKernel) st2 := by
    rw [hst2def, ← hvars1]
    rfl
  have hst2marks : st2.vars.arrAdjMark = mark5 := by rw [hst2def]
  obtain ⟨tail21, heq21, _, hPend21⟩ := foldl_workhorse (cm8 ℝ) realKernel
    (fun v => v.arrAdjMark = mark5) (fun _ => True)
    [30, 90, 150, 210, 270] st2 hst2marks
    (by
      intro a ha v hv
      simp only [List.mem_cons, List.not_mem_nil, or_false] at ha
      have h0 : 0 ≤ a := by rcases ha with rfl | rfl | rfl | rfl | rfl <;>
        norm_num
      have hlow : ((a : ℤ) : ℝ) < 199400 := by
        rcases ha with rfl | rfl | rfl | rfl | rfl <;> norm_num
      rw [passStep_cm8_marks_pres realKernel a v h0 hlow
        (by rw [hv]; exact mark5_unset a ha)]
      exact hv)
    (fun _ _ _ _ _ _ => trivial)
  have hsetMid : isTransAdjustSet
      (([30, 90, 150, 210, 270].foldl (runStep (cm8 ℝ) realKernel)
        st2).vars.arrAdjMark) (((330 : ℤ)) : ℝ) = true := by
    rw [hPend21]
    exact mark5_set330
  have hall330 := passStep_cm8_iT_true realKernel 330
    (([30, 90, 150, 210, 270].foldl (runStep (cm8 ℝ) realKernel) st2).vars)
    (by norm_num) (by norm_num) (by norm_num [INITIAL_COLUMN_ANGLE]) hsetMid
  have hex330 := passStep_cm8_emits230 realKernel
    (([30, 90, 150, 210, 270].foldl (runStep (cm8 ℝ) realKernel) st2).vars)
  obtain ⟨tail23, heq23, hQ23⟩ := foldl_map_decomp (cm8 ℝ) realKernel
    (fun p => p.1 ≠ 230)
    ((List.range 3318).map (fun (i : ℕ) => 390 + 60 * (i : ℤ)))
    (runStep (cm8 ℝ) realKernel
      ([30, 90, 150, 210, 270].foldl (runStep (cm8 ℝ) realKernel) st2) 330)
    (by
      intro b hb v p hp
      obtain ⟨hne, hform⟩ := bTail_mem b hb
      exact passStep_cm8_no230 realKernel b v hne hform p hp)
  have hsplit2 : CalculateAxisMoves (cm8 ℝ) realKernel
      (CalculateAxisMoves (cm8 ℝ) realKernel initPassState) =
      ((List.range 3318).map
        (fun (i : ℕ) => 390 + 60 * (i : ℤ))).foldl
        (runStep (cm8 ℝ) realKernel)
        (runStep (cm8 ℝ) realKernel
          ([30, 90, 150, 210, 270].foldl (runStep (cm8 ℝ) realKernel)
            st2) 330) := by
    rw [hM2eq, angleList_decomp6,
      show ([30, 90, 150, 210, 270, 330] : List ℤ) =
        [30, 90, 150, 210, 270] ++ [330] from rfl,
      List.foldl_append, List.foldl_append]
    rfl
  have hmap2 : (CalculateAxisMoves (cm8 ℝ) realKernel
      (CalculateAxisMoves (cm8 ℝ) realKernel
        initPassState)).scsAxisPositionMap =
      ((([30, 90, 150, 210, 270].foldl (runStep (cm8 ℝ) realKernel)
          st2).scsAxisPositionMap ++
        (passStep (cm8 ℝ) realKernel 330
          (([30, 90, 150, 210, 270].foldl (runStep (cm8 ℝ) realKernel)
            st2).vars)).2) ++ tail23) := by
    rw [hsplit2, heq23]
    rfl
  have hlook2 : mapLookup (CalculateAxisMoves (cm8 ℝ) realKernel
      (CalculateAxisMoves (cm8 ℝ) realKernel
        initPassState)).scsAxisPositionMap 230 =
      mapLookup (passStep (cm8 ℝ) realKernel 330
        (([30, 90, 150, 210, 270].foldl (runStep (cm8 ℝ) realKernel)
          st2).vars)).2 230 := by
    rw [hmap2, mapLookup_append_no_key _ _ _ hQ23,
      mapLookup_append_right _ _ _
        (mapLookup_ne_none_of_exists _ _ hex330)]
  obtain ⟨r2, hr2, hiT2⟩ := mapLookup_prop_of _ 230
    (fun r => r.attrs.isInTransition = true) hex330
    (fun q hq _ => hall330 q hq)
  refine ⟨r1, r2, hr1, by rw [hlook2]; exact hr2, hiT1, hiT2, ?_⟩
  intro hcon
  rw [hlook2, hr2, hr1] at hcon
  have hr12 : r2 = r1 := Option.some.inj hcon
  rw [hr12, hiT1] at hiT2
  cases hiT2

/-- The invariant maintained on the reused member scratch detail
(`scsPosDetail_`) across the per-angle loop: both position vectors still
hold `INITIAL_NO_POSITION` everywhere (the loop only issues selected-mode
populates, which never write them) and the selection entries from 24 up
stay false.  Any two scratches satisfying it produce identical
selected-mode records. -/
def scratchBase (pd : SPosDetail α) : Prop :=
  (∀ i, pd.footPos i = INITIAL_NO_POSITION α) ∧
  (∀ i, pd.colPos i = INITIAL_NO_POSITION α) ∧
  (∀ j, 24 ≤ j → pd.selAxes j = false)

theorem scratchBase_initPosDetail :
    scratchBase (initPosDetail : SPosDetail α) :=
  ⟨fun _ => rfl, fun _ => rfl, fun _ _ => rfl⟩

theorem scratchBase_SetSelectedScsAxis (index : ℤ) (dist : α)
    (pd : SPosDetail α) (mode : insertMode) (hb : scratchBase pd) :
    scratchBase (SetSelectedScsAxis index dist pd mode) := by
  refine ⟨fun i => hb.1 i, fun i => hb.2.1 i, fun j hj => ?_⟩
  simp only [SetSelectedScsAxis]
  rw [if_neg (by omega : ¬ (1 ≤ j ∧ j ≤ 23))]
  exact hb.2.2 j hj

theorem scratchBase_popSelErrorDetail (coilAngle : α)
    (tr : List (TraceTok α)) (tok : TraceTok α) (pd : SPosDetail α)
    (hb : scratchBase pd) :
    scratchBase (popSelErrorDetail coilAngle tr tok pd) := by
  refine ⟨fun i => hb.1 i, fun i => hb.2.1 i, fun j hj => ?_⟩
  simp only [popSelErrorDetail, UnselectAllScsAxes]
  rw [if_neg (by omega : ¬ (1 ≤ j ∧ j ≤ 23))]
  exact hb.2.2 j hj

/-- The success record of a selected-mode populate call is the same for any
two incoming details satisfying the scratch invariant: its position vectors
come out as the shared constant vectors, the selection bits below 24 are
fully overwritten, and the remaining fields are argument-determined. -/
theorem finish_congr (index : ℤ) (dist : α) (mode : insertMode)
    (A : PosAttributes α) (hA lA : ℤ) (pd pd' : SPosDetail α)
    (hb : scratchBase pd) (hb' : scratchBase pd') :
    SPosDetail.mk pd.footPos pd.colPos
      (fun j => if j = 0 then true
        else (SetSelectedScsAxis index dist pd mode).selAxes j)
      (SetSelectedScsAxis index dist pd mode).selDetail A hA lA =
    SPosDetail.mk pd'.footPos pd'.colPos
      (fun j => if j = 0 then true
        else (SetSelectedScsAxis index dist pd' mode).selAxes j)
      (SetSelectedScsAxis index dist pd' mode).selDetail A hA lA := by
  have hf : pd.footPos = pd'.footPos := by
    funext i
    rw [hb.1 i, hb'.1 i]
  have hc : pd.colPos = pd'.colPos := by
    funext i
    rw [hb.2.1 i, hb'.2.1 i]
  have hs : (fun j => if j = 0 then true
      else (SetSelectedScsAxis index dist pd mode).selAxes j) =
      (fun j => if j = 0 then true
        else (SetSelectedScsAxis index dist pd' mode).selAxes j) := by
    funext j
    by_cases hj0 : j = 0
    · rw [if_pos hj0, if_pos hj0]
    · rw [if_neg hj0, if_neg hj0]
      simp only [SetSelectedScsAxis]
      by_cases hjr : 1 ≤ j ∧ j ≤ 23
      · rw [if_pos hjr, if_pos hjr]
      · rw [if_neg hjr, if_neg hjr, hb.2.2 j (by omega),
          hb'.2.2 j (by omega)]
  rw [hf, hc, hs]
  simp [SetSelectedScsAxis]

theorem scratchBase_finishRecord (index : ℤ) (dist : α) (mode : insertMode)
    (A : PosAttributes α) (hA lA : ℤ) (pd : SPosDetail α)
    (hb : scratchBase pd) :
    scratchBase (SPosDetail.mk pd.footPos pd.colPos
      (fun j => if j = 0 then true
        else (SetSelectedScsAxis index dist pd mode).selAxes j)
      (SetSelectedScsAxis index dist pd mode).selDetail A hA lA) := by
  refine ⟨fun i => hb.1 i, fun i => hb.2.1 i, fun j hj => ?_⟩
  simp only [SetSelectedScsAxis]
  rw [if_neg (by omega : ¬ j = 0), if_neg (by omega : ¬ (1 ≤ j ∧ j ≤ 23))]
  exact hb.2.2 j hj

theorem advancingFootMove_mode_sel3 (jt : joggleAdjustmentType)
    (lt : Bool) (t : α) :
    (advancingFootMove jt lt t).2.1 = insertMode.IM_REL_SEL ∨
    (advancingFootMove jt lt t).2.1 = insertMode.IM_ABS_SEL ∨
    (advancingFootMove jt lt t).2.1 = insertMode.IM_ABS_UPDATE_SEL := by
  unfold advancingFootMove
  split_ifs <;> simp

theorem retreatingFootMove_mode_sel3 (jt : joggleAdjustmentType)
    (lt : Bool) (t j : α) :
    (retreatingFootMove jt lt t j).2.1 = insertMode.IM_REL_SEL ∨
    (retreatingFootMove jt lt t j).2.1 = insertMode.IM_ABS_SEL ∨
    (retreatingFootMove jt lt t j).2.1 = insertMode.IM_ABS_UPDATE_SEL := by
  unfold retreatingFootMove
  split_ifs <;> simp

/-- A selected-mode populate call, on any two incoming details satisfying
the scratch invariant: the status is the same, on success the produced
records are equal, and both outgoing details satisfy the invariant
again. -/
theorem popEmit_congr (c : α) (iE : Bool) (role : footRole)
    (mode : insertMode)
    (hm : mode = insertMode.IM_REL_SEL ∨ mode = insertMode.IM_ABS_SEL ∨
      mode = insertMode.IM_ABS_UPDATE_SEL)
    (f1 f2 : α) (tr : List (TraceTok α)) (iT iJ nh nl lt ll : Bool)
    (hA lA : ℤ) (pd pd' : SPosDetail α)
    (hb : scratchBase pd) (hb' : scratchBase pd') :
    (PopScsPosDetail c iE role mode f1 f2 tr iT iJ nh nl lt ll hA lA pd).1 =
      (PopScsPosDetail c iE role mode f1 f2 tr iT iJ nh nl lt ll hA lA
        pd').1 ∧
    ((PopScsPosDetail c iE role mode f1 f2 tr iT iJ nh nl lt ll hA lA
        pd).1 = RTN_NO_ERROR →
      (PopScsPosDetail c iE role mode f1 f2 tr iT iJ nh nl lt ll hA lA
        pd).2 =
      (PopScsPosDetail c iE role mode f1 f2 tr iT iJ nh nl lt ll hA lA
        pd').2) ∧
    scratchBase (PopScsPosDetail c iE role mode f1 f2 tr iT iJ nh nl lt ll
      hA lA pd).2 ∧
    scratchBase (PopScsPosDetail c iE role mode f1 f2 tr iT iJ nh nl lt ll
      hA lA pd').2 := by
  have hnotall : ¬ (mode = insertMode.IM_ABS_ALL ∨
      mode = insertMode.IM_REL_ALL) := by
    rcases hm with h | h | h <;> subst h <;> simp
  have hne : ¬ (RTN_ERROR = RTN_NO_ERROR) := by
    norm_num [RTN_ERROR, RTN_NO_ERROR]
  simp only [PopScsPosDetail]
  by_cases hcol : columnOfAzi (aziOfCoilAngle c) = -1
  · rw [if_pos hcol, if_pos hcol]
    exact ⟨rfl, fun h => absurd h hne, hb, hb'⟩
  · rw [if_neg hcol, if_neg hcol, if_neg hnotall, if_neg hnotall,
      if_pos hm, if_pos hm]
    split_ifs with hr1 hg1 hr2 hg2
    · have hrng : 1 ≤ columnOfAzi (aziOfCoilAngle c) * 2 + 1 ∧
          columnOfAzi (aziOfCoilAngle c) * 2 + 1 ≤ COLUMN_COUNT * 2 := by
        unfold COLUMN_COUNT
        omega
      unfold SetSelectedScsAxisL
      rw [if_pos hrng, if_pos hrng]
      exact ⟨rfl, fun _ => finish_congr _ _ _ _ _ _ _ _ hb hb',
        scratchBase_finishRecord _ _ _ _ _ _ _ hb,
        scratchBase_finishRecord _ _ _ _ _ _ _ hb'⟩
    · exact ⟨rfl, fun h => absurd h hne,
        scratchBase_popSelErrorDetail _ _ _ _ hb,
        scratchBase_popSelErrorDetail _ _ _ _ hb'⟩
    · have hrng : 1 ≤ columnOfAzi (aziOfCoilAngle c) * 2 + 2 ∧
          columnOfAzi (aziOfCoilAngle c) * 2 + 2 ≤ COLUMN_COUNT * 2 := by
        unfold COLUMN_COUNT
        omega
      unfold SetSelectedScsAxisL
      rw [if_pos hrng, if_pos hrng]
      exact ⟨rfl, fun _ => finish_congr _ _ _ _ _ _ _ _ hb hb',
        scratchBase_finishRecord _ _ _ _ _ _ _ hb,
        scratchBase_finishRecord _ _ _ _ _ _ _ hb'⟩
    · exact ⟨rfl, fun h => absurd h hne,
        scratchBase_popSelErrorDetail _ _ _ _ hb,
        scratchBase_popSelErrorDetail _ _ _ _ hb'⟩
    · exact ⟨rfl, fun h => absurd h hne,
        scratchBase_popSelErrorDetail _ _ _ _ hb,
        scratchBase_popSelErrorDetail _ _ _ _ hb'⟩

theorem emit_congr {β : Type} (st1 st2 : ℤ) (r1 r2 : β) (kk : ℤ)
    (hst : st1 = st2) (hrec : st1 = RTN_NO_ERROR → r1 = r2) :
    (if st1 = RTN_NO_ERROR then [(kk, r1)] else []) =
    (if st2 = RTN_NO_ERROR then [(kk, r2)] else []) := by
  subst hst
  by_cases h : st1 = RTN_NO_ERROR
  · rw [if_pos h, if_pos h, hrec h]
  · rw [if_neg h, if_neg h]

/-- The retreating-record part of the loop body, on two scratches
satisfying the invariant: the emission is identical and the outgoing
scratch details keep the invariant. -/
theorem passRet_congr (a : ℤ) (iE : Bool) (jt : joggleAdjustmentType)
    (lt ll ja : Bool) (t j : α) (i2 : Bool) (rt : ℤ)
    (tr : List (TraceTok α)) (s s' : SPosDetail α)
    (hb : scratchBase s) (hb' : scratchBase s') :
    (passRet a iE jt lt ll ja t j i2 rt tr s).2 =
      (passRet a iE jt lt ll ja t j i2 rt tr s').2 ∧
    scratchBase (passRet a iE jt lt ll ja t j i2 rt tr s).1 ∧
    scratchBase (passRet a iE jt lt ll ja t j i2 rt tr s').1 := by
  obtain ⟨h1, h2, h3, h4⟩ := popEmit_congr ((a : ℤ) : α) iE
    footRole.FOOT_ROLE_RETREATING (retreatingFootMove jt lt t j).2.1
    (retreatingFootMove_mode_sel3 jt lt t j)
    (retreatingFootMove jt lt t j).1 0
    (if (retreatingFootMove jt lt t j).2.2 = true then
      tr ++ [TraceTok.retLogicError] else tr)
    i2 ja false false lt ll
    (if (lt && ll && ja) = true then (-1 : ℤ) else 0)
    (if (lt && ja) = true then (-1 : ℤ) else 0) s s' hb hb'
  refine ⟨?_, ?_, ?_⟩
  · simp only [passRet]
    exact emit_congr _ _ _ _ _ h1 (fun hok => by rw [h2 hok])
  · simp only [passRet]
    exact ⟨fun i => h3.1 i, fun i => h3.2.1 i, fun jx hj => h3.2.2 jx hj⟩
  · simp only [passRet]
    exact ⟨fun i => h4.1 i, fun i => h4.2.1 i, fun jx hj => h4.2.2 jx hj⟩

/-- The advancing-record part of the loop body, on two scratches
satisfying the invariant: the trace, accumulator, marks and emission
results are identical, and the outgoing scratch details keep the
invariant. -/
theorem passAdv_congr (a : ℤ) (iE : Bool) (jt : joggleAdjustmentType)
    (lt ll ja : Bool) (t : α) (i2 : Bool) (act : ℤ)
    (tr : List (TraceTok α)) (tac : α) (mk : ℕ → Bool)
    (s s' : SPosDetail α) (hb : scratchBase s) (hb' : scratchBase s') :
    (passAdv a iE jt lt ll ja t i2 act tr tac mk s).1 =
      (passAdv a iE jt lt ll ja t i2 act tr tac mk s').1 ∧
    (passAdv a iE jt lt ll ja t i2 act tr tac mk s).2.1 =
      (passAdv a iE jt lt ll ja t i2 act tr tac mk s').2.1 ∧
    (passAdv a iE jt lt ll ja t i2 act tr tac mk s).2.2.1 =
      (passAdv a iE jt lt ll ja t i2 act tr tac mk s').2.2.1 ∧
    (passAdv a iE jt lt ll ja t i2 act tr tac mk s).2.2.2.2 =
      (passAdv a iE jt lt ll ja t i2 act tr tac mk s').2.2.2.2 ∧
    scratchBase (passAdv a iE jt lt ll ja t i2 act tr tac mk s).2.2.2.1 ∧
    scratchBase (passAdv a iE jt lt ll ja t i2 act tr tac mk s').2.2.2.1 := by
  obtain ⟨h1, h2, h3, h4⟩ := popEmit_congr ((a : ℤ) : α) iE
    footRole.FOOT_ROLE_ADVANCING (advancingFootMove jt lt t).2.1
    (advancingFootMove_mode_sel3 jt lt t)
    (advancingFootMove jt lt t).1 0
    (if (advancingFootMove jt lt t).2.2.2 = true then
      tr ++ [TraceTok.advLogicError] else tr)
    i2 ja false false lt ll
    (if (lt && ll && ja) = true then (-1 : ℤ) else 0)
    (if (lt && ja) = true then (-1 : ℤ) else 0) s s' hb hb'
  refine ⟨?_, ?_, ?_, ?_, ?_, ?_⟩
  · rcases ll
    · rfl
    · rcases lt
      · rfl
      · rfl
  · rcases ll
    · rfl
    · rcases lt
      · rfl
      · rfl
  · rcases ll
    · rfl
    · rcases lt
      · rfl
      · rfl
  · rcases ll
    · exact emit_congr _ _ _ _ _ h1 (fun hok => by rw [h2 hok])
    · rcases lt
      · rfl
      · rfl
  · rcases ll
    · exact ⟨fun i => h3.1 i, fun i => h3.2.1 i, fun jx hj => h3.2.2 jx hj⟩
    · rcases lt
      · exact hb
      · exact hb
  · rcases ll
    · exact ⟨fun i => h4.1 i, fun i => h4.2.1 i, fun jx hj => h4.2.2 jx hj⟩
    · rcases lt
      · exact hb'
      · exact hb'

/-- The start-of-coil seeding, on two loop states agreeing everywhere
except the scratch detail: the emitted rows coincide, the outgoing state
fields other than the scratch coincide, and the scratch passes through
untouched. -/
theorem mapCoilStart_congr (cm : CoilMap α) (k : TrigKernel α)
    (s1 s2 s3 : α) (u u' : PassVars α)
    (h1 : u.hqpNumberPrev = u'.hqpNumberPrev)
    (h2 : u.layerNumberPrev = u'.layerNumberPrev)
    (h3 : u.inTransition = u'.inTransition)
    (h4 : u.tAccumAdj = u'.tAccumAdj)
    (h5 : u.arrAdjMark = u'.arrAdjMark) :
    (MapCoilStartScsPositions cm k s1 s2 s3 u).2 =
      (MapCoilStartScsPositions cm k s1 s2 s3 u').2 ∧
    (MapCoilStartScsPositions cm k s1 s2 s3 u).1.hqpNumberPrev =
      (MapCoilStartScsPositions cm k s1 s2 s3 u').1.hqpNumberPrev ∧
    (MapCoilStartScsPositions cm k s1 s2 s3 u).1.layerNumberPrev =
      (MapCoilStartScsPositions cm k s1 s2 s3 u').1.layerNumberPrev ∧
    (MapCoilStartScsPositions cm k s1 s2 s3 u).1.inTransition =
      (MapCoilStartScsPositions cm k s1 s2 s3 u').1.inTransition ∧
    (MapCoilStartScsPositions cm k s1 s2 s3 u).1.tAccumAdj =
      (MapCoilStartScsPositions cm k s1 s2 s3 u').1.tAccumAdj ∧
    (MapCoilStartScsPositions cm k s1 s2 s3 u).1.arrAdjMark =
      (MapCoilStartScsPositions cm k s1 s2 s3 u').1.arrAdjMark ∧
    (MapCoilStartScsPositions cm k s1 s2 s3 u).1.scsPosDetail =
      u.scsPosDetail ∧
    (MapCoilStartScsPositions cm k s1 s2 s3 u').1.scsPosDetail =
      u'.scsPosDetail := by
  simp only [MapCoilStartScsPositions]
  rcases htr : isInTransitionLb cm ((F_COLUMN_AZIMUTH : ℤ) : α) with _ | ⟨b, d⟩
  · exact ⟨rfl, h1, h2, h3, h4, h5, rfl, rfl⟩
  · rcases b
    · exact ⟨rfl, h1, h2, h3, h4, h5, rfl, rfl⟩
    · refine ⟨rfl, h1, h2, h3, rfl, ?_, rfl, rfl⟩
      exact congrArg
        (fun m => (SetTransAdjust m ((F_COLUMN_AZIMUTH : ℤ) : α)).1) h5

/-- The seeding block of the loop body, on two loop states sharing all
fields but the scratch: the loop-variable outputs agree field by field,
the scratch passes through, and the emitted rows and the trace agree. -/
theorem passSeed_congr (cm : CoilMap α) (k : TrigKernel α) (a : ℤ)
    (c1 c2 : ℤ) (c3 : Bool) (c4 : α) (c5 : ℕ → Bool)
    (s s' : SPosDetail α) :
    (passSeed cm k a ⟨c1, c2, c3, c4, c5, s⟩).1.hqpNumberPrev =
      (passSeed cm k a ⟨c1, c2, c3, c4, c5, s'⟩).1.hqpNumberPrev ∧
    (passSeed cm k a ⟨c1, c2, c3, c4, c5, s⟩).1.layerNumberPrev =
      (passSeed cm k a ⟨c1, c2, c3, c4, c5, s'⟩).1.layerNumberPrev ∧
    (passSeed cm k a ⟨c1, c2, c3, c4, c5, s⟩).1.inTransition =
      (passSeed cm k a ⟨c1, c2, c3, c4, c5, s'⟩).1.inTransition ∧
    (passSeed cm k a ⟨c1, c2, c3, c4, c5, s⟩).1.tAccumAdj =
      (passSeed cm k a ⟨c1, c2, c3, c4, c5, s'⟩).1.tAccumAdj ∧
    (passSeed cm k a ⟨c1, c2, c3, c4, c5, s⟩).1.arrAdjMark =
      (passSeed cm k a ⟨c1, c2, c3, c4, c5, s'⟩).1.arrAdjMark ∧
    (passSeed cm k a ⟨c1, c2, c3, c4, c5, s⟩).1.scsPosDetail = s ∧
    (passSeed cm k a ⟨c1, c2, c3, c4, c5, s'⟩).1.scsPosDetail = s' ∧
    (passSeed cm k a ⟨c1, c2, c3, c4, c5, s⟩).2.1 =
      (passSeed cm k a ⟨c1, c2, c3, c4, c5, s'⟩).2.1 ∧
    (passSeed cm k a ⟨c1, c2, c3, c4, c5, s⟩).2.2 =
      (passSeed cm k a ⟨c1, c2, c3, c4, c5, s'⟩).2.2 := by
  by_cases ha : a = INITIAL_COLUMN_ANGLE
  · simp only [passSeed]
    rw [if_pos ha, if_pos ha]
    have H := mapCoilStart_congr cm k (SOC_POST_LOAD_ANGLE α)
      (SOC_INIT_RETR_ANGLE α) (SOC_INIT_ADV_ANGLE α)
      (⟨1, 1, c3, c4, c5, s⟩ : PassVars α)
      (⟨1, 1, c3, c4, c5, s'⟩ : PassVars α) rfl rfl rfl rfl rfl
    exact ⟨H.2.1, H.2.2.1, H.2.2.2.1, H.2.2.2.2.1, H.2.2.2.2.2.1,
      H.2.2.2.2.2.2.1, H.2.2.2.2.2.2.2, H.1, rfl⟩
  · simp only [passSeed]
    rw [if_neg ha, if_neg ha]
    rcases hlm : isLastMoveOfLayer cm ((a : ℤ) : α) with ⟨fl, jang, w⟩
    rcases fl
    · exact ⟨rfl, rfl, rfl, rfl, rfl, rfl, rfl, rfl, rfl⟩
    · simp only []
      split_ifs <;>
        exact ⟨rfl, rfl, rfl, rfl, rfl, rfl, rfl, rfl, rfl⟩

set_option maxHeartbeats 1600000 in
/-- One loop iteration on two loop states that agree on every variable but
the reused scratch detail (both satisfying the scratch invariant): the
emitted rows are identical, and the outgoing states again agree on every
variable but the scratch, which keeps the invariant. -/
theorem passStep_sim (cm : CoilMap α) (k : TrigKernel α) (a : ℤ)
    (c1 c2 : ℤ) (c3 : Bool) (c4 : α) (c5 : ℕ → Bool)
    (s s' : SPosDetail α) (hbs : scratchBase s) (hbs' : scratchBase s') :
    (passStep cm k a ⟨c1, c2, c3, c4, c5, s⟩).2 =
      (passStep cm k a ⟨c1, c2, c3, c4, c5, s'⟩).2 ∧
    (passStep cm k a ⟨c1, c2, c3, c4, c5, s⟩).1.hqpNumberPrev =
      (passStep cm k a ⟨c1, c2, c3, c4, c5, s'⟩).1.hqpNumberPrev ∧
    (passStep cm k a ⟨c1, c2, c3, c4, c5, s⟩).1.layerNumberPrev =
      (passStep cm k a ⟨c1, c2, c3, c4, c5, s'⟩).1.layerNumberPrev ∧
    (passStep cm k a ⟨c1, c2, c3, c4, c5, s⟩).1.inTransition =
      (passStep cm k a ⟨c1, c2, c3, c4, c5, s'⟩).1.inTransition ∧
    (passStep cm k a ⟨c1, c2, c3, c4, c5, s⟩).1.tAccumAdj =
      (passStep cm k a ⟨c1, c2, c3, c4, c5, s'⟩).1.tAccumAdj ∧
    (passStep cm k a ⟨c1, c2, c3, c4, c5, s⟩).1.arrAdjMark =
      (passStep cm k a ⟨c1, c2, c3, c4, c5, s'⟩).1.arrAdjMark ∧
    scratchBase (passStep cm k a ⟨c1, c2, c3, c4, c5, s⟩).1.scsPosDetail ∧
    scratchBase
      (passStep cm k a ⟨c1, c2, c3, c4, c5, s'⟩).1.scsPosDetail := by
  obtain ⟨S1, S2, S3, S4, S5, Ssc, Ssc', SE, ST⟩ :=
    passSeed_congr cm k a c1 c2 c3 c4 c5 s s'
  simp only [passStep]
  simp only [S1, S2, S3, S4, S5, SE, ST, Ssc, Ssc']
  rw [(passAdv_congr _ _ _ _ _ _ _ _ _ _ _ _ s s' hbs hbs').1,
    (passAdv_congr _ _ _ _ _ _ _ _ _ _ _ _ s s' hbs hbs').2.1,
    (passAdv_congr _ _ _ _ _ _ _ _ _ _ _ _ s s' hbs hbs').2.2.1,
    (passAdv_congr _ _ _ _ _ _ _ _ _ _ _ _ s s' hbs hbs').2.2.2.1]
  refine ⟨?_, ?_, ?_, ?_, ?_, ?_, ?_, ?_⟩
  · exact congrArg (HAppend.hAppend _)
      (passRet_congr _ _ _ _ _ _ _ _ _ _ _ _ _
        (passAdv_congr _ _ _ _ _ _ _ _ _ _ _ _ s s' hbs hbs').2.2.2.2.1
        (passAdv_congr _ _ _ _ _ _ _ _ _ _ _ _ s s' hbs
          hbs').2.2.2.2.2).1
  · first
      | rfl
      | trivial
  · first
      | rfl
      | trivial
  · first
      | rfl
      | trivial
  · first
      | rfl
      | trivial
  · first
      | rfl
      | trivial
  · exact (passRet_congr _ _ _ _ _ _ _ _ _ _ _ _ initPosDetail
      (passAdv_congr _ _ _ _ _ _ _ _ _ _ _ _ s s' hbs hbs').2.2.2.2.1
      scratchBase_initPosDetail).2.1
  · exact (passRet_congr _ _ _ _ _ _ _ _ _ _ _ initPosDetail _
      scratchBase_initPosDetail
      (passAdv_congr _ _ _ _ _ _ _ _ _ _ _ _ s s' hbs
        hbs').2.2.2.2.2).2.2

theorem foldl_scratchBase (cm : CoilMap α) (k : TrigKernel α) :
    ∀ (l : List ℤ) (st : PassState α), scratchBase st.vars.scsPosDetail →
      scratchBase ((l.foldl (runStep cm k) st).vars.scsPosDetail) := by
  intro l
  induction l with
  | nil =>
    intro st h
    exact h
  | cons a tl ih =>
    intro st h
    rw [List.foldl_cons]
    apply ih
    obtain ⟨⟨g1, g2, g3, g4, g5, sv⟩, m⟩ := st
    have hb : scratchBase sv := h
    exact (passStep_sim cm k a g1 g2 g3 g4 g5 sv sv hb
      hb).2.2.2.2.2.2.1

/-- Running the loop over the same angle list from two states that agree on
everything but the scratch detail appends the same row transcript to both
maps. -/
theorem foldl_sim (cm : CoilMap α) (k : TrigKernel α) :
    ∀ (l : List ℤ) (v w : PassVars α),
      v.hqpNumberPrev = w.hqpNumberPrev →
      v.layerNumberPrev = w.layerNumberPrev →
      v.inTransition = w.inTransition →
      v.tAccumAdj = w.tAccumAdj →
      v.arrAdjMark = w.arrAdjMark →
      scratchBase v.scsPosDetail → scratchBase w.scsPosDetail →
      ∀ (m₁ m₂ : List (ℤ × SPosDetail α)),
        ∃ t, (l.foldl (runStep cm k)
            ⟨v, m₁⟩).scsAxisPositionMap = m₁ ++ t ∧
          (l.foldl (runStep cm k) ⟨w, m₂⟩).scsAxisPositionMap =
            m₂ ++ t := by
  intro l
  induction l with
  | nil =>
    intro v w _ _ _ _ _ _ _ m₁ m₂
    exact ⟨[], by simp, by simp⟩
  | cons a tl ih =>
    intro v w h1 h2 h3 h4 h5 hbv hbw m₁ m₂
    obtain ⟨c1, c2, c3, c4, c5, sv⟩ := v
    obtain ⟨d1, d2, d3, d4, d5, sw⟩ := w
    have e1 : c1 = d1 := h1
    have e2 : c2 = d2 := h2
    have e3 : c3 = d3 := h3
    have e4 : c4 = d4 := h4
    have e5 : c5 = d5 := h5
    subst e1
    subst e2
    subst e3
    subst e4
    subst e5
    have hb1 : scratchBase sv := hbv
    have hb2 : scratchBase sw := hbw
    obtain ⟨hE, g1, g2, g3, g4, g5, gb, gb'⟩ :=
      passStep_sim cm k a c1 c2 c3 c4 c5 sv sw hb1 hb2
    rw [List.foldl_cons, List.foldl_cons]
    obtain ⟨t, ht1, ht2⟩ := ih (passStep cm k a ⟨c1, c2, c3, c4, c5, sv⟩).1
      (passStep cm k a ⟨c1, c2, c3, c4, c5, sw⟩).1 g1 g2 g3 g4 g5 gb gb'
      (m₁ ++ (passStep cm k a ⟨c1, c2, c3, c4, c5, sv⟩).2)
      (m₂ ++ (passStep cm k a ⟨c1, c2, c3, c4, c5, sw⟩).2)
    refine ⟨(passStep cm k a ⟨c1, c2, c3, c4, c5, sv⟩).2 ++ t, ?_, ?_⟩
    · have hrs : runStep cm k (⟨⟨c1, c2, c3, c4, c5, sv⟩, m₁⟩ :
          PassState α) a =
          ⟨(passStep cm k a ⟨c1, c2, c3, c4, c5, sv⟩).1,
            m₁ ++ (passStep cm k a ⟨c1, c2, c3, c4, c5, sv⟩).2⟩ := rfl
      rw [hrs, ht1, List.append_assoc]
    · have hrs : runStep cm k (⟨⟨c1, c2, c3, c4, c5, sw⟩, m₂⟩ :
          PassState α) a =
          ⟨(passStep cm k a ⟨c1, c2, c3, c4, c5, sw⟩).1,
            m₂ ++ (passStep cm k a ⟨c1, c2, c3, c4, c5, sw⟩).2⟩ := rfl
      rw [hrs, ht2, ← hE, List.append_assoc]

theorem mapLookup_self_append (m : List (ℤ × SPosDetail α)) (key : ℤ) :
    mapLookup (m ++ m) key = mapLookup m key := by
  unfold mapLookup
  rw [List.reverse_append, List.find?_append]
  rcases h : m.reverse.find? (fun p => p.1 = key) with _ | p
  · rw [h]
    rfl
  · rw [h]
    rfl

set_option maxHeartbeats 1600000 in
/-- C8 amended: the only builder-object state that can change any record
of a second full pass is the per-column adjustment mark array
(`arrAdjMark_`).  Whenever the first run ends with all marks clear, a
second `CalculateAxisMoves` run against the same coil map appends a second
copy of the same row transcript, so the map it denotes is unchanged at
every key: the loop locals are re-initialised by the pass itself, and the
reused scratch detail can only differ in fields that a selected-mode
populate overwrites before emitting. -/
theorem C8_idempotent_amended (cm : CoilMap ℝ) (k : TrigKernel ℝ)
    (hmarks : (CalculateAxisMoves cm k initPassState).vars.arrAdjMark =
      ClearAllTransAdjust) (key : ℤ) :
    mapLookup (CalculateAxisMoves cm k
        (CalculateAxisMoves cm k initPassState)).scsAxisPositionMap key =
      mapLookup (CalculateAxisMoves cm k
        initPassState).scsAxisPositionMap key := by
  have hc1 : CalculateAxisMoves cm k initPassState =
      angleList.foldl (runStep cm k)
        (⟨⟨0, 0, false, 0, ClearAllTransAdjust, initPosDetail⟩, []⟩ :
          PassState ℝ) := rfl
  have hc2 : CalculateAxisMoves cm k
      (CalculateAxisMoves cm k initPassState) =
      angleList.foldl (runStep cm k)
        (⟨⟨0, 0, false, 0,
          (CalculateAxisMoves cm k initPassState).vars.arrAdjMark,
          (CalculateAxisMoves cm k initPassState).vars.scsPosDetail⟩,
          (CalculateAxisMoves cm k
            initPassState).scsAxisPositionMap⟩ : PassState ℝ) := rfl
  have hbw : scratchBase
      (CalculateAxisMoves cm k initPassState).vars.scsPosDetail := by
    rw [hc1]
    exact foldl_scratchBase cm k angleList
      (⟨⟨0, 0, false, 0, ClearAllTransAdjust, initPosDetail⟩, []⟩ :
        PassState ℝ)
      scratchBase_initPosDetail
  obtain ⟨scr1, hscr1⟩ : ∃ x, (CalculateAxisMoves cm k
      initPassState).vars.scsPosDetail = x := ⟨_, rfl⟩
  obtain ⟨map1, hmap1⟩ : ∃ x, (CalculateAxisMoves cm k
      initPassState).scsAxisPositionMap = x := ⟨_, rfl⟩
  have hc2' : CalculateAxisMoves cm k
      (CalculateAxisMoves cm k initPassState) =
      angleList.foldl (runStep cm k)
        (⟨⟨0, 0, false, 0, ClearAllTransAdjust, scr1⟩, map1⟩ :
          PassState ℝ) := by
    rw [hc2, hmarks, hscr1, hmap1]
  have hbw' : scratchBase scr1 := by
    rw [← hscr1]
    exact hbw
  obtain ⟨t, ht1, ht2⟩ := foldl_sim cm k angleList
    (⟨0, 0, false, 0, ClearAllTransAdjust, initPosDetail⟩ : PassVars ℝ)
    (⟨0, 0, false, 0, ClearAllTransAdjust, scr1⟩ : PassVars ℝ)
    rfl rfl rfl rfl rfl scratchBase_initPosDetail hbw'
    [] map1
  have hM1 : (CalculateAxisMoves cm k initPassState).scsAxisPositionMap =
      t := by
    rw [hc1, ht1]
    exact List.nil_append t
  have hM2 : (CalculateAxisMoves cm k
      (CalculateAxisMoves cm k initPassState)).scsAxisPositionMap =
      map1 ++ t := by
    rw [hc2']
    exact ht2
  have hm1t : map1 = t := hmap1.symm.trans hM1
  rw [hM2, hmap1, hm1t, mapLookup_self_append]

theorem cmEmpty_GetTurnLb (x : α) :
    GetTurnLb (cmEmpty : CoilMap α) x = -1 := by
  simp [GetTurnLb, lbCit, cmEmpty, ubIdx, NO_FEATURE]

theorem isLastTurnLb_negone (b : Bool) : isLastTurnLb (-1) b = false := by
  cases b <;> rfl

theorem cmEmpty_classifier (x : α) (hx : 0 ≤ x) :
    CalculateJoggleAdjustmentType (cmEmpty : CoilMap α) x =
      (JA_RET_NOM_ADV_NOM, RTN_NO_RESULTS_D α - x, RTN_NO_RESULTS_D α - x,
        0) := by
  have hub : GetJoggleUb (cmEmpty : CoilMap α) x = RTN_NO_RESULTS_D α := by
    simp [GetJoggleUb, cmEmpty]
  have hlb : GetJoggleLb (cmEmpty : CoilMap α) x = RTN_NO_RESULTS_D α := by
    simp [GetJoggleLb, cmEmpty, ubIdxA]
  have hlen : GetJoggleLengthLb (cmEmpty : CoilMap α)
      (RTN_NO_RESULTS_D α) = 0 := by
    have ht : GetTurnLb (cmEmpty : CoilMap α) (RTN_NO_RESULTS_D α) = -1 :=
      cmEmpty_GetTurnLb _
    simp [GetJoggleLengthLb, ht, TURNS_PER_LAYER]
  simp only [CalculateJoggleAdjustmentType, hub, hlb, hlen]
  rw [if_neg, if_neg, if_neg]
  · split_ifs <;> rfl
  · rintro ⟨ha, hb⟩
    rw [JOGGLE_FULL_RETRACT_THRESHOLD, RTN_NO_RESULTS_D] at hb
    linarith
  · rintro ⟨ha, hb⟩
    rw [JOGGLE_RETRACT_ADJ_THRESHOLD, RTN_NO_RESULTS_D] at hb
    linarith
  · rintro ⟨ha, hb⟩
    rw [JOGGLE_RETRACT_ADJ_THRESHOLD, RTN_NO_RESULTS_D] at ha
    linarith

theorem mapCoilStart_cmEmpty_fst (k : TrigKernel α) (s1 s2 s3 : α)
    (v : PassVars α) :
    (MapCoilStartScsPositions (cmEmpty : CoilMap α) k s1 s2 s3 v).1 =
      v := by
  simp only [MapCoilStartScsPositions, cmEmpty_isInTransitionLb]

/-- On the empty coil map every transition lookup fails, so no step of the
pass ever sets or clears a per-column adjustment mark. -/
theorem passStep_cmEmpty_marks (k : TrigKernel α) (a : ℤ)
    (v : PassVars α) (h0 : 0 ≤ a) :
    (passStep (cmEmpty : CoilMap α) k a v).1.arrAdjMark =
      v.arrAdjMark := by
  have hjt := cmEmpty_classifier ((a : ℤ) : α) (by exact_mod_cast h0)
  have hturn := cmEmpty_GetTurnLb ((a : ℤ) : α)
  simp only [passStep, passSeed]
  by_cases ha : a = INITIAL_COLUMN_ANGLE
  · rw [if_pos ha, mapCoilStart_cmEmpty_fst]
    simp only [hturn, isLastTurnLb_negone, passAdv_marks_notLastTurn, hjt,
      cmEmpty_isInTransitionLb]
    simp
  · rw [if_neg ha, cmEmpty_isLastMoveOfLayer]
    simp only [hturn, isLastTurnLb_negone, passAdv_marks_notLastTurn, hjt,
      cmEmpty_isInTransitionLb]
    simp

theorem angleList_nonneg (a : ℤ) (ha : a ∈ angleList) : 0 ≤ a := by
  simp only [angleList, List.mem_map, List.mem_range] at ha
  obtain ⟨i, hi, rfl⟩ := ha
  simp only [INITIAL_COLUMN_ANGLE, COLUMN_INCREMENT]
  omega

/-- A full pass over the empty coil map ends with all per-column adjustment
marks clear, as at construction. -/
theorem calcMoves_cmEmpty_marks (k : TrigKernel ℝ) :
    (CalculateAxisMoves (cmEmpty : CoilMap ℝ) k
      initPassState).vars.arrAdjMark = ClearAllTransAdjust := by
  have hcalc : CalculateAxisMoves (cmEmpty : CoilMap ℝ) k initPassState =
      angleList.foldl (runStep (cmEmpty : CoilMap ℝ) k)
        (⟨⟨0, 0, false, 0, ClearAllTransAdjust, initPosDetail⟩, []⟩ :
          PassState ℝ) := rfl
  obtain ⟨tail, heq, hQ, hP⟩ := foldl_workhorse (cmEmpty : CoilMap ℝ) k
    (fun v => v.arrAdjMark = ClearAllTransAdjust) (fun _ => True)
    angleList
    (⟨⟨0, 0, false, 0, ClearAllTransAdjust, initPosDetail⟩, []⟩ :
      PassState ℝ)
    rfl
    (fun a ha v hv =>
      (passStep_cmEmpty_marks k a v (angleList_nonneg a ha)).trans hv)
    (fun _ _ _ _ _ _ => trivial)
  rw [hcalc]
  exact hP

theorem C8_idempotent_amended_witness :
    (CalculateAxisMoves (cmEmpty : CoilMap ℝ) realKernel
        initPassState).vars.arrAdjMark = ClearAllTransAdjust ∧
    mapLookup (CalculateAxisMoves (cmEmpty : CoilMap ℝ) realKernel
        (CalculateAxisMoves (cmEmpty : CoilMap ℝ) realKernel
          initPassState)).scsAxisPositionMap (-140) =
      mapLookup (CalculateAxisMoves (cmEmpty : CoilMap ℝ) realKernel
        initPassState).scsAxisPositionMap (-140) :=
  ⟨calcMoves_cmEmpty_marks realKernel,
    C8_idempotent_amended (cmEmpty : CoilMap ℝ) realKernel
      (calcMoves_cmEmpty_marks realKernel) (-140)⟩

end AxisPositions


namespace CoilMap

variable {α : Type} [LinearOrderedField α]

/-- The Boost map invariant: the association list is strictly sorted by
key. -/
def keysSorted (cm : CoilMap α) : Prop :=
  cm.rows.Pairwise (fun p q => p.1 < q.1)

theorem ubIdx_append (l₁ l₂ : List (α × CmRow α)) (q : α)
    (h₁ : ∀ p ∈ l₁, p.1 ≤ q)
    (h₂ : ∀ p, l₂.head? = some p → q < p.1) :
    ubIdx (l₁ ++ l₂) q = l₁.length := by
  induction l₁ with
  | nil =>
    cases l₂ with
    | nil => rfl
    | cons p t =>
      have hq : q < p.1 := h₂ p rfl
      simp [ubIdx, not_le.mpr hq]
  | cons p t ih =>
    have hp : p.1 ≤ q := h₁ p (List.mem_cons_self p t)
    have ht : ∀ x ∈ t, x.1 ≤ q := fun x hx => h₁ x (List.mem_cons_of_mem p hx)
    simp [ubIdx, hp, ih ht]

theorem lbCit_append (cm : CoilMap α) (q : α) (l₁ : List (α × CmRow α))
    (p : α × CmRow α) (rest : List (α × CmRow α))
    (hrows : cm.rows = l₁ ++ p :: rest)
    (h₁ : ∀ x ∈ l₁, x.1 ≤ q) (hp : p.1 ≤ q)
    (hrest : ∀ x, rest.head? = some x → q < x.1) :
    lbCit cm q = some p := by
  have hidx : ubIdx cm.rows q = l₁.length + 1 := by
    have := ubIdx_append (l₁ ++ [p]) rest q
      (by
        intro x hx
        rcases List.mem_append.mp hx with hx | hx
        · exact h₁ x hx
        · simp only [List.mem_singleton] at hx
          subst hx; exact hp)
      hrest
    simpa [hrows, List.append_assoc] using this
  have hget : cm.rows[l₁.length]? = some p := by
    rw [hrows, List.getElem?_append_right le_rfl]
    simp
  simp [lbCit, hidx, hget]

theorem lbCit_head_lt (cm : CoilMap α) (q : α) (p : α × CmRow α)
    (t : List (α × CmRow α)) (hrows : cm.rows = p :: t) (hq : q < p.1) :
    lbCit cm q = some p := by
  have hidx : ubIdx cm.rows q = 0 := by
    have := ubIdx_append [] (p :: t) q (by simp)
      (by intro x hx; simp only [List.head?_cons, Option.some.injEq] at hx
          subst hx; exact hq)
    simpa [hrows] using this
  have hget : cm.rows[(0 : ℕ)]? = some p := by simp [hrows]
  simp [lbCit, hidx, hget]

theorem find?_key_eq (l : List (α × CmRow α))
    (hs : l.Pairwise (fun p q => p.1 < q.1))
    (A : α) (r : CmRow α) (hmem : (A, r) ∈ l) :
    l.find? (fun p => p.1 = A) = some (A, r) := by
  induction l with
  | nil => cases hmem
  | cons p t ih =>
    rcases List.mem_cons.mp hmem with hmem | hmem
    · subst hmem
      simp [List.find?_cons]
    · have hlt : p.1 < A := by
        have := (List.pairwise_cons.mp hs).1 (A, r) hmem
        simpa using this
      have hne : ¬ (p.1 = A) := ne_of_lt hlt
      rw [List.find?_cons]
      simp only [hne, decide_eq_false, Bool.false_eq_true, if_false]
      exact ih (List.pairwise_cons.mp hs).2 hmem

theorem find?_eq_of_mem_of_sorted (cm : CoilMap α) (hs : keysSorted cm)
    (A : α) (r : CmRow α) (hmem : (A, r) ∈ cm.rows) :
    cm.rows.find? (fun p => p.1 = A) = some (A, r) :=
  find?_key_eq cm.rows hs A r hmem

/-- C5: for every angle that is a key of the loaded coil map, the exact
query returns the row stored there, and for a query angle strictly between
two consecutive row angles, the at-or-before (lower-bound) queries return
the lower of the two rows. -/
theorem C5_exact_and_lowerBound_queries (cm : CoilMap ℝ) (hs : keysSorted cm)
    (A : ℝ) (r : CmRow ℝ) (hmem : (A, r) ∈ cm.rows)
    (l₁ l₂ : List (ℝ × CmRow ℝ)) (a₁ a₂ : ℝ) (r₁ r₂ : CmRow ℝ)
    (hsplit : cm.rows = l₁ ++ (a₁, r₁) :: (a₂, r₂) :: l₂)
    (q : ℝ) (hq₁ : a₁ < q) (hq₂ : q < a₂) :
    GetFhltar cm A = r ∧ GetAngle cm A = A ∧
    GetFhltarLb cm q = r₁ ∧ GetAngleLb cm q = a₁ := by
  have hfind := find?_eq_of_mem_of_sorted cm hs A r hmem
  have hcit : lbCit cm q = some (a₁, r₁) := by
    apply lbCit_append cm q l₁ (a₁, r₁) ((a₂, r₂) :: l₂) hsplit
    · intro x hx
      have hlt : x.1 < a₁ := by
        unfold keysSorted at hs
        rw [hsplit] at hs
        have := (List.pairwise_append.mp hs).2.2 x hx (a₁, r₁) (List.mem_cons_self _ _)
        simpa using this
      exact le_of_lt (lt_trans hlt hq₁)
    · exact le_of_lt hq₁
    · intro x hx
      simp only [List.head?_cons, Option.some.injEq] at hx
      subst hx
      exact hq₂
  refine ⟨?_, ?_, ?_, ?_⟩
  · simp [GetFhltar, hfind]
  · simp [GetAngle, hfind]
  · simp [GetFhltarLb, hcit]
  · simp [GetAngleLb, hcit]

/-- First row of the concrete two-row map used by the witnesses below. -/
def exRow0 : CmRow ℝ :=
  { fc := Fc.L, hqp := 1, layer := 1, turn := 1, azimuth := 30, radius := 900 }

/-- Second (last) row of the concrete two-row map used by the witnesses. -/
def exRow1 : CmRow ℝ :=
  { fc := Fc.J, hqp := 1, layer := 2, turn := 1, azimuth := 30, radius := 953 }

/-- A concrete loaded two-row coil map (rows at angles 0 and 100). -/
def exMap : CoilMap ℝ :=
  { rows := [((0 : ℝ), exRow0), ((100 : ℝ), exRow1)], joggles := [] }

/-- Witness for C5 at the concrete two-row map `exMap`. -/
theorem C5_exact_and_lowerBound_queries_witness :
    GetFhltar exMap 0 = exRow0 ∧ GetAngle exMap 0 = 0 ∧
    GetFhltarLb exMap 40 = exRow0 ∧ GetAngleLb exMap 40 = 0 := by
  exact C5_exact_and_lowerBound_queries exMap
    (by unfold keysSorted exMap; norm_num)
    0 exRow0 (by simp [exMap]) [] [] 0 100 exRow0 exRow1 rfl 40
    (by norm_num) (by norm_num)

/-- C6 counterexample: at the last row's angle of the concrete loaded map
`exMap`, the at-or-before queries do NOT yield the no-result sentinel: they
return the last row itself (`upper_bound` is already `end()`, and the
step-back-one lands on the last row).  This refutes the claim (and the
source's own `BUG` comment) that the query behaves as if there were no
lower bound. -/
theorem C6_lastRow_counterexample :
    GetAngleLb exMap 100 = 100 ∧ GetFhltarLb exMap 100 = exRow1 ∧
    (100 : ℝ) ≠ NO_FEATURE_D ℝ ∧ exRow1 ≠ sentinelRow ℝ := by
  have hcit : lbCit exMap 100 = some ((100 : ℝ), exRow1) := by
    apply lbCit_append exMap 100 [((0 : ℝ), exRow0)] ((100 : ℝ), exRow1) []
      rfl (by norm_num) le_rfl (by intro x hx; cases hx)
  refine ⟨by simp [GetAngleLb, hcit], by simp [GetFhltarLb, hcit], ?_, ?_⟩
  · unfold NO_FEATURE_D; norm_num
  · unfold exRow1 sentinelRow
    intro h
    cases h

/-- C6 amended: when the query angle equals the last row's angle of a
loaded (sorted, non-empty) coil map, the at-or-before queries return that
last row (the behaviour the source's `BUG` comment denies does not actually
occur in the `upper_bound`-then-step-back implementation). -/
theorem C6_lastRow_amended (cm : CoilMap ℝ) (hs : keysSorted cm)
    (l₁ : List (ℝ × CmRow ℝ)) (aL : ℝ) (rL : CmRow ℝ)
    (hrows : cm.rows = l₁ ++ [(aL, rL)]) :
    GetAngleLb cm aL = aL ∧ GetFhltarLb cm aL = rL := by
  have hcit : lbCit cm aL = some (aL, rL) := by
    apply lbCit_append cm aL l₁ (aL, rL) [] hrows
    · intro x hx
      have hlt : x.1 < aL := by
        unfold keysSorted at hs
        rw [hrows] at hs
        have := (List.pairwise_append.mp hs).2.2 x hx (aL, rL)
          (List.mem_singleton_self _)
        simpa using this
      exact le_of_lt hlt
    · exact le_rfl
    · intro x hx; cases hx
  exact ⟨by simp [GetAngleLb, hcit], by simp [GetFhltarLb, hcit]⟩

/-- Witness for the amended C6 at the concrete two-row map. -/
theorem C6_lastRow_amended_witness :
    GetAngleLb exMap 100 = 100 ∧ GetFhltarLb exMap 100 = exRow1 := by
  exact C6_lastRow_amended exMap (by unfold keysSorted exMap; norm_num)
    [((0 : ℝ), exRow0)] 100 exRow1 rfl

/-- C10: for a query angle strictly smaller than the smallest row angle of a
non-empty loaded coil map, the at-or-before queries return the first row's
values (the step-back-one implementation cannot decrement past `begin()`),
not the no-result sentinel. -/
theorem C10_below_first_row (cm : CoilMap ℝ) (a₀ : ℝ) (r₀ : CmRow ℝ)
    (t : List (ℝ × CmRow ℝ)) (hrows : cm.rows = (a₀, r₀) :: t)
    (q : ℝ) (hq : q < a₀) :
    GetAngleLb cm q = a₀ ∧ GetFhltarLb cm q = r₀ := by
  have hcit : lbCit cm q = some (a₀, r₀) := lbCit_head_lt cm q (a₀, r₀) t hrows hq
  exact ⟨by simp [GetAngleLb, hcit], by simp [GetFhltarLb, hcit]⟩

/-- Witness for C10 at the concrete two-row map. -/
theorem C10_below_first_row_witness :
    GetAngleLb exMap (-5) = 0 ∧ GetFhltarLb exMap (-5) = exRow0 := by
  exact C10_below_first_row exMap 0 exRow0 [((100 : ℝ), exRow1)] rfl (-5)
    (by norm_num)

end CoilMap

end ScsData
